import Mathlib

/-!
# nvgpu: scheduler event log and control-fifo buffer mapping

A shallow embedding of `nvsched/src/logging.c` (the circular event log) and of
`drivers/gpu/nvgpu/os/linux/dmabuf_nvs.c` (mapping of the control-fifo
buffers), with the properties proved about them.

Conventions: `u32` values are `Nat` reduced modulo `2 ^ 32` where the C code
can wrap, `s64` values are `Int` reduced by `wrap_s64`, pointers that may be
`NULL` are `Option`, and calls into collaborators whose result the code
branches on (allocators, the clock, `nvgpu_get`) take that result as an
argument.
-/

namespace logging

/-! ## Data model of `logging.c` -/

/-- Two's complement reduction of an integer to the range of `s64`. -/
def wrap_s64 (x : Int) : Int :=
  (x + 2 ^ 63) % 2 ^ 64 - 2 ^ 63

/-- The enumerators of `enum nvs_event` that `logging.c` names. The header
declaring them (`nvs/log.h`) is not part of the sources, so their numeric
values are parameters. -/
structure nvs_event_enum where
  NVS_EV_NO_EVENT : Int
  NVS_EV_CREATE_SCHED : Int
  NVS_EV_CREATE_DOMAIN : Int
  NVS_EV_REMOVE_DOMAIN : Int
  NVS_EV_MAX : Int
  deriving DecidableEq

/-- The numbering a C compiler gives the enumerators when they are declared
in the order of the `switch` of `nvs_log_event_string`, without initialisers. -/
def nvs_event_c : nvs_event_enum :=
  { NVS_EV_NO_EVENT := 0, NVS_EV_CREATE_SCHED := 1, NVS_EV_CREATE_DOMAIN := 2,
    NVS_EV_REMOVE_DOMAIN := 3, NVS_EV_MAX := 4 }

/-- The record `struct nvs_log_event`: the fields `logging.c` assigns. -/
structure struct_nvs_log_event where
  timestamp : Int
  event : Int
  data : Nat
  deriving DecidableEq

/-- A record as `nvs_memset(..., 0, ...)` leaves it. -/
def zero_event : struct_nvs_log_event :=
  { timestamp := 0, event := 0, data := 0 }

/-- The log `struct nvs_log_buffer`: the fields `logging.c` uses. -/
structure nvs_log_buffer where
  ts_offset : Int
  events : List struct_nvs_log_event
  entries : Nat
  get : Nat
  put : Nat
  deriving DecidableEq

/-- The macro `LOG_INC(value, max)` on `u32`: add one, reset to zero on
reaching `max`. -/
def LOG_INC (value max : Nat) : Nat :=
  let value1 := (value + 1) % 2 ^ 32
  if value1 ≥ max then 0 else value1

/-- The function `nvs_log_full`. -/
def nvs_log_full (logger : nvs_log_buffer) : Bool :=
  let updated_put := LOG_INC logger.put logger.entries
  updated_put == logger.get

/-- The function `nvs_log_event`, with `now` the value `nvs_timestamp()`
returns during the call. The store to `events[put]` is `List.set`, which
changes nothing when `put` is outside the array (where C has no defined
behaviour). -/
def nvs_log_event (logger : nvs_log_buffer) (now : Int) (event : Int) (data : Nat) :
    nvs_log_buffer :=
  let logger1 : nvs_log_buffer :=
    if nvs_log_full logger then
      { logger with get := LOG_INC logger.get logger.entries }
    else logger
  let ev : struct_nvs_log_event :=
    { data := data, event := event, timestamp := wrap_s64 (now - logger1.ts_offset) }
  let logger2 : nvs_log_buffer :=
    { logger1 with events := logger1.events.set logger1.put ev }
  { logger2 with put := LOG_INC logger2.put logger2.entries }

/-- The function `nvs_log_get`: the log after the call and the caller's record
`*ev` after the call (`ev` is its content before the call). The load of
`events[get]` yields `zero_event` when `get` is outside the array (where C has
no defined behaviour). -/
def nvs_log_get (K : nvs_event_enum) (logger : nvs_log_buffer) (ev : struct_nvs_log_event) :
    nvs_log_buffer × struct_nvs_log_event :=
  if logger.get = logger.put then
    (logger, { ev with event := K.NVS_EV_NO_EVENT })
  else
    ({ logger with get := LOG_INC logger.get logger.entries },
      logger.events.getD logger.get zero_event)

/-- The function `nvs_log_event_string`: the `switch` tries its cases in
order, anything else falls through to the final `return`. -/
def nvs_log_event_string (K : nvs_event_enum) (ev : Int) : String :=
  if ev = K.NVS_EV_NO_EVENT then "No event"
  else if ev = K.NVS_EV_CREATE_SCHED then "Create scheduler"
  else if ev = K.NVS_EV_CREATE_DOMAIN then "Create domain"
  else if ev = K.NVS_EV_REMOVE_DOMAIN then "Remove domain"
  else if ev = K.NVS_EV_MAX then "Invalid MAX event"
  else "Undefined event"

/-- Linux error number `ENOMEM`. -/
def ENOMEM : Int := 12

/-- The scheduler `struct nvs_sched` as `logging.c` sees it: the `log` pointer,
and the number of blocks obtained through `nvs_malloc(sched, ..)` and not yet
given back through `nvs_free(sched, ..)`. -/
structure nvs_sched where
  log : Option nvs_log_buffer
  live_blocks : Nat
  deriving DecidableEq

/-- The function `nvs_log_init`. `NVS_LOG_ENTRIES` is the value of the macro
(declared in a header that is not part of the sources), `now` is what
`nvs_timestamp()` returns, `malloc_logger` and `malloc_events` tell whether the
first and the second `nvs_malloc` return a block. The result is the return
value and the scheduler after the call. -/
def nvs_log_init (NVS_LOG_ENTRIES : Nat) (sched : nvs_sched) (now : Int)
    (malloc_logger malloc_events : Bool) : Int × nvs_sched :=
  if !malloc_logger then
    (-ENOMEM, sched)
  else
    let sched1 : nvs_sched := { sched with live_blocks := sched.live_blocks + 1 }
    let logger0 : nvs_log_buffer :=
      { ts_offset := 0, events := [], entries := 0, get := 0, put := 0 }
    let logger1 : nvs_log_buffer := { logger0 with ts_offset := now }
    let logger2 : nvs_log_buffer := { logger1 with entries := NVS_LOG_ENTRIES }
    if !malloc_events then
      (-ENOMEM, { sched1 with live_blocks := sched1.live_blocks - 1 })
    else
      let sched2 : nvs_sched := { sched1 with live_blocks := sched1.live_blocks + 1 }
      let logger3 : nvs_log_buffer :=
        { logger2 with events := List.replicate NVS_LOG_ENTRIES zero_event }
      (0, { sched2 with log := some logger3 })

/-! ## Vocabulary for the properties of the log -/

/-- The log that a successful `nvs_log_init` installs. -/
def fresh_log (NVS_LOG_ENTRIES : Nat) (now : Int) : nvs_log_buffer :=
  { ts_offset := now, events := List.replicate NVS_LOG_ENTRIES zero_event,
    entries := NVS_LOG_ENTRIES, get := 0, put := 0 }

/-- Well-formed log: `entries` is a `u32`, the array has `entries` slots and
both indices are inside it. -/
def log_wf (l : nvs_log_buffer) : Prop :=
  l.entries < 2 ^ 32 ∧ l.events.length = l.entries ∧ l.get < l.entries ∧ l.put < l.entries

instance (l : nvs_log_buffer) : Decidable (log_wf l) := by
  unfold log_wf; infer_instance

/-- Number of records between `get` and `put`, going round the ring. -/
def stored_count (l : nvs_log_buffer) : Nat :=
  if l.get ≤ l.put then l.put - l.get else l.put + l.entries - l.get

/-- Index of the slot `i` places after `get`, going round the ring. -/
def slot_index (l : nvs_log_buffer) (i : Nat) : Nat :=
  if l.get + i < l.entries then l.get + i else l.get + i - l.entries

/-- The records a reader can still retrieve, oldest first: the slots from
`get` up to, not including, `put`. -/
def stored (l : nvs_log_buffer) : List struct_nvs_log_event :=
  (List.range (stored_count l)).map fun i => l.events.getD (slot_index l i) zero_event

/-- The record `nvs_log_event` writes for a call at clock value `now`. -/
def event_record (l : nvs_log_buffer) (now : Int) (event : Int) (data : Nat) :
    struct_nvs_log_event :=
  { timestamp := wrap_s64 (now - l.ts_offset), event := event, data := data }

/-- The last `n` elements of a list. -/
def keep_last {α : Type} (n : Nat) (xs : List α) : List α :=
  xs.drop (xs.length - n)

/-- One logging call: clock value, event kind, data. -/
structure log_call where
  now : Int
  event : Int
  data : Nat
  deriving DecidableEq

/-- A sequence of `nvs_log_event` calls, in order. -/
def log_events (l : nvs_log_buffer) (calls : List log_call) : nvs_log_buffer :=
  calls.foldl (fun acc c => nvs_log_event acc c.now c.event c.data) l

/-- Calling `nvs_log_get` `n` times with the same caller record: the log
afterwards and what `*ev` held after each call. -/
def nvs_log_get_n (K : nvs_event_enum) :
    Nat → nvs_log_buffer → struct_nvs_log_event → nvs_log_buffer × List struct_nvs_log_event
  | 0, l, _ => (l, [])
  | n + 1, l, ev =>
    let r := nvs_log_get K l ev
    let rest := nvs_log_get_n K n r.1 r.2
    (rest.1, r.2 :: rest.2)

/-- A call a user of `logging.c` makes on the log. -/
inductive log_op where
  | event (now : Int) (event : Int) (data : Nat)
  | get
  deriving DecidableEq

/-- State of a run of calls: the log, the caller's record `*ev`, and the
records `nvs_log_get` has popped so far, in order. -/
structure log_run where
  log : nvs_log_buffer
  ev : struct_nvs_log_event
  returned : List struct_nvs_log_event
  deriving DecidableEq

/-- One call of a run. -/
def log_step (K : nvs_event_enum) (s : log_run) : log_op → log_run
  | .event now event data => { s with log := nvs_log_event s.log now event data }
  | .get =>
    let r := nvs_log_get K s.log s.ev
    { log := r.1, ev := r.2,
      returned := if s.log.get = s.log.put then s.returned else s.returned ++ [r.2] }

/-- A run of calls, in order. -/
def log_run_ops (K : nvs_event_enum) (s : log_run) (ops : List log_op) : log_run :=
  ops.foldl (log_step K) s

/-- The clock values the calls of a run read, in order (only `nvs_log_event`
reads the clock). -/
def clock_readings : List log_op → List Int
  | [] => []
  | .event now _ _ :: ops => now :: clock_readings ops
  | .get :: ops => clock_readings ops

/-- The records the `nvs_log_event` calls of a run write, in order, for a log
whose `ts_offset` is `t0`. -/
def written_records (t0 : Int) : List log_op → List struct_nvs_log_event
  | [] => []
  | .event now event data :: ops =>
    { timestamp := wrap_s64 (now - t0), event := event, data := data } ::
      written_records t0 ops
  | .get :: ops => written_records t0 ops

end logging

namespace dmabuf_nvs

/-! ## Data model of `dmabuf_nvs.c` -/

/-- Linux error number `EINVAL`. -/
def EINVAL : Int := 22

/-- Linux error number `ENODEV`. -/
def ENODEV : Int := 19

/-- Linux error number `ENOMEM`. -/
def ENOMEM : Int := 12

/-- Linux `VM_SHARED`. -/
def VM_SHARED : Nat := 0x00000008

/-- Linux `VM_DONTCOPY`. -/
def VM_DONTCOPY : Nat := 0x00020000

/-- Linux `VM_DONTEXPAND`. -/
def VM_DONTEXPAND : Nat := 0x00040000

/-- Linux `VM_NORESERVE`. -/
def VM_NORESERVE : Nat := 0x00200000

/-- Linux `VM_DONTDUMP`. -/
def VM_DONTDUMP : Nat := 0x04000000

/-- A pointer to a `struct vm_operations_struct`: `NULL`, the table
`nvs_vma_ops` of this file, or some other table. -/
inductive vm_ops_ptr where
  | null
  | nvs_vma_ops
  | other (addr : Nat)
  deriving DecidableEq

/-- The mapping record `struct nvgpu_nvs_domain_ctrl_fifo_user_vma`: its own
address (what `nvgpu_kzalloc` returned), and the `vma` and `buf` pointers it
stores. -/
structure nvgpu_nvs_domain_ctrl_fifo_user_vma where
  addr : Nat
  vma : Option Nat
  buf : Nat
  deriving DecidableEq

/-- The fields of `struct vm_area_struct` the file uses; `addr` is the address
of the structure, `ptes_mapped` tells whether `nvgpu_dma_mmap_sys` has mapped
pages into it that `zap_vma_ptes` has not yet removed. -/
structure vm_area_struct where
  addr : Nat
  vm_start : Nat
  vm_end : Nat
  vm_pgoff : Nat
  vm_flags : Nat
  vm_ops : vm_ops_ptr
  vm_private_data : Option Nat
  ptes_mapped : Bool
  deriving DecidableEq

/-- The private record `struct nvgpu_nvs_linux_buf_priv`: the fields the file
uses. `list_mapped_user_vmas` is the list of mapping records, head first. -/
structure nvgpu_nvs_linux_buf_priv where
  read_only : Bool
  ref : Nat
  list_mapped_user_vmas : List nvgpu_nvs_domain_ctrl_fifo_user_vma
  deriving DecidableEq

/-- The buffer `struct nvgpu_nvs_ctrl_queue` as the file sees it: its address,
`mem.size` and the private record `priv` points to. -/
structure nvgpu_nvs_ctrl_queue where
  addr : Nat
  mem_size : Nat
  priv : nvgpu_nvs_linux_buf_priv
  deriving DecidableEq

/-- The device `struct gk20a` as the file sees it: the number of references
taken with `nvgpu_get` and not yet dropped with `nvgpu_put`, whether the queue
lock (`nvgpu_nvs_ctrl_fifo_lock_queues`) is held, and how often it has been
taken and released. -/
structure gk20a where
  dev_refs : Nat
  queue_lock_held : Bool
  lock_calls : Nat
  unlock_calls : Nat
  deriving DecidableEq

/-- What a call of this file works on: the device, the buffer and the vma. -/
structure mmap_state where
  g : gk20a
  buf : nvgpu_nvs_ctrl_queue
  vma : vm_area_struct
  deriving DecidableEq

/-- The value of `vma->vm_end - vma->vm_start` in `unsigned long` (64 bit)
arithmetic. -/
def vma_length (vma : vm_area_struct) : Nat :=
  (vma.vm_end % 2 ^ 64 + 2 ^ 64 - vma.vm_start % 2 ^ 64) % 2 ^ 64

/-- The function `nvgpu_nvs_ctrl_fifo_lock_queues`. -/
def nvgpu_nvs_ctrl_fifo_lock_queues (g : gk20a) : gk20a :=
  { g with queue_lock_held := true, lock_calls := g.lock_calls + 1 }

/-- The function `nvgpu_nvs_ctrl_fifo_unlock_queues`. -/
def nvgpu_nvs_ctrl_fifo_unlock_queues (g : gk20a) : gk20a :=
  { g with queue_lock_held := false, unlock_calls := g.unlock_calls + 1 }

/-- The function `zap_vma_entries`: the page-table entries of the vma are
removed. -/
def zap_vma_entries (vma : vm_area_struct) : vm_area_struct :=
  { vma with ptes_mapped := false }

/-- The function `nvgpu_nvs_buf_mmap`. `get_ok` tells whether `nvgpu_get`
obtains a device reference, `mmap_err` is the return value of
`nvgpu_dma_mmap_sys` (which maps the pages when it returns 0), `kzalloc` is the
address `nvgpu_kzalloc` returns (`none` for `NULL`). The result is the return
value and the state after the call. -/
def nvgpu_nvs_buf_mmap (s : mmap_state) (get_ok : Bool) (mmap_err : Int)
    (kzalloc : Option Nat) : Int × mmap_state :=
  if vma_length s.vma > s.buf.mem_size then
    (-EINVAL, s)
  else if s.vma.vm_pgoff ≠ 0 then
    (-EINVAL, s)
  else if !get_ok then
    (-ENODEV, s)
  else
    let g1 : gk20a := { s.g with dev_refs := s.g.dev_refs + 1 }
    let g2 := nvgpu_nvs_ctrl_fifo_lock_queues g1
    let vma1 : vm_area_struct :=
      { s.vma with vm_flags := s.vma.vm_flags |||
          (VM_DONTCOPY ||| VM_DONTEXPAND ||| VM_NORESERVE ||| VM_DONTDUMP) }
    let vma2 : vm_area_struct :=
      if s.buf.priv.read_only then { vma1 with vm_flags := vma1.vm_flags ||| VM_SHARED }
      else vma1
    let vm_ops_old := vma2.vm_ops
    let vma3 : vm_area_struct := { vma2 with vm_ops := vm_ops_ptr.nvs_vma_ops }
    if mmap_err ≠ 0 then
      -- fail:
      let vma4 : vm_area_struct := { vma3 with vm_ops := vm_ops_old }
      (mmap_err, { s with g := nvgpu_nvs_ctrl_fifo_unlock_queues g2, vma := vma4 })
    else
      let vma4 : vm_area_struct := { vma3 with ptes_mapped := true }
      match kzalloc with
      | none =>
        let vma5 := zap_vma_entries vma4
        -- fail:
        let vma6 : vm_area_struct := { vma5 with vm_ops := vm_ops_old }
        (-ENOMEM, { s with g := nvgpu_nvs_ctrl_fifo_unlock_queues g2, vma := vma6 })
      | some p =>
        let vma_metadata : nvgpu_nvs_domain_ctrl_fifo_user_vma :=
          { addr := p, vma := some vma4.addr, buf := s.buf.addr }
        let priv1 : nvgpu_nvs_linux_buf_priv :=
          { s.buf.priv with ref := (s.buf.priv.ref + 1) % 2 ^ 32 }
        let priv2 : nvgpu_nvs_linux_buf_priv :=
          { priv1 with
            list_mapped_user_vmas := priv1.list_mapped_user_vmas ++ [vma_metadata] }
        let vma5 : vm_area_struct := { vma4 with vm_private_data := some p }
        (0, { g := nvgpu_nvs_ctrl_fifo_unlock_queues g2,
              buf := { s.buf with priv := priv2 },
              vma := vma5 })

/-- The `u32` decrement `x--`: one less, wrapping from 0 to `2 ^ 32 - 1`. -/
def u32_dec (x : Nat) : Nat :=
  if x % 2 ^ 32 = 0 then 2 ^ 32 - 1 else x % 2 ^ 32 - 1

/-- The function `nvs_vma_close`. The result is `none` where C has no defined
behaviour: `vma->vm_private_data` is `NULL`, or does not point to a mapping
record linked in the list of this buffer, or that record's `buf` is not this
buffer. Otherwise it is the state after the call; `nvgpu_list_del` unlinks the
record, `nvgpu_put` drops one device reference. -/
def nvs_vma_close (s : mmap_state) : Option mmap_state :=
  match s.vma.vm_private_data with
  | none => none
  | some p =>
    match s.buf.priv.list_mapped_user_vmas.find? (fun r => r.addr == p) with
    | none => none
    | some vma_metadata =>
      if vma_metadata.buf ≠ s.buf.addr then none
      else
        let g1 := nvgpu_nvs_ctrl_fifo_lock_queues s.g
        let priv1 : nvgpu_nvs_linux_buf_priv :=
          { s.buf.priv with ref := u32_dec s.buf.priv.ref }
        let priv2 : nvgpu_nvs_linux_buf_priv :=
          { priv1 with
            list_mapped_user_vmas := priv1.list_mapped_user_vmas.erase vma_metadata }
        let vma1 : vm_area_struct := { s.vma with vm_private_data := none }
        let g2 := nvgpu_nvs_ctrl_fifo_unlock_queues g1
        let g3 : gk20a := { g2 with dev_refs := g2.dev_refs - 1 }
        some { g := g3, buf := { s.buf with priv := priv2 }, vma := vma1 }

/-- The function `nvs_release_user_mappings_locked` on the private record and
the vmas of the system: for every record of the list, in order, the vma it
points to is zapped and `ref` is decremented (`u32`). The list itself is not
changed. The result is the return value, the record and the vmas afterwards. -/
def nvs_release_user_mappings_locked (linux_buf : nvgpu_nvs_linux_buf_priv)
    (vmas : List vm_area_struct) : Int × nvgpu_nvs_linux_buf_priv × List vm_area_struct :=
  let err : Int := 0
  let r := linux_buf.list_mapped_user_vmas.foldl
    (fun (acc : nvgpu_nvs_linux_buf_priv × List vm_area_struct) current_entry =>
      ({ acc.1 with ref := u32_dec acc.1.ref },
        acc.2.map fun vma =>
          if current_entry.vma = some vma.addr then zap_vma_entries vma else vma))
    (linux_buf, vmas)
  (err, r.1, r.2)

/-- The function `nvgpu_nvs_buf_linux_is_mapped`. -/
def nvgpu_nvs_buf_linux_is_mapped (buf : nvgpu_nvs_ctrl_queue) : Bool :=
  let is_mapped := buf.priv.ref != 0
  is_mapped

/-- Linux `O_RDONLY`. -/
def O_RDONLY : Nat := 0

/-- Linux `O_WRONLY`. -/
def O_WRONLY : Nat := 1

/-- Linux `O_RDWR`. -/
def O_RDWR : Nat := 2

/-- Linux `O_ACCMODE`, the mask of the access mode in file flags. -/
def O_ACCMODE : Nat := 3

/-- Linux `O_CLOEXEC` (octal 02000000). -/
def O_CLOEXEC : Nat := 0x80000

/-- The string `exporter_name`. -/
def exporter_name : String := "nvgpu_ctrl_fifo"

/-- Linux `struct dma_buf_export_info`: the fields the file fills in. `priv` is
the address of the buffer, `ops_is_gk20a_nvs_ops` tells that `ops` is the table
`gk20a_nvs_ops` of this file. -/
structure dma_buf_export_info where
  priv : Nat
  ops_is_gk20a_nvs_ops : Bool
  size : Nat
  flags : Nat
  exp_name : String
  deriving DecidableEq

/-- Linux `struct dma_buf`, the exported handle: what `dma_buf_export` copies
into it from the export information. -/
structure dma_buf where
  priv : Nat
  ops_is_gk20a_nvs_ops : Bool
  size : Nat
  file_flags : Nat
  exp_name : String
  deriving DecidableEq

/-- Linux `dma_buf_export`: an `ERR_PTR` with the error `export_err` when that
is given, else a handle built from the export information. -/
def dma_buf_export (exp_info : dma_buf_export_info) (export_err : Option Int) :
    Except Int dma_buf :=
  match export_err with
  | some e => Except.error e
  | none =>
    Except.ok { priv := exp_info.priv, ops_is_gk20a_nvs_ops := exp_info.ops_is_gk20a_nvs_ops,
                size := exp_info.size, file_flags := exp_info.flags,
                exp_name := exp_info.exp_name }

/-- The export information `nvgpu_nvs_buf_export_dmabuf` fills in for a buffer
at address `buf_addr` whose `mem.size` is `mem_size`. -/
def nvgpu_nvs_buf_export_info (buf_addr mem_size : Nat) (read_only : Bool) :
    dma_buf_export_info :=
  let flags := (if read_only then O_RDONLY else O_RDWR) ||| O_CLOEXEC
  { priv := buf_addr, ops_is_gk20a_nvs_ops := true, size := mem_size, flags := flags,
    exp_name := exporter_name }

/-- The function `nvgpu_nvs_buf_export_dmabuf`: what `dma_buf_export` returns
for the export information it fills in. -/
def nvgpu_nvs_buf_export_dmabuf (buf_addr mem_size : Nat) (read_only : Bool)
    (export_err : Option Int) : Except Int dma_buf :=
  dma_buf_export (nvgpu_nvs_buf_export_info buf_addr mem_size read_only) export_err

/-- A pointer to a buffer destructor (`buf->free`): the function
`nvgpu_nvs_destroy_buf_linux_locked` of this file, or some other function. -/
inductive free_callback where
  | nvgpu_nvs_destroy_buf_linux_locked
  | other (addr : Nat)
  deriving DecidableEq

/-- The buffer `struct nvgpu_nvs_ctrl_queue` as `nvgpu_nvs_get_buf_linux` sees
it, where `priv` and `free` may still be `NULL`: its address, whether `mem` holds
an allocation and of which size, the access mask, `priv` with the `dmabuf`
pointer stored in it, and `free`. -/
structure ctrl_queue_slot where
  addr : Nat
  mem_valid : Bool
  mem_size : Nat
  mask : Nat
  priv : Option nvgpu_nvs_linux_buf_priv
  priv_dmabuf : Option dma_buf
  free : Option free_callback
  deriving DecidableEq

/-- Modelled from the spec: `nvgpu_nvs_buffer_alloc`, whose code is not part of
the sources (`buffer_alloc(size, access_mask) -> Queue`, which can fail). With
`alloc_err = 0` the buffer gets a memory region of `bytes` bytes and the access
mask; otherwise the call fails with that code and the buffer is as before. -/
def nvgpu_nvs_buffer_alloc (bytes mask : Nat) (buf : ctrl_queue_slot) (alloc_err : Int) :
    Int × ctrl_queue_slot :=
  if alloc_err = 0 then
    (0, { buf with mem_valid := true, mem_size := bytes, mask := mask })
  else
    (alloc_err, buf)

/-- Modelled from the spec: `nvgpu_nvs_buffer_free`, whose code is not part of
the sources (`buffer_free(queue)`, the release of the memory region). It is
called here for its effect only; `priv` and `free` belong to this file and are
left alone. -/
def nvgpu_nvs_buffer_free (buf : ctrl_queue_slot) : ctrl_queue_slot :=
  { buf with mem_valid := false, mem_size := 0 }

/-- What `nvgpu_nvs_get_buf_linux` works on: the device, the buffer, and the
number of blocks obtained from `nvgpu_kzalloc` and not yet given back. -/
structure get_buf_state where
  g : gk20a
  buf : ctrl_queue_slot
  kmem_live : Nat
  deriving DecidableEq

/-- The function `nvgpu_nvs_get_buf_linux`. `get_ok` tells whether `nvgpu_get`
obtains a device reference, `kzalloc_ok` whether `nvgpu_kzalloc` returns a
block, `alloc_err` is the return value of `nvgpu_nvs_buffer_alloc`,
`export_err` the error of the `ERR_PTR` that `dma_buf_export` returns (`none`
when it returns a handle). The result is the return value and the state after
the call. -/
def nvgpu_nvs_get_buf_linux (s : get_buf_state) (bytes mask : Nat) (read_only : Bool)
    (get_ok kzalloc_ok : Bool) (alloc_err : Int) (export_err : Option Int) :
    Int × get_buf_state :=
  if !get_ok then
    (-ENODEV, s)
  else
    let g1 : gk20a := { s.g with dev_refs := s.g.dev_refs + 1 }
    if !kzalloc_ok then
      -- fail: (priv is NULL, nvgpu_kfree does nothing)
      (-ENOMEM, { s with g := { g1 with dev_refs := g1.dev_refs - 1 },
                         buf := nvgpu_nvs_buffer_free s.buf })
    else
      let kmem1 := s.kmem_live + 1
      let priv0 : nvgpu_nvs_linux_buf_priv :=
        { read_only := false, ref := 0, list_mapped_user_vmas := [] }
      let priv1 : nvgpu_nvs_linux_buf_priv := { priv0 with read_only := read_only }
      let r := nvgpu_nvs_buffer_alloc bytes mask s.buf alloc_err
      if r.1 ≠ 0 then
        -- fail:
        (r.1, { g := { g1 with dev_refs := g1.dev_refs - 1 },
                buf := nvgpu_nvs_buffer_free r.2,
                kmem_live := kmem1 - 1 })
      else
        match nvgpu_nvs_buf_export_dmabuf r.2.addr r.2.mem_size read_only export_err with
        | Except.error e =>
          -- fail:
          (e, { g := { g1 with dev_refs := g1.dev_refs - 1 },
                buf := nvgpu_nvs_buffer_free r.2,
                kmem_live := kmem1 - 1 })
        | Except.ok dmabuf =>
          (0, { g := g1,
                buf := { r.2 with priv := some priv1, priv_dmabuf := some dmabuf,
                                  free := some free_callback.nvgpu_nvs_destroy_buf_linux_locked },
                kmem_live := kmem1 })

/-- The buffer as the mapping functions see it, once `priv` is set. -/
def ctrl_queue_view (b : ctrl_queue_slot) : Option nvgpu_nvs_ctrl_queue :=
  b.priv.map fun p => { addr := b.addr, mem_size := b.mem_size, priv := p }

/-! ## Vocabulary for the properties of the buffer mappings -/

/-- A buffer with its device and the vmas that currently map it, with the
numbers of successful `nvgpu_nvs_buf_mmap` calls and of `nvs_vma_close` calls
made so far. -/
structure buf_world where
  g : gk20a
  buf : nvgpu_nvs_ctrl_queue
  open_vmas : List vm_area_struct
  maps : Nat
  closes : Nat
  deriving DecidableEq

/-- A call the kernel makes on a buffer: a mapping request for a new vma with
the results of the collaborators, or the close of the `i`-th open mapping. -/
inductive buf_op where
  | mmap (vma : vm_area_struct) (get_ok : Bool) (mmap_err : Int) (kzalloc : Option Nat)
  | close (i : Nat)
  deriving DecidableEq

/-- One call on a buffer. A close of a mapping that is not open does not take
place. -/
def buf_step (w : buf_world) : buf_op → buf_world
  | .mmap vma get_ok mmap_err kzalloc =>
    let r := nvgpu_nvs_buf_mmap ⟨w.g, w.buf, vma⟩ get_ok mmap_err kzalloc
    if r.1 = 0 then
      { g := r.2.g, buf := r.2.buf, open_vmas := w.open_vmas ++ [r.2.vma],
        maps := w.maps + 1, closes := w.closes }
    else
      { w with g := r.2.g, buf := r.2.buf }
  | .close i =>
    match w.open_vmas[i]? with
    | none => w
    | some vma =>
      match nvs_vma_close ⟨w.g, w.buf, vma⟩ with
      | none => w
      | some s =>
        { g := s.g, buf := s.buf, open_vmas := w.open_vmas.eraseIdx i,
          maps := w.maps, closes := w.closes + 1 }

/-- A run of calls on a buffer, in order. -/
def buf_run (w : buf_world) (ops : List buf_op) : buf_world :=
  ops.foldl buf_step w

/-- The allocator hands out only blocks that are not in use: in a run, every
address `nvgpu_kzalloc` returns differs from the addresses of the mapping
records linked at that time. -/
def kzalloc_fresh (w : buf_world) : List buf_op → Bool
  | [] => true
  | op :: ops =>
    (match op with
      | .mmap _ _ _ (some p) =>
        decide (p ∉ w.buf.priv.list_mapped_user_vmas.map (fun r => r.addr))
      | _ => true) &&
    kzalloc_fresh (buf_step w op) ops

/-- The mapping record of an open vma of the buffer at address `buf_addr`. -/
def record_of (buf_addr : Nat) (vma : vm_area_struct) : nvgpu_nvs_domain_ctrl_fifo_user_vma :=
  { addr := vma.vm_private_data.getD 0, vma := some vma.addr, buf := buf_addr }

/-- The invariant of the shared buffer: `ref` is nonzero exactly when the
mapping list is non-empty. -/
def ref_list_consistent (priv : nvgpu_nvs_linux_buf_priv) : Prop :=
  priv.ref ≠ 0 ↔ priv.list_mapped_user_vmas ≠ []

instance (priv : nvgpu_nvs_linux_buf_priv) : Decidable (ref_list_consistent priv) := by
  unfold ref_list_consistent; infer_instance

/-- The bookkeeping of a buffer and its open mappings agree: the mapping list
holds the records of the open vmas, in the order the mappings were made; each
open vma points to its record; the records have distinct addresses; the open
vmas are those mapped and not yet closed; and `ref` is their number as a `u32`. -/
def buf_world_inv (w : buf_world) : Prop :=
  w.buf.priv.list_mapped_user_vmas = w.open_vmas.map (record_of w.buf.addr) ∧
  (∀ v ∈ w.open_vmas, v.vm_private_data ≠ none) ∧
  (w.buf.priv.list_mapped_user_vmas.map fun r => r.addr).Nodup ∧
  w.closes + w.open_vmas.length = w.maps ∧
  w.buf.priv.ref = (w.maps - w.closes) % 2 ^ 32

end dmabuf_nvs

namespace nvs

/-! ## The control-fifo users and the domain registry (`nvgpu/nvs.h`)

`nvs.h` declares these functions; their code is not part of the sources, so
they are modelled from the specification (sections 3, 4.1, 4.3 and 7). -/

/-- The result of a request: success, or one of the errors of the
specification's taxonomy. -/
inductive nvs_status where
  | ok
  | OutOfMemory
  | NotFound
  | Busy
  | AlreadyReserved
  | InvalidArgument
  | DuplicateName
  | InitTimeout
  | DeviceGone
  deriving DecidableEq

/-- The record `struct nvs_domain_ctrl_fifo_user` of `nvs.h`, with the address
of the structure as its identity. -/
structure nvs_domain_ctrl_fifo_user where
  addr : Nat
  has_write_access : Bool
  pid : Int
  active_used_queues : Nat
  deriving DecidableEq

/-- The arbiter `struct nvgpu_nvs_domain_ctrl_fifo` as far as the session list
goes: the users linked through `sched_ctrl_list`. -/
structure nvgpu_nvs_domain_ctrl_fifo where
  users : List nvs_domain_ctrl_fifo_user
  deriving DecidableEq

/-- Modelled from the spec: `nvgpu_nvs_ctrl_fifo_add_user`, declared in `nvs.h`
only (`add_user(user)`: insert into the session list). -/
def nvgpu_nvs_ctrl_fifo_add_user (sched_ctrl : nvgpu_nvs_domain_ctrl_fifo)
    (user : nvs_domain_ctrl_fifo_user) : nvgpu_nvs_domain_ctrl_fifo :=
  { sched_ctrl with users := sched_ctrl.users ++ [user] }

/-- Modelled from the spec: `nvgpu_nvs_ctrl_fifo_remove_user`, declared in
`nvs.h` only (`remove_user(user)`: remove from the session list; a user that
holds exclusive access releases it by leaving the list). -/
def nvgpu_nvs_ctrl_fifo_remove_user (sched_ctrl : nvgpu_nvs_domain_ctrl_fifo) (user : Nat) :
    nvgpu_nvs_domain_ctrl_fifo :=
  { sched_ctrl with users := sched_ctrl.users.filter fun u => u.addr != user }

/-- Modelled from the spec: `nvgpu_nvs_ctrl_fifo_reserve_exclusive_user`,
declared in `nvs.h` only (`reserve_exclusive(user)`: succeeds and sets
`has_write_access = true` only if no other session currently holds it;
otherwise fails with `AlreadyReserved`). -/
def nvgpu_nvs_ctrl_fifo_reserve_exclusive_user (sched_ctrl : nvgpu_nvs_domain_ctrl_fifo)
    (user : Nat) : nvs_status × nvgpu_nvs_domain_ctrl_fifo :=
  if sched_ctrl.users.any (fun u => u.addr != user && u.has_write_access) then
    (nvs_status.AlreadyReserved, sched_ctrl)
  else
    (nvs_status.ok,
      { sched_ctrl with users := sched_ctrl.users.map fun u =>
          if u.addr = user then { u with has_write_access := true } else u })

/-- Modelled from the spec: `nvgpu_nvs_ctrl_fifo_reset_exclusive_user`,
declared in `nvs.h` only (`reset_exclusive(user)`: clears `has_write_access`
unconditionally). -/
def nvgpu_nvs_ctrl_fifo_reset_exclusive_user (sched_ctrl : nvgpu_nvs_domain_ctrl_fifo)
    (user : Nat) : nvgpu_nvs_domain_ctrl_fifo :=
  { sched_ctrl with users := sched_ctrl.users.map fun u =>
      if u.addr = user then { u with has_write_access := false } else u }

/-- Modelled from the spec: `nvgpu_nvs_ctrl_fifo_user_is_active`, declared in
`nvs.h` only (true iff `active_used_queues != 0`). -/
def nvgpu_nvs_ctrl_fifo_user_is_active (user : nvs_domain_ctrl_fifo_user) : Bool :=
  user.active_used_queues != 0

/-- A call on the arbiter made by some session. -/
inductive fifo_op where
  | add_user (user : nvs_domain_ctrl_fifo_user)
  | remove_user (user : Nat)
  | reserve_exclusive (user : Nat)
  | reset_exclusive (user : Nat)
  deriving DecidableEq

/-- One call on the arbiter. -/
def fifo_step (sched_ctrl : nvgpu_nvs_domain_ctrl_fifo) : fifo_op → nvgpu_nvs_domain_ctrl_fifo
  | .add_user user => nvgpu_nvs_ctrl_fifo_add_user sched_ctrl user
  | .remove_user user => nvgpu_nvs_ctrl_fifo_remove_user sched_ctrl user
  | .reserve_exclusive user => (nvgpu_nvs_ctrl_fifo_reserve_exclusive_user sched_ctrl user).2
  | .reset_exclusive user => nvgpu_nvs_ctrl_fifo_reset_exclusive_user sched_ctrl user

/-- A run of calls on the arbiter, in order. -/
def fifo_run (sched_ctrl : nvgpu_nvs_domain_ctrl_fifo) (ops : List fifo_op) :
    nvgpu_nvs_domain_ctrl_fifo :=
  ops.foldl fifo_step sched_ctrl

/-- Every user added in a run is a new session: not yet in the session list,
and without write access. -/
def fifo_ops_valid (sched_ctrl : nvgpu_nvs_domain_ctrl_fifo) : List fifo_op → Bool
  | [] => true
  | op :: ops =>
    (match op with
      | .add_user user =>
        !user.has_write_access &&
          decide (user.addr ∉ sched_ctrl.users.map (fun u => u.addr))
      | _ => true) &&
    fifo_ops_valid (fifo_step sched_ctrl op) ops

/-- The number of users in the session list that have write access. -/
def exclusive_count (sched_ctrl : nvgpu_nvs_domain_ctrl_fifo) : Nat :=
  sched_ctrl.users.countP fun u => u.has_write_access

/-- The domain `struct nvgpu_nvs_domain` of `nvs.h`, with the name and the
timing parameters its parent `struct nvs_domain` holds. -/
structure nvgpu_nvs_domain where
  id : Nat
  subscheduler : Nat
  ref : Nat
  name : String
  timeslice : Nat
  preempt_grace : Nat
  deriving DecidableEq

/-- The scheduler `struct nvgpu_nvs_scheduler` of `nvs.h` with the domains it
has registered: the id counter, the domains in the order they were added, and
the ids of the active and of the shadow domain. -/
structure nvgpu_nvs_scheduler where
  id_counter : Nat
  domains : List nvgpu_nvs_domain
  active_domain : Option Nat
  shadow_domain : Option Nat
  deriving DecidableEq

/-- A freshly created scheduler: no domain, the id counter at zero. -/
def fresh_scheduler : nvgpu_nvs_scheduler :=
  { id_counter := 0, domains := [], active_domain := none, shadow_domain := none }

/-- Modelled from the spec: `nvgpu_nvs_domain_by_id`, declared in `nvs.h` only
(`lookup_by_id(id)`; `none` stands for `NotFound`). -/
def nvgpu_nvs_domain_by_id (s : nvgpu_nvs_scheduler) (domain_id : Nat) :
    Option nvgpu_nvs_domain :=
  s.domains.find? fun d => d.id == domain_id

/-- Modelled from the spec: `nvgpu_nvs_domain_by_name`, declared in `nvs.h`
only (`lookup_by_name(name)`; `none` stands for `NotFound`). -/
def nvgpu_nvs_domain_by_name (s : nvgpu_nvs_scheduler) (name : String) :
    Option nvgpu_nvs_domain :=
  s.domains.find? fun d => d.name == name

/-- Modelled from the spec: `nvgpu_nvs_add_domain`, declared in `nvs.h` only
(`add_domain(name, timeslice, preempt_grace) -> DomainId`: fails with
`DuplicateName` if the name is already present and with `OutOfMemory` if
allocation fails; else takes a new id from `id_counter`, builds the domain
with `ref_count = 1` and registers it). `alloc_ok` tells whether allocation
succeeds. The result is the status, the scheduler afterwards and the new id. -/
def nvgpu_nvs_add_domain (s : nvgpu_nvs_scheduler) (name : String)
    (timeslice preempt_grace : Nat) (alloc_ok : Bool) :
    nvs_status × nvgpu_nvs_scheduler × Option Nat :=
  if (nvgpu_nvs_domain_by_name s name).isSome then
    (nvs_status.DuplicateName, s, none)
  else if !alloc_ok then
    (nvs_status.OutOfMemory, s, none)
  else
    let id := s.id_counter + 1
    let dom : nvgpu_nvs_domain :=
      { id := id, subscheduler := 0, ref := 1, name := name, timeslice := timeslice,
        preempt_grace := preempt_grace }
    (nvs_status.ok, { s with id_counter := id, domains := s.domains ++ [dom] }, some id)

/-- Modelled from the spec: `nvgpu_nvs_del_domain`, declared in `nvs.h` only
(`remove_domain(id)`: `NotFound` for an unknown id; fails with `Busy` if
`ref_count > 1` or if the domain is the active or the shadow domain; otherwise
removes it from the registry). -/
def nvgpu_nvs_del_domain (s : nvgpu_nvs_scheduler) (dom_id : Nat) :
    nvs_status × nvgpu_nvs_scheduler :=
  match nvgpu_nvs_domain_by_id s dom_id with
  | none => (nvs_status.NotFound, s)
  | some dom =>
    if dom.ref > 1 ∨ s.active_domain = some dom_id ∨ s.shadow_domain = some dom_id then
      (nvs_status.Busy, s)
    else
      (nvs_status.ok, { s with domains := s.domains.filter fun d => d.id != dom_id })

/-- Modelled from the spec: `nvgpu_nvs_domain_get`, declared in `nvs.h` only
(`domain_get(domain)`: increment of `ref_count`). -/
def nvgpu_nvs_domain_get (s : nvgpu_nvs_scheduler) (dom_id : Nat) : nvgpu_nvs_scheduler :=
  { s with domains := s.domains.map fun d =>
      if d.id = dom_id then { d with ref := d.ref + 1 } else d }

/-- Modelled from the spec: `nvgpu_nvs_domain_put`, declared in `nvs.h` only
(`domain_put(domain)`: decrement of `ref_count`). -/
def nvgpu_nvs_domain_put (s : nvgpu_nvs_scheduler) (dom_id : Nat) : nvgpu_nvs_scheduler :=
  { s with domains := s.domains.map fun d =>
      if d.id = dom_id then { d with ref := d.ref - 1 } else d }

/-- Modelled from the spec: `nvgpu_nvs_domain_count`, declared in `nvs.h` only
(`domain_count()`: number of live domains). -/
def nvgpu_nvs_domain_count (s : nvgpu_nvs_scheduler) : Nat :=
  s.domains.length

/-- A request on the domain registry. -/
inductive registry_op where
  | add_domain (name : String) (timeslice preempt_grace : Nat) (alloc_ok : Bool)
  | del_domain (dom_id : Nat)
  | domain_get (dom_id : Nat)
  | domain_put (dom_id : Nat)
  deriving DecidableEq

/-- One request on the domain registry. -/
def registry_step (s : nvgpu_nvs_scheduler) : registry_op → nvgpu_nvs_scheduler
  | .add_domain name timeslice preempt_grace alloc_ok =>
    (nvgpu_nvs_add_domain s name timeslice preempt_grace alloc_ok).2.1
  | .del_domain dom_id => (nvgpu_nvs_del_domain s dom_id).2
  | .domain_get dom_id => nvgpu_nvs_domain_get s dom_id
  | .domain_put dom_id => nvgpu_nvs_domain_put s dom_id

/-- A run of requests on the domain registry, in order. -/
def registry_run (s : nvgpu_nvs_scheduler) (ops : List registry_op) : nvgpu_nvs_scheduler :=
  ops.foldl registry_step s

/-- The ids in use were all handed out by the id counter, once each, and the
names of the live domains are distinct. -/
def registry_inv (s : nvgpu_nvs_scheduler) : Prop :=
  (∀ d ∈ s.domains, d.id ≤ s.id_counter) ∧
  (s.domains.map fun d => d.id).Nodup ∧
  (s.domains.map fun d => d.name).Nodup

/-- The id `x` was handed out already and no live domain carries it. -/
def id_retired (s : nvgpu_nvs_scheduler) (x : Nat) : Prop :=
  (∀ d ∈ s.domains, d.id ≠ x) ∧ x ≤ s.id_counter

end nvs

namespace gr_gm20b

/-! ## `gr_gm20b.c`: software methods, floorsweeping state, circular buffers -/

/-- The errno value `EINVAL`. -/
def EINVAL : Int := 22

/-- The value of `x << 2` in `u32` arithmetic. -/
def shl2_u32 (x : Nat) : Nat := (x * 4) % 2 ^ 32

/-- The value of `x + 1` in `u32` arithmetic. -/
def u32_inc (x : Nat) : Nat := (x + 1) % 2 ^ 32

/-- The value of `x + y` in `u32` arithmetic. -/
def u32_add (x y : Nat) : Nat := (x + y) % 2 ^ 32

/-- The value of `x * y` in `u32` arithmetic. -/
def u32_mul (x y : Nat) : Nat := (x * y) % 2 ^ 32

/-- The class numbers and method offsets `gr_gm20b_handle_sw_method` compares
with. Their values are in headers outside this source tree, so they are
parameters here. -/
structure sw_method_ids where
  MAXWELL_COMPUTE_B : Nat
  MAXWELL_B : Nat
  NVB1C0_SET_SHADER_EXCEPTIONS : Nat
  NVB197_SET_SHADER_EXCEPTIONS : Nat
  NVB197_SET_CIRCULAR_BUFFER_SIZE : Nat
  NVB197_SET_ALPHA_CIRCULAR_BUFFER_SIZE : Nat

/-- A sample assignment of the class numbers and method offsets, for evaluating
`gr_gm20b_handle_sw_method` on concrete requests. -/
def sample_sw_method_ids : sw_method_ids :=
  { MAXWELL_COMPUTE_B := 0xB1C0, MAXWELL_B := 0xB197,
    NVB1C0_SET_SHADER_EXCEPTIONS := 0x1528,
    NVB197_SET_SHADER_EXCEPTIONS := 0x1528,
    NVB197_SET_CIRCULAR_BUFFER_SIZE := 0x1280,
    NVB197_SET_ALPHA_CIRCULAR_BUFFER_SIZE := 0x02dc }

/-- A call of one of the handlers a software method is dispatched to, with the
data it is given. -/
inductive sw_handler_call where
  | gk20a_gr_set_shader_exceptions (data : Nat)
  | set_circular_buffer_size (data : Nat)
  | set_alpha_circular_buffer_size (data : Nat)
  deriving DecidableEq

/-- The function `gr_gm20b_handle_sw_method`: the return value and the handler
calls made, in order. Each `switch` is tried in the order of the source; a
`default` leaves through `fail` with `-EINVAL`. -/
def gr_gm20b_handle_sw_method (K : sw_method_ids) (class_num offset data : Nat) :
    Int × List sw_handler_call :=
  let compute : Option (List sw_handler_call) :=
    if class_num = K.MAXWELL_COMPUTE_B then
      if shl2_u32 offset = K.NVB1C0_SET_SHADER_EXCEPTIONS then
        some [sw_handler_call.gk20a_gr_set_shader_exceptions data]
      else none
    else some []
  match compute with
  | none => (-EINVAL, [])
  | some calls =>
    if class_num = K.MAXWELL_B then
      if shl2_u32 offset = K.NVB197_SET_SHADER_EXCEPTIONS then
        (0, calls ++ [sw_handler_call.gk20a_gr_set_shader_exceptions data])
      else if shl2_u32 offset = K.NVB197_SET_CIRCULAR_BUFFER_SIZE then
        (0, calls ++ [sw_handler_call.set_circular_buffer_size data])
      else if shl2_u32 offset = K.NVB197_SET_ALPHA_CIRCULAR_BUFFER_SIZE then
        (0, calls ++ [sw_handler_call.set_alpha_circular_buffer_size data])
      else (-EINVAL, calls)
    else (0, calls)

/-- The fields of `struct gr_gk20a` that the functions below read or write. -/
structure gr_gk20a where
  gpc_count : Nat
  tpc_count : Nat
  max_tpc_count : Nat
  max_tpc_per_gpc_count : Nat
  gpc_tpc_count : List Nat
  gpc_ppc_count : List Nat
  pes_tpc_count : List (List Nat)
  gpc_skip_mask : List Nat
  attrib_cb_default_size : Nat
  alpha_cb_default_size : Nat
  attrib_cb_size : Nat
  alpha_cb_size : Nat

/-- The register writes of one pass through the body of the SM numbering loop
of `gr_gm20b_init_fs_state`: the three registers of TPC `tpc_index` in GPC
`gpc_index` receive `sm_id`, and `sm_id_to_gpc_id[sm_id]` receives
`gpc_index`. -/
structure sm_id_write where
  gpc_index : Nat
  tpc_index : Nat
  sm_id : Nat
  deriving DecidableEq

/-- The local state of the SM numbering loop: the counter `sm_id` and the
writes made so far. -/
structure sm_id_state where
  sm_id : Nat
  writes : List sm_id_write
  deriving DecidableEq

/-- The body of the inner loop over `gpc_index` of the SM numbering loop. -/
def sm_id_step (gr : gr_gk20a) (tpc_index : Nat) (st : sm_id_state) (gpc_index : Nat) :
    sm_id_state :=
  if tpc_index < gr.gpc_tpc_count.getD gpc_index 0 then
    { sm_id := u32_inc st.sm_id,
      writes := st.writes ++
        [{ gpc_index := gpc_index, tpc_index := tpc_index, sm_id := st.sm_id }] }
  else st

/-- The SM numbering loop of `gr_gm20b_init_fs_state`: `tpc_index` from 0 below
`max_tpc_per_gpc_count`, inside it `gpc_index` from 0 below `gpc_count`. -/
def gr_gm20b_init_fs_state_sm_ids (gr : gr_gk20a) : sm_id_state :=
  (List.range gr.max_tpc_per_gpc_count).foldl
    (fun st tpc_index => (List.range gr.gpc_count).foldl (sm_id_step gr tpc_index) st)
    { sm_id := 0, writes := [] }

/-- The size of the PD distribution skip table and the encoders of the four
mask fields of one of its registers. They are in a header outside this source
tree, so they are parameters here. -/
structure skip_table_fields where
  gr_pd_dist_skip_table__size_1_v : Nat
  gr_pd_dist_skip_table_gpc_4n0_mask_f : Nat → Nat
  gr_pd_dist_skip_table_gpc_4n1_mask_f : Nat → Nat
  gr_pd_dist_skip_table_gpc_4n2_mask_f : Nat → Nat
  gr_pd_dist_skip_table_gpc_4n3_mask_f : Nat → Nat

/-- A sample skip table: eight registers, each with four mask fields of eight
bits at bit 0, 8, 16 and 24. -/
def sample_skip_table_fields : skip_table_fields :=
  { gr_pd_dist_skip_table__size_1_v := 8,
    gr_pd_dist_skip_table_gpc_4n0_mask_f := fun v => ((v &&& 0xff) <<< 0) % 2 ^ 32,
    gr_pd_dist_skip_table_gpc_4n1_mask_f := fun v => ((v &&& 0xff) <<< 8) % 2 ^ 32,
    gr_pd_dist_skip_table_gpc_4n2_mask_f := fun v => ((v &&& 0xff) <<< 16) % 2 ^ 32,
    gr_pd_dist_skip_table_gpc_4n3_mask_f := fun v => ((v &&& 0xff) <<< 24) % 2 ^ 32 }

/-- The logical or of C, `a || b`: 1 if either operand is nonzero, else 0. -/
def c_logical_or (a b : Nat) : Nat :=
  if a ≠ 0 ∨ b ≠ 0 then 1 else 0

/-- The value `gr_gm20b_init_fs_state` writes to skip-table register
`gpc_index / 4`: the four encoded masks joined with `||`, as in the source. -/
def skip_table_value (F : skip_table_fields) (gpc_skip_mask : List Nat) (gpc_index : Nat) :
    Nat :=
  c_logical_or
    (c_logical_or
      (c_logical_or
        (F.gr_pd_dist_skip_table_gpc_4n0_mask_f (gpc_skip_mask.getD gpc_index 0))
        (F.gr_pd_dist_skip_table_gpc_4n1_mask_f (gpc_skip_mask.getD (gpc_index + 1) 0)))
      (F.gr_pd_dist_skip_table_gpc_4n2_mask_f (gpc_skip_mask.getD (gpc_index + 2) 0)))
    (F.gr_pd_dist_skip_table_gpc_4n3_mask_f (gpc_skip_mask.getD (gpc_index + 3) 0))

/-- The skip-table loop of `gr_gm20b_init_fs_state`: `gpc_index` runs over 0, 4,
8, ... below `gr_pd_dist_skip_table__size_1_v() * 4`; the result lists the
register index `gpc_index / 4` and the value written to it. -/
def gr_gm20b_init_fs_state_skip_table (F : skip_table_fields) (gr : gr_gk20a) :
    List (Nat × Nat) :=
  (List.range ((u32_mul F.gr_pd_dist_skip_table__size_1_v 4 + 3) / 4)).map fun n =>
    ((n * 4) / 4, skip_table_value F gr.gpc_skip_mask (n * 4))

/-- The bitwise combination of the four encoded masks of register `n`, which
the loops next to the skip-table loop use for their registers. -/
def skip_table_bitwise (F : skip_table_fields) (gpc_skip_mask : List Nat) (n : Nat) : Nat :=
  F.gr_pd_dist_skip_table_gpc_4n0_mask_f (gpc_skip_mask.getD (4 * n) 0) |||
  F.gr_pd_dist_skip_table_gpc_4n1_mask_f (gpc_skip_mask.getD (4 * n + 1) 0) |||
  F.gr_pd_dist_skip_table_gpc_4n2_mask_f (gpc_skip_mask.getD (4 * n + 2) 0) |||
  F.gr_pd_dist_skip_table_gpc_4n3_mask_f (gpc_skip_mask.getD (4 * n + 3) 0)

/-- The function `gr_gm20b_calc_global_ctx_buffer_size`: it sets
`attrib_cb_size` and `alpha_cb_size` to the default size plus half of it and
returns the total size, an `int`. The two granularities are in a header
outside this source tree, so they are parameters here. -/
def gr_gm20b_calc_global_ctx_buffer_size (gr : gr_gk20a)
    (beta_granularity alpha_granularity : Nat) : gr_gk20a × Int :=
  let attrib_cb_size := u32_add gr.attrib_cb_default_size (gr.attrib_cb_default_size / 2)
  let alpha_cb_size := u32_add gr.alpha_cb_default_size (gr.alpha_cb_default_size / 2)
  let size : Nat :=
    u32_add (u32_mul (u32_mul attrib_cb_size beta_granularity) gr.max_tpc_count)
      (u32_mul (u32_mul alpha_cb_size alpha_granularity) gr.max_tpc_count)
  ({ gr with attrib_cb_size := attrib_cb_size, alpha_cb_size := alpha_cb_size },
    if size < 2 ^ 31 then (size : Int) else (size : Int) - 2 ^ 32)

/-- The register writes of one pass through the body of the inner loop of
`gr_gm20b_commit_global_cb_manager`, for PPC `ppc_index` of GPC `gpc_index`:
the beta size and offset, the alpha size and offset, and the two fields of
`gr_gpcs_swdx_tc_beta_cb_size_r(ppc_index + gpc_index)`. -/
structure cbm_write where
  gpc_index : Nat
  ppc_index : Nat
  beta_cb_size : Nat
  beta_cb_offset : Nat
  alpha_cb_size : Nat
  alpha_cb_offset : Nat
  swdx_index : Nat
  swdx_v : Nat
  swdx_div3 : Nat
  deriving DecidableEq

/-- The local state of the loops of `gr_gm20b_commit_global_cb_manager`. -/
structure cbm_state where
  attrib_offset_in_chunk : Nat
  alpha_offset_in_chunk : Nat
  writes : List cbm_write
  deriving DecidableEq

/-- The entry `gr->pes_tpc_count[ppc_index][gpc_index]`. -/
def pes_tpc (gr : gr_gk20a) (gpc_index ppc_index : Nat) : Nat :=
  (gr.pes_tpc_count.getD ppc_index []).getD gpc_index 0

/-- The body of the inner loop of `gr_gm20b_commit_global_cb_manager`. -/
def cbm_step (gr : gr_gk20a) (gpc_index : Nat) (st : cbm_state) (ppc_index : Nat) :
    cbm_state :=
  let cbm_cfg_size1 := u32_mul gr.attrib_cb_default_size (pes_tpc gr gpc_index ppc_index)
  let cbm_cfg_size2 := u32_mul gr.alpha_cb_default_size (pes_tpc gr gpc_index ppc_index)
  { attrib_offset_in_chunk :=
      u32_add st.attrib_offset_in_chunk
        (u32_mul gr.attrib_cb_size (pes_tpc gr gpc_index ppc_index)),
    alpha_offset_in_chunk :=
      u32_add st.alpha_offset_in_chunk
        (u32_mul gr.alpha_cb_size (pes_tpc gr gpc_index ppc_index)),
    writes := st.writes ++
      [{ gpc_index := gpc_index, ppc_index := ppc_index,
         beta_cb_size := cbm_cfg_size1,
         beta_cb_offset := st.attrib_offset_in_chunk,
         alpha_cb_size := cbm_cfg_size2,
         alpha_cb_offset := st.alpha_offset_in_chunk,
         swdx_index := u32_add ppc_index gpc_index,
         swdx_v := cbm_cfg_size1,
         swdx_div3 := cbm_cfg_size1 / 3 }] }

/-- What `gr_gm20b_commit_global_cb_manager` has written when it returns 0:
the two sizes given to `gr_ds_tga_constraintlogic_r`, the maximum output given
to `gr_pd_ab_dist_cfg1_r`, and the writes of the loop, in order. -/
structure cbm_commit where
  constraintlogic_beta_cbsize : Nat
  constraintlogic_alpha_cbsize : Nat
  pd_ab_max_output : Nat
  writes : List cbm_write
  patch_write_end : Bool
  deriving DecidableEq

/-- The function `gr_gm20b_commit_global_cb_manager`. `begin_err` is what
`gr_gk20a_ctx_patch_write_begin` returns when `patch` is set; the two
granularities are in a header outside this source tree, so they are
parameters here. The result is the return value and, when the writes were
made, their record. -/
def gr_gm20b_commit_global_cb_manager (gr : gr_gk20a) (patch : Bool) (begin_err : Int)
    (beta_granularity max_output_granularity : Nat) : Int × Option cbm_commit :=
  if patch ∧ begin_err ≠ 0 then (begin_err, none)
  else
    let pd_ab_max_output :=
      u32_mul gr.alpha_cb_default_size beta_granularity / max_output_granularity
    let st0 : cbm_state :=
      { attrib_offset_in_chunk := 0,
        alpha_offset_in_chunk := u32_add 0 (u32_mul gr.tpc_count gr.attrib_cb_size),
        writes := [] }
    let st := (List.range gr.gpc_count).foldl
      (fun st gpc_index =>
        (List.range (gr.gpc_ppc_count.getD gpc_index 0)).foldl (cbm_step gr gpc_index) st)
      st0
    (0, some { constraintlogic_beta_cbsize := gr.attrib_cb_default_size,
               constraintlogic_alpha_cbsize := gr.alpha_cb_default_size,
               pd_ab_max_output := pd_ab_max_output,
               writes := st.writes,
               patch_write_end := patch })

/-- The pairs `(gpc_index, tpc_index)` in the order the SM numbering loop
visits them. -/
def sm_visit_order (gr : gr_gk20a) : List (Nat × Nat) :=
  (List.range gr.max_tpc_per_gpc_count).flatMap fun tpc_index =>
    (List.range gr.gpc_count).map fun gpc_index => (gpc_index, tpc_index)

/-- The value of `x` as a `u32`. -/
def to_u32 (x : Nat) : Nat := x % 2 ^ 32

/-- The writes the loops of `gr_gm20b_commit_global_cb_manager` make over the
pairs `ps` when the two running offsets stand at `A` and `B` (taken as
`u32`). -/
def cbm_layout (gr : gr_gk20a) : Nat → Nat → List (Nat × Nat) → List cbm_write
  | _, _, [] => []
  | A, B, p :: ps =>
    { gpc_index := p.1, ppc_index := p.2,
      beta_cb_size := u32_mul gr.attrib_cb_default_size (pes_tpc gr p.1 p.2),
      beta_cb_offset := to_u32 A,
      alpha_cb_size := u32_mul gr.alpha_cb_default_size (pes_tpc gr p.1 p.2),
      alpha_cb_offset := to_u32 B,
      swdx_index := u32_add p.2 p.1,
      swdx_v := u32_mul gr.attrib_cb_default_size (pes_tpc gr p.1 p.2),
      swdx_div3 := u32_mul gr.attrib_cb_default_size (pes_tpc gr p.1 p.2) / 3 } ::
    cbm_layout gr (A + gr.attrib_cb_size * pes_tpc gr p.1 p.2)
      (B + gr.alpha_cb_size * pes_tpc gr p.1 p.2) ps

/-- A sample chip for evaluating the functions: two GPCs with one PPC each,
of two and of one TPC, default sizes 4 (attribute) and 2 (alpha), before
`gr_gm20b_calc_global_ctx_buffer_size` has run. -/
def sample_gr : gr_gk20a :=
  { gpc_count := 2, tpc_count := 3, max_tpc_count := 4, max_tpc_per_gpc_count := 2,
    gpc_tpc_count := [2, 1], gpc_ppc_count := [1, 1], pes_tpc_count := [[2, 1]],
    gpc_skip_mask := [0, 0],
    attrib_cb_default_size := 4, alpha_cb_default_size := 2,
    attrib_cb_size := 0, alpha_cb_size := 0 }

/-- The pairs of a visit order whose TPC exists in its GPC, the ones the SM
numbering loop gives an id to. -/
def sm_selected (gr : gr_gk20a) (ps : List (Nat × Nat)) : List (Nat × Nat) :=
  ps.filter fun p => decide (p.2 < gr.gpc_tpc_count.getD p.1 0)

/-- The pairs `(gpc_index, ppc_index)` in the order the loops of
`gr_gm20b_commit_global_cb_manager` visit them. -/
def cbm_visit_order (gr : gr_gk20a) : List (Nat × Nat) :=
  (List.range gr.gpc_count).flatMap fun gpc_index =>
    (List.range (gr.gpc_ppc_count.getD gpc_index 0)).map fun ppc_index =>
      (gpc_index, ppc_index)

end gr_gm20b

/-! # Properties -/

namespace logging

/-! ## Auxiliary facts about the ring -/

theorem LOG_INC_of_lt {v m : Nat} (hv : v < m) (hm : m < 2 ^ 32) :
    LOG_INC v m = if v + 1 = m then 0 else v + 1 := by
  have h1 : (v + 1) % 2 ^ 32 = v + 1 := Nat.mod_eq_of_lt (by omega)
  unfold LOG_INC
  simp only [h1]
  split_ifs <;> omega

theorem LOG_INC_lt {v m : Nat} (hv : v < m) (hm : m < 2 ^ 32) : LOG_INC v m < m := by
  rw [LOG_INC_of_lt hv hm]
  split_ifs <;> omega

theorem nvs_log_full_iff_count {l : nvs_log_buffer} (h : log_wf l) :
    nvs_log_full l = true ↔ stored_count l = l.entries - 1 := by
  obtain ⟨h32, _, hg, hp⟩ := h
  unfold nvs_log_full stored_count
  simp only [LOG_INC_of_lt hp h32, beq_iff_eq]
  split_ifs <;> omega

theorem stored_count_lt {l : nvs_log_buffer} (h : log_wf l) : stored_count l < l.entries := by
  obtain ⟨_, _, hg, hp⟩ := h
  unfold stored_count
  split_ifs <;> omega

theorem length_stored (l : nvs_log_buffer) : (stored l).length = stored_count l := by
  simp [stored]

theorem getElem?_stored (l : nvs_log_buffer) (i : Nat) :
    (stored l)[i]? =
      if i < stored_count l then some (l.events.getD (slot_index l i) zero_event) else none := by
  unfold stored
  by_cases hi : i < stored_count l
  · simp [hi, List.getElem?_range hi]
  · have : (List.range (stored_count l))[i]? = none := by
      apply List.getElem?_eq_none; simp; omega
    simp [hi, this]

theorem getD_set_eq {α : Type} (xs : List α) (p j : Nat) (a z : α) (hp : p < xs.length) :
    (xs.set p a).getD j z = if j = p then a else xs.getD j z := by
  simp only [List.getD_eq_getElem?_getD, List.getElem?_set]
  by_cases h : p = j
  · subst h; simp [hp]
  · have h2 : ¬ j = p := fun e => h e.symm
    simp [h, h2]

theorem nvs_log_event_fields (l : nvs_log_buffer) (now : Int) (event : Int) (data : Nat) :
    (nvs_log_event l now event data).entries = l.entries ∧
    (nvs_log_event l now event data).ts_offset = l.ts_offset ∧
    (nvs_log_event l now event data).get
      = (if nvs_log_full l = true then LOG_INC l.get l.entries else l.get) ∧
    (nvs_log_event l now event data).put = LOG_INC l.put l.entries ∧
    (nvs_log_event l now event data).events
      = l.events.set l.put (event_record l now event data) := by
  unfold nvs_log_event event_record
  by_cases hf : nvs_log_full l = true <;> simp [hf]

theorem log_wf_nvs_log_event {l : nvs_log_buffer} (h : log_wf l) (now : Int) (event : Int)
    (data : Nat) : log_wf (nvs_log_event l now event data) := by
  obtain ⟨he, hts, hg, hp, hev⟩ := nvs_log_event_fields l now event data
  obtain ⟨h32, hlen, hgl, hpl⟩ := h
  refine ⟨by rw [he]; exact h32, by rw [hev, he, List.length_set]; exact hlen, ?_, ?_⟩
  · rw [hg, he]
    split_ifs
    · exact LOG_INC_lt hgl h32
    · exact hgl
  · rw [hp, he]; exact LOG_INC_lt hpl h32

theorem stored_nvs_log_event {l : nvs_log_buffer} (h : log_wf l) (now : Int) (event : Int)
    (data : Nat) :
    stored (nvs_log_event l now event data)
      = (stored l ++ [event_record l now event data]).drop
          (if nvs_log_full l = true then 1 else 0) := by
  obtain ⟨he, hts, hg, hp, hev⟩ := nvs_log_event_fields l now event data
  have hfull := nvs_log_full_iff_count h
  obtain ⟨h32, hlen, hgl, hpl⟩ := h
  apply List.ext_getElem?
  intro i
  rw [getElem?_stored, List.getElem?_drop, List.getElem?_append, length_stored,
    getElem?_stored]
  rw [hev, getD_set_eq l.events l.put _ _ _ (by omega)]
  unfold slot_index
  rw [hg, he]
  have hcnt : stored_count (nvs_log_event l now event data)
      = if nvs_log_full l = true then stored_count l else stored_count l + 1 := by
    unfold stored_count at hfull ⊢
    rw [hg, hp, he, LOG_INC_of_lt hpl h32]
    by_cases hf : nvs_log_full l = true
    · have hc := hfull.1 hf
      clear hfull hg hp hev
      simp only [if_pos hf, LOG_INC_of_lt hgl h32]
      by_cases hgp : l.get ≤ l.put
      · simp only [if_pos hgp] at hc ⊢
        split_ifs <;> omega
      · simp only [if_neg hgp] at hc ⊢
        split_ifs <;> omega
    · have hc := mt hfull.2 hf
      clear hfull hg hp hev
      simp only [if_neg hf]
      by_cases hgp : l.get ≤ l.put
      · simp only [if_pos hgp] at hc ⊢
        split_ifs <;> omega
      · simp only [if_neg hgp] at hc ⊢
        split_ifs <;> omega
  rw [hcnt]
  unfold stored_count at hfull ⊢
  by_cases hf : nvs_log_full l = true
  · have hc := hfull.1 hf
    clear hfull hg hp hev hcnt
    simp only [if_pos hf, LOG_INC_of_lt hgl h32]
    have hsingle : ∀ (a : struct_nvs_log_event) (k : Nat),
        [a][k]? = if k = 0 then some a else none := by
      intro a k; cases k <;> simp
    simp only [hsingle, Nat.zero_add]
    by_cases hgp : l.get ≤ l.put
    · simp only [if_pos hgp] at hc ⊢
      split_ifs <;> first | rfl | omega | (exfalso; omega) | (congr 2; omega)
    · simp only [if_neg hgp] at hc ⊢
      split_ifs <;> first | rfl | omega | (exfalso; omega) | (congr 2; omega)
  · have hc := mt hfull.2 hf
    clear hfull hg hp hev hcnt
    simp only [if_neg hf]
    have hsingle : ∀ (a : struct_nvs_log_event) (k : Nat),
        [a][k]? = if k = 0 then some a else none := by
      intro a k; cases k <;> simp
    simp only [hsingle, Nat.zero_add]
    by_cases hgp : l.get ≤ l.put
    · simp only [if_pos hgp] at hc ⊢
      split_ifs <;> first | rfl | omega
    · simp only [if_neg hgp] at hc ⊢
      split_ifs <;> first | rfl | omega

theorem nvs_log_get_empty (K : nvs_event_enum) (l : nvs_log_buffer) (ev : struct_nvs_log_event)
    (h : l.get = l.put) :
    nvs_log_get K l ev = (l, { ev with event := K.NVS_EV_NO_EVENT }) := by
  unfold nvs_log_get
  rw [if_pos h]

theorem nvs_log_get_nonempty (K : nvs_event_enum) (l : nvs_log_buffer)
    (ev : struct_nvs_log_event) (h : l.get ≠ l.put) :
    nvs_log_get K l ev
      = ({ l with get := LOG_INC l.get l.entries }, l.events.getD l.get zero_event) := by
  unfold nvs_log_get
  rw [if_neg h]

theorem stored_eq_nil_iff {l : nvs_log_buffer} (h : log_wf l) :
    stored l = [] ↔ l.get = l.put := by
  obtain ⟨h32, hlen, hgl, hpl⟩ := h
  rw [← List.length_eq_zero, length_stored]
  unfold stored_count
  split_ifs <;> omega

theorem log_wf_nvs_log_get (K : nvs_event_enum) {l : nvs_log_buffer} (h : log_wf l)
    (ev : struct_nvs_log_event) : log_wf (nvs_log_get K l ev).1 := by
  by_cases hgp : l.get = l.put
  · rw [nvs_log_get_empty K l ev hgp]; exact h
  · rw [nvs_log_get_nonempty K l ev hgp]
    obtain ⟨h32, hlen, hgl, hpl⟩ := h
    exact ⟨h32, hlen, LOG_INC_lt hgl h32, hpl⟩

theorem stored_nvs_log_get (K : nvs_event_enum) {l : nvs_log_buffer} (h : log_wf l)
    (ev : struct_nvs_log_event) (hne : l.get ≠ l.put) :
    stored l = (nvs_log_get K l ev).2 :: stored (nvs_log_get K l ev).1 := by
  rw [nvs_log_get_nonempty K l ev hne]
  obtain ⟨h32, hlen, hgl, hpl⟩ := h
  apply List.ext_getElem?
  intro i
  cases i with
  | zero =>
    rw [getElem?_stored]
    simp only [List.getElem?_cons_zero]
    unfold stored_count slot_index
    split_ifs <;> first | rfl | omega
  | succ j =>
    rw [getElem?_stored, List.getElem?_cons_succ, getElem?_stored]
    unfold stored_count slot_index
    simp only [LOG_INC_of_lt hgl h32]
    split_ifs <;> first | rfl | omega | (exfalso; omega) | (congr 2; omega)

/-! ## Sequences of calls -/

theorem log_wf_fresh_log {N : Nat} (hN : 1 ≤ N) (hN32 : N < 2 ^ 32) (t0 : Int) :
    log_wf (fresh_log N t0) := by
  refine ⟨hN32, ?_, hN, hN⟩
  simp [fresh_log]

theorem stored_fresh_log (N : Nat) (t0 : Int) : stored (fresh_log N t0) = [] := by
  simp [stored, stored_count, fresh_log]

theorem keep_last_drop_append {α : Type} (m d : Nat) (xs ys : List α) (hd : d ≤ xs.length)
    (hm : m + d ≤ xs.length + ys.length) :
    keep_last m (xs.drop d ++ ys) = keep_last m (xs ++ ys) := by
  have h1 : xs.drop d ++ ys = (xs ++ ys).drop d := by
    rw [List.drop_append_of_le_length hd]
  unfold keep_last
  rw [h1, List.drop_drop]
  congr 1
  simp only [List.length_drop, List.length_append]
  omega

theorem keep_last_of_length_le {α : Type} (m : Nat) (xs : List α) (h : xs.length ≤ m) :
    keep_last m xs = xs := by
  unfold keep_last
  rw [Nat.sub_eq_zero_of_le h, List.drop_zero]

theorem log_events_cons (l : nvs_log_buffer) (c : log_call) (cs : List log_call) :
    log_events l (c :: cs) = log_events (nvs_log_event l c.now c.event c.data) cs := by
  simp [log_events]

theorem log_wf_log_events {l : nvs_log_buffer} (h : log_wf l) (calls : List log_call) :
    log_wf (log_events l calls) := by
  induction calls generalizing l with
  | nil => exact h
  | cons c cs ih =>
    rw [log_events_cons]
    exact ih (log_wf_nvs_log_event h c.now c.event c.data)

theorem log_events_fields (l : nvs_log_buffer) (calls : List log_call) :
    (log_events l calls).entries = l.entries ∧ (log_events l calls).ts_offset = l.ts_offset := by
  induction calls generalizing l with
  | nil => exact ⟨rfl, rfl⟩
  | cons c cs ih =>
    rw [log_events_cons]
    obtain ⟨he, hts, _⟩ := nvs_log_event_fields l c.now c.event c.data
    obtain ⟨h1, h2⟩ := ih (nvs_log_event l c.now c.event c.data)
    exact ⟨h1.trans he, h2.trans hts⟩

theorem event_record_congr {l l' : nvs_log_buffer} (h : l'.ts_offset = l.ts_offset) (now : Int)
    (event : Int) (data : Nat) : event_record l' now event data = event_record l now event data := by
  unfold event_record
  rw [h]

theorem stored_log_events {l : nvs_log_buffer} (h : log_wf l) (calls : List log_call) :
    stored (log_events l calls)
      = keep_last (l.entries - 1)
          (stored l ++ calls.map fun c => event_record l c.now c.event c.data) := by
  induction calls generalizing l with
  | nil =>
    have := stored_count_lt h
    simp only [log_events, List.foldl_nil, List.map_nil, List.append_nil]
    rw [keep_last_of_length_le]
    rw [length_stored]; omega
  | cons c cs ih =>
    rw [log_events_cons, ih (log_wf_nvs_log_event h c.now c.event c.data)]
    obtain ⟨he, hts, _⟩ := nvs_log_event_fields l c.now c.event c.data
    have hrec : (cs.map fun x => event_record (nvs_log_event l c.now c.event c.data)
          x.now x.event x.data) = cs.map fun x => event_record l x.now x.event x.data := by
      apply List.map_congr_left
      intro x _
      exact event_record_congr hts _ _ _
    rw [hrec, he, stored_nvs_log_event h]
    have hcl := stored_count_lt h
    have hfull := nvs_log_full_iff_count h
    rw [List.map_cons]
    have happ : stored l ++ event_record l c.now c.event c.data ::
          (cs.map fun x => event_record l x.now x.event x.data)
        = (stored l ++ [event_record l c.now c.event c.data]) ++
          (cs.map fun x => event_record l x.now x.event x.data) := by simp
    rw [happ]
    by_cases hf : nvs_log_full l = true
    · rw [if_pos hf]
      have := hfull.1 hf
      apply keep_last_drop_append
      · simp only [List.length_append, List.length_singleton]; omega
      · simp only [List.length_append, List.length_singleton, length_stored, List.length_map]
        omega
    · rw [if_neg hf, List.drop_zero]

theorem nvs_log_get_n_stored (K : nvs_event_enum) (n : Nat) {l : nvs_log_buffer} (h : log_wf l)
    (hn : stored_count l = n) (ev : struct_nvs_log_event) :
    (nvs_log_get_n K n l ev).2 = stored l ∧
    log_wf (nvs_log_get_n K n l ev).1 ∧
    (nvs_log_get_n K n l ev).1.get = (nvs_log_get_n K n l ev).1.put := by
  induction n generalizing l ev with
  | zero =>
    have hnil : stored l = [] := by rw [← List.length_eq_zero, length_stored]; exact hn
    exact ⟨by simp [nvs_log_get_n, hnil], h, (stored_eq_nil_iff h).1 hnil⟩
  | succ n ih =>
    have hne : l.get ≠ l.put := by
      intro e
      have := (stored_eq_nil_iff h).2 e
      rw [← List.length_eq_zero, length_stored] at this
      omega
    have hst := stored_nvs_log_get K h ev hne
    have hwf := log_wf_nvs_log_get K h ev
    have hcnt : stored_count (nvs_log_get K l ev).1 = n := by
      have := congrArg List.length hst
      simp only [List.length_cons, length_stored] at this
      omega
    obtain ⟨h1, h2, h3⟩ := ih hwf hcnt (nvs_log_get K l ev).2
    refine ⟨?_, h2, h3⟩
    show (nvs_log_get K l ev).2 :: _ = _
    rw [h1, ← hst]

theorem nvs_log_get_n_empty (K : nvs_event_enum) (n : Nat) (l : nvs_log_buffer)
    (h : l.get = l.put) (ev : struct_nvs_log_event) :
    nvs_log_get_n K n l ev
      = (l, List.replicate n { ev with event := K.NVS_EV_NO_EVENT }) := by
  induction n generalizing ev with
  | zero => rfl
  | succ n ih =>
    show ((nvs_log_get_n K n (nvs_log_get K l ev).1 (nvs_log_get K l ev).2).1,
      (nvs_log_get K l ev).2 :: (nvs_log_get_n K n (nvs_log_get K l ev).1 (nvs_log_get K l ev).2).2)
      = _
    rw [nvs_log_get_empty K l ev h]
    rw [ih]
    rfl

theorem nvs_log_init_success (N : Nat) (sched : nvs_sched) (t0 : Int) :
    nvs_log_init N sched t0 true true
      = (0, { log := some (fresh_log N t0), live_blocks := sched.live_blocks + 2 }) := by
  simp [nvs_log_init, fresh_log]

theorem wrap_s64_of_range {x : Int} (h1 : -2 ^ 63 ≤ x) (h2 : x < 2 ^ 63) : wrap_s64 x = x := by
  unfold wrap_s64
  omega

/-! ## The claims about the event log -/

/-- C1 (counterexample): with capacity 4 and the events A, B, C, D, E appended
in order to a freshly initialised log, the successive `nvs_log_get` calls return
C, D, E and then report `NVS_EV_NO_EVENT` twice; the first record returned is
not B, so only the last three events are retrievable, not the last four. -/
theorem nvs_log_capacity_four_returns_three :
    (nvs_log_init 4 ⟨none, 0⟩ 100 true true).2.log = some (fresh_log 4 100) ∧
    ((nvs_log_get_n nvs_event_c 5
        (log_events (fresh_log 4 100)
          [⟨101, 1, 0xA⟩, ⟨102, 2, 0xB⟩, ⟨103, 3, 0xC⟩, ⟨104, 1, 0xD⟩, ⟨105, 2, 0xE⟩])
        zero_event).2.map fun r => (r.event, r.data))
      = [(3, 0xC), (1, 0xD), (2, 0xE), (0, 0xE), (0, 0xE)] ∧
    ((nvs_log_get_n nvs_event_c 5
        (log_events (fresh_log 4 100)
          [⟨101, 1, 0xA⟩, ⟨102, 2, 0xB⟩, ⟨103, 3, 0xC⟩, ⟨104, 1, 0xD⟩, ⟨105, 2, 0xE⟩])
        zero_event).2.map fun r => (r.event, r.data)).head?
      ≠ some (2, 0xB) := by
  decide

/-- C1 (amended): for every capacity `N ≥ 1` and every `k ≥ 0`, after appending
`N + k` events with `nvs_log_event` to a freshly initialised log, `N - 1` calls
of `nvs_log_get` return exactly the last `N - 1` appended events, oldest first,
and every later call reports `NVS_EV_NO_EVENT` and leaves the log as it is. -/
theorem nvs_log_keeps_last_entries_minus_one (K : nvs_event_enum) (N k : Nat) (hN : 1 ≤ N)
    (hN32 : N < 2 ^ 32) (sched : nvs_sched) (t0 : Int) (l0 : nvs_log_buffer)
    (hinit : (nvs_log_init N sched t0 true true).2.log = some l0)
    (calls : List log_call) (hlen : calls.length = N + k) (ev : struct_nvs_log_event) :
    (nvs_log_get_n K (N - 1) (log_events l0 calls) ev).2
      = (calls.drop (k + 1)).map (fun c => event_record l0 c.now c.event c.data) ∧
    (calls.drop (k + 1)).length = N - 1 ∧
    ∀ (n : Nat) (ev1 : struct_nvs_log_event),
      nvs_log_get_n K n (nvs_log_get_n K (N - 1) (log_events l0 calls) ev).1 ev1
        = ((nvs_log_get_n K (N - 1) (log_events l0 calls) ev).1,
            List.replicate n { ev1 with event := K.NVS_EV_NO_EVENT }) := by
  rw [nvs_log_init_success] at hinit
  have hl0 : l0 = fresh_log N t0 := (Option.some.inj hinit).symm
  subst hl0
  have hwf0 := log_wf_fresh_log hN hN32 t0
  have hwf := log_wf_log_events hwf0 calls
  have hst : stored (log_events (fresh_log N t0) calls)
      = (calls.drop (k + 1)).map
          (fun c => event_record (fresh_log N t0) c.now c.event c.data) := by
    rw [stored_log_events hwf0, stored_fresh_log, List.nil_append]
    unfold keep_last
    rw [List.length_map, hlen, ← List.map_drop]
    have : (fresh_log N t0).entries = N := rfl
    rw [this]
    congr 2
    omega
  have hdrop : (calls.drop (k + 1)).length = N - 1 := by
    rw [List.length_drop, hlen]; omega
  have hcnt : stored_count (log_events (fresh_log N t0) calls) = N - 1 := by
    rw [← length_stored, hst, List.length_map, hdrop]
  obtain ⟨h1, _, h3⟩ := nvs_log_get_n_stored K (N - 1) hwf hcnt ev
  refine ⟨h1.trans hst, hdrop, ?_⟩
  intro n ev1
  exact nvs_log_get_n_empty K n _ h3 ev1

/-- C1 (amended), instance: capacity 4, five events appended, three returned. -/
theorem nvs_log_keeps_last_entries_minus_one_witness :
    (nvs_log_get_n nvs_event_c (4 - 1)
        (log_events (fresh_log 4 100)
          [⟨101, 1, 0xA⟩, ⟨102, 2, 0xB⟩, ⟨103, 3, 0xC⟩, ⟨104, 1, 0xD⟩, ⟨105, 2, 0xE⟩])
        zero_event).2
      = (([⟨101, 1, 0xA⟩, ⟨102, 2, 0xB⟩, ⟨103, 3, 0xC⟩, ⟨104, 1, 0xD⟩, ⟨105, 2, 0xE⟩] :
            List log_call).drop (1 + 1)).map
          (fun c => event_record (fresh_log 4 100) c.now c.event c.data) :=
  (nvs_log_keeps_last_entries_minus_one nvs_event_c 4 1 (by decide) (by decide) ⟨none, 0⟩ 100
    (fresh_log 4 100) (by decide)
    [⟨101, 1, 0xA⟩, ⟨102, 2, 0xB⟩, ⟨103, 3, 0xC⟩, ⟨104, 1, 0xD⟩, ⟨105, 2, 0xE⟩] (by decide)
    zero_event).1

/-- C2: on the log a successful `nvs_log_init` installs, and on a well-formed
log from which every stored record has been retrieved, `nvs_log_get` sets
`ev->event` to `NVS_EV_NO_EVENT` and returns the log unchanged (`get`, `put`,
the event array and all else), so any number `n` of further calls keep
reporting `NVS_EV_NO_EVENT`. -/
theorem nvs_log_get_reports_no_event (K : nvs_event_enum) (N : Nat) (sched : nvs_sched)
    (t0 : Int) (l0 l : nvs_log_buffer)
    (hinit : (nvs_log_init N sched t0 true true).2.log = some l0) (hwf : log_wf l)
    (n : Nat) (ev ev1 : struct_nvs_log_event) :
    nvs_log_get K l0 ev1 = (l0, { ev1 with event := K.NVS_EV_NO_EVENT }) ∧
    nvs_log_get_n K n l0 ev1 = (l0, List.replicate n { ev1 with event := K.NVS_EV_NO_EVENT }) ∧
    (nvs_log_get_n K (stored_count l) l ev).2 = stored l ∧
    nvs_log_get K (nvs_log_get_n K (stored_count l) l ev).1 ev1
      = ((nvs_log_get_n K (stored_count l) l ev).1,
          { ev1 with event := K.NVS_EV_NO_EVENT }) ∧
    nvs_log_get_n K n (nvs_log_get_n K (stored_count l) l ev).1 ev1
      = ((nvs_log_get_n K (stored_count l) l ev).1,
          List.replicate n { ev1 with event := K.NVS_EV_NO_EVENT }) := by
  rw [nvs_log_init_success] at hinit
  have hl0 : l0 = fresh_log N t0 := (Option.some.inj hinit).symm
  subst hl0
  have h0 : (fresh_log N t0).get = (fresh_log N t0).put := rfl
  obtain ⟨h1, _, h3⟩ := nvs_log_get_n_stored K (stored_count l) hwf rfl ev
  exact ⟨nvs_log_get_empty K _ ev1 h0, nvs_log_get_n_empty K n _ h0 ev1, h1,
    nvs_log_get_empty K _ ev1 h3, nvs_log_get_n_empty K n _ h3 ev1⟩

/-- C2, instance: a fresh log of capacity 4, and a log holding two records that
is drained by two calls; three further calls report `NVS_EV_NO_EVENT`. -/
theorem nvs_log_get_reports_no_event_witness :
    nvs_log_get_n nvs_event_c 3
        (nvs_log_get_n nvs_event_c
          (stored_count (log_events (fresh_log 4 100) [⟨101, 1, 7⟩, ⟨102, 2, 8⟩]))
          (log_events (fresh_log 4 100) [⟨101, 1, 7⟩, ⟨102, 2, 8⟩]) zero_event).1 zero_event
      = ((nvs_log_get_n nvs_event_c
          (stored_count (log_events (fresh_log 4 100) [⟨101, 1, 7⟩, ⟨102, 2, 8⟩]))
          (log_events (fresh_log 4 100) [⟨101, 1, 7⟩, ⟨102, 2, 8⟩]) zero_event).1,
          List.replicate 3 { zero_event with event := nvs_event_c.NVS_EV_NO_EVENT }) :=
  (nvs_log_get_reports_no_event nvs_event_c 4 ⟨none, 0⟩ 100 (fresh_log 4 100)
    (log_events (fresh_log 4 100) [⟨101, 1, 7⟩, ⟨102, 2, 8⟩]) (by decide) (by decide) 3
    zero_event zero_event).2.2.2.2

/-- C3: on a well-formed log (`get < entries`, `put < entries`, an array of
`entries` slots) `nvs_log_event` advances `get` by one with wrap-around exactly
when the log is full, stores the record (event, data, `now - ts_offset` in
`s64` arithmetic, which is the exact difference when that fits) at slot `put`
and changes no other slot, advances `put` by one with wrap-around, and keeps
`entries` and `ts_offset`. On a full log the retrievable records afterwards are
the old ones followed by the new one, less the first of these: with
`entries ≥ 2` that is the oldest stored record, and the others follow in order
with the new record last; no other record is inserted. On a log that is not
full they are the old ones followed by the new one. -/
theorem nvs_log_event_step (l : nvs_log_buffer) (hwf : log_wf l) (now : Int) (event : Int)
    (data : Nat) :
    (nvs_log_event l now event data).get
      = (if nvs_log_full l = true then (if l.get + 1 = l.entries then 0 else l.get + 1)
          else l.get) ∧
    (nvs_log_event l now event data).events[l.put]?
      = some { timestamp := wrap_s64 (now - l.ts_offset), event := event, data := data } ∧
    (-2 ^ 63 ≤ now - l.ts_offset → now - l.ts_offset < 2 ^ 63 →
      wrap_s64 (now - l.ts_offset) = now - l.ts_offset) ∧
    (∀ i, i ≠ l.put → (nvs_log_event l now event data).events[i]? = l.events[i]?) ∧
    (nvs_log_event l now event data).events.length = l.events.length ∧
    (nvs_log_event l now event data).put = (if l.put + 1 = l.entries then 0 else l.put + 1) ∧
    (nvs_log_event l now event data).entries = l.entries ∧
    (nvs_log_event l now event data).ts_offset = l.ts_offset ∧
    (nvs_log_full l = true →
      stored (nvs_log_event l now event data)
        = (stored l ++ [event_record l now event data]).drop 1) ∧
    (nvs_log_full l = true → 2 ≤ l.entries →
      stored l ≠ [] ∧
      stored (nvs_log_event l now event data)
        = (stored l).tail ++ [event_record l now event data]) ∧
    (nvs_log_full l = false →
      stored (nvs_log_event l now event data) = stored l ++ [event_record l now event data]) := by
  obtain ⟨he, hts, hg, hp, hev⟩ := nvs_log_event_fields l now event data
  have hst := stored_nvs_log_event hwf now event data
  have hfull := nvs_log_full_iff_count hwf
  obtain ⟨h32, hlen, hgl, hpl⟩ := hwf
  refine ⟨?_, ?_, fun h1 h2 => wrap_s64_of_range h1 h2, ?_, ?_, ?_, he, hts, ?_, ?_, ?_⟩
  · rw [hg, LOG_INC_of_lt hgl h32]
  · rw [hev, List.getElem?_set_self (by omega)]; rfl
  · intro i hi
    rw [hev, List.getElem?_set_ne (Ne.symm hi)]
  · rw [hev, List.length_set]
  · rw [hp, LOG_INC_of_lt hpl h32]
  · intro hf
    rw [hst, if_pos hf]
  · intro hf h2
    have hc := hfull.1 hf
    have hne : stored l ≠ [] := by
      intro e
      have := congrArg List.length e
      rw [length_stored] at this
      simp only [List.length_nil] at this
      omega
    refine ⟨hne, ?_⟩
    rw [hst, if_pos hf]
    cases hs : stored l with
    | nil => exact absurd hs hne
    | cons a as => rfl
  · intro hf
    rw [hst, if_neg (by simp [hf]), List.drop_zero]

/-- C3, instance: a full log of capacity 4 holding three records. -/
theorem nvs_log_event_step_witness :
    (nvs_log_event (log_events (fresh_log 4 100) [⟨101, 1, 7⟩, ⟨102, 2, 8⟩, ⟨103, 3, 9⟩])
        104 1 10).get
      = (if nvs_log_full (log_events (fresh_log 4 100) [⟨101, 1, 7⟩, ⟨102, 2, 8⟩, ⟨103, 3, 9⟩])
            = true then
          (if (log_events (fresh_log 4 100) [⟨101, 1, 7⟩, ⟨102, 2, 8⟩, ⟨103, 3, 9⟩]).get + 1
              = (log_events (fresh_log 4 100) [⟨101, 1, 7⟩, ⟨102, 2, 8⟩, ⟨103, 3, 9⟩]).entries
            then 0
            else (log_events (fresh_log 4 100) [⟨101, 1, 7⟩, ⟨102, 2, 8⟩, ⟨103, 3, 9⟩]).get + 1)
          else (log_events (fresh_log 4 100) [⟨101, 1, 7⟩, ⟨102, 2, 8⟩, ⟨103, 3, 9⟩]).get) :=
  (nvs_log_event_step (log_events (fresh_log 4 100) [⟨101, 1, 7⟩, ⟨102, 2, 8⟩, ⟨103, 3, 9⟩])
    (by decide) 104 1 10).1

/-- C4: on a well-formed log with `get != put`, `nvs_log_get` copies the record
at slot `get` into `*ev`, advances `get` by one with wrap-around, and leaves
`put`, `entries`, `ts_offset` and the whole event array unchanged; the record
returned is the oldest one still stored, and the records stored afterwards are
the remaining ones. -/
theorem nvs_log_get_step (K : nvs_event_enum) (l : nvs_log_buffer) (hwf : log_wf l)
    (hne : l.get ≠ l.put) (ev : struct_nvs_log_event) :
    l.events[l.get]? = some (nvs_log_get K l ev).2 ∧
    (nvs_log_get K l ev).1.get = (if l.get + 1 = l.entries then 0 else l.get + 1) ∧
    (nvs_log_get K l ev).1.put = l.put ∧
    (nvs_log_get K l ev).1.entries = l.entries ∧
    (nvs_log_get K l ev).1.ts_offset = l.ts_offset ∧
    (nvs_log_get K l ev).1.events = l.events ∧
    (stored l).head? = some (nvs_log_get K l ev).2 ∧
    stored (nvs_log_get K l ev).1 = (stored l).tail := by
  have hst := stored_nvs_log_get K hwf ev hne
  obtain ⟨h32, hlen, hgl, hpl⟩ := hwf
  refine ⟨?_, ?_, ?_, ?_, ?_, ?_, ?_, ?_⟩
  · rw [nvs_log_get_nonempty K l ev hne]
    have hlt : l.get < l.events.length := by omega
    simp [List.getD_eq_getElem?_getD, List.getElem?_eq_getElem hlt]
  · rw [nvs_log_get_nonempty K l ev hne]
    exact LOG_INC_of_lt hgl h32
  · rw [nvs_log_get_nonempty K l ev hne]
  · rw [nvs_log_get_nonempty K l ev hne]
  · rw [nvs_log_get_nonempty K l ev hne]
  · rw [nvs_log_get_nonempty K l ev hne]
  · rw [hst]; rfl
  · rw [hst]; rfl

/-- C4, instance: a log of capacity 4 holding two records. -/
theorem nvs_log_get_step_witness :
    (stored (log_events (fresh_log 4 100) [⟨101, 1, 7⟩, ⟨102, 2, 8⟩])).head?
      = some (nvs_log_get nvs_event_c
          (log_events (fresh_log 4 100) [⟨101, 1, 7⟩, ⟨102, 2, 8⟩]) zero_event).2 :=
  (nvs_log_get_step nvs_event_c (log_events (fresh_log 4 100) [⟨101, 1, 7⟩, ⟨102, 2, 8⟩])
    (by decide) (by decide) zero_event).2.2.2.2.2.2.1

/-- C5: for every log with `put < entries` (hence `entries ≥ 1`) and `entries`
a `u32`, `nvs_log_full` returns true exactly when `(put + 1) mod entries = get`, and
`nvs_log_get` takes its empty path (log unchanged, `ev->event` set to
`NVS_EV_NO_EVENT`) exactly when `get = put`. -/
theorem nvs_log_full_iff_empty_iff (K : nvs_event_enum) (l : nvs_log_buffer)
    (hp : l.put < l.entries) (h32 : l.entries < 2 ^ 32)
    (ev : struct_nvs_log_event) :
    (nvs_log_full l = true ↔ (l.put + 1) % l.entries = l.get) ∧
    (nvs_log_get K l ev = (l, { ev with event := K.NVS_EV_NO_EVENT }) ↔ l.get = l.put) := by
  constructor
  · unfold nvs_log_full
    rw [LOG_INC_of_lt hp h32, beq_iff_eq]
    by_cases h1 : l.put + 1 = l.entries
    · rw [if_pos h1, h1, Nat.mod_self]
    · rw [if_neg h1, Nat.mod_eq_of_lt (by omega)]
  · constructor
    · intro h
      by_contra hne
      rw [nvs_log_get_nonempty K l ev hne] at h
      have hg : LOG_INC l.get l.entries = l.get := by
        have := congrArg (fun r => r.1.get) h
        exact this
      unfold LOG_INC at hg
      simp only at hg
      split_ifs at hg <;> omega
    · intro h
      exact nvs_log_get_empty K l ev h

/-- C5, instance: a full log of capacity 4. -/
theorem nvs_log_full_iff_empty_iff_witness :
    (nvs_log_full ⟨0, List.replicate 4 zero_event, 4, 1, 0⟩ = true
      ↔ (0 + 1) % 4 = 1) :=
  (nvs_log_full_iff_empty_iff nvs_event_c ⟨0, List.replicate 4 zero_event, 4, 1, 0⟩
    (by decide) (by decide) zero_event).1

theorem log_run_ops_cons (K : nvs_event_enum) (s : log_run) (op : log_op) (ops : List log_op) :
    log_run_ops K s (op :: ops) = log_run_ops K (log_step K s op) ops := by
  simp [log_run_ops]

theorem log_wf_log_step (K : nvs_event_enum) {s : log_run} (h : log_wf s.log) (op : log_op) :
    log_wf (log_step K s op).log := by
  cases op with
  | event now event data => exact log_wf_nvs_log_event h now event data
  | get => exact log_wf_nvs_log_get K h s.ev

theorem log_wf_log_run_ops (K : nvs_event_enum) {s : log_run} (h : log_wf s.log)
    (ops : List log_op) : log_wf (log_run_ops K s ops).log := by
  induction ops generalizing s with
  | nil => exact h
  | cons op ops ih =>
    rw [log_run_ops_cons]
    exact ih (log_wf_log_step K h op)

/-- C6: for a capacity `N ≥ 1` (a `u32`), the predicate `get < entries` and
`put < entries` (on an array of `entries` slots) holds for the log
`nvs_log_init` installs, is preserved by every `nvs_log_event` and every
`nvs_log_get`, and so holds after every run of such calls; in every such state
the slot `nvs_log_event` writes and the slot `nvs_log_get` reads are inside the
array (the write lands, the read finds a record), and `nvs_log_event`, a total
function, always produces the next state. -/
theorem nvs_log_indices_stay_in_bounds (K : nvs_event_enum) (N : Nat) (hN : 1 ≤ N)
    (hN32 : N < 2 ^ 32) (sched : nvs_sched) (t0 : Int) (l0 : nvs_log_buffer)
    (hinit : (nvs_log_init N sched t0 true true).2.log = some l0) :
    log_wf l0 ∧
    (∀ l, log_wf l → ∀ now event data, log_wf (nvs_log_event l now event data)) ∧
    (∀ l, log_wf l → ∀ ev, log_wf (nvs_log_get K l ev).1) ∧
    (∀ ops ev, log_wf (log_run_ops K ⟨l0, ev, []⟩ ops).log) ∧
    (∀ l, log_wf l → l.put < l.events.length ∧ l.get < l.events.length ∧
      (∀ now event data,
        (nvs_log_event l now event data).events[l.put]?
          = some (event_record l now event data)) ∧
      (∀ ev, l.get ≠ l.put → l.events[l.get]? = some (nvs_log_get K l ev).2)) := by
  rw [nvs_log_init_success] at hinit
  have hl0 : l0 = fresh_log N t0 := (Option.some.inj hinit).symm
  subst hl0
  have hwf0 := log_wf_fresh_log hN hN32 t0
  refine ⟨hwf0, fun l h now event data => log_wf_nvs_log_event h now event data,
    fun l h ev => log_wf_nvs_log_get K h ev,
    fun ops ev => ?_, ?_⟩
  · have hrun : log_wf (log_run_ops K ⟨fresh_log N t0, ev, []⟩ ops).log :=
      log_wf_log_run_ops K hwf0 ops
    exact hrun
  intro l h
  obtain ⟨h32, hlen, hgl, hpl⟩ := h
  have hp : l.put < l.events.length := by omega
  have hg : l.get < l.events.length := by omega
  refine ⟨hp, hg, ?_, ?_⟩
  · intro now event data
    rw [(nvs_log_event_fields l now event data).2.2.2.2, List.getElem?_set_self hp]
  · intro ev hne
    rw [nvs_log_get_nonempty K l ev hne]
    simp [List.getD_eq_getElem?_getD, List.getElem?_eq_getElem hg]

/-- C6, instance: capacity 4, after three events and one get. -/
theorem nvs_log_indices_stay_in_bounds_witness :
    log_wf (log_run_ops nvs_event_c ⟨fresh_log 4 100, zero_event, []⟩
      [.event 101 1 7, .event 102 2 8, .event 103 3 9, .get]).log :=
  (nvs_log_indices_stay_in_bounds nvs_event_c 4 (by decide) (by decide) ⟨none, 0⟩ 100
    (fresh_log 4 100) (by decide)).2.2.2.1
    [.event 101 1 7, .event 102 2 8, .event 103 3 9, .get] zero_event

theorem log_run_ops_sublist (K : nvs_event_enum) (ops : List log_op) (s : log_run)
    (pre : List struct_nvs_log_event) (hwf : log_wf s.log)
    (hsub : (s.returned ++ stored s.log).Sublist pre) :
    (log_run_ops K s ops).log.ts_offset = s.log.ts_offset ∧
    ((log_run_ops K s ops).returned ++ stored (log_run_ops K s ops).log).Sublist
      (pre ++ written_records s.log.ts_offset ops) := by
  induction ops generalizing s pre with
  | nil => simpa [log_run_ops, written_records] using hsub
  | cons op ops ih =>
    rw [log_run_ops_cons]
    have hwf1 := log_wf_log_step K hwf op
    cases op with
    | event now event data =>
      obtain ⟨_, hts, _⟩ := nvs_log_event_fields s.log now event data
      have hst := stored_nvs_log_event hwf now event data
      have hsub1 : ((log_step K s (.event now event data)).returned
          ++ stored (log_step K s (.event now event data)).log).Sublist
          (pre ++ [event_record s.log now event data]) := by
        show (s.returned ++ stored (nvs_log_event s.log now event data)).Sublist _
        rw [hst]
        have h1 : ((stored s.log ++ [event_record s.log now event data]).drop
            (if nvs_log_full s.log = true then 1 else 0)).Sublist
            (stored s.log ++ [event_record s.log now event data]) := List.drop_sublist _ _
        have h2 := List.Sublist.append (List.Sublist.refl s.returned) h1
        rw [← List.append_assoc] at h2
        exact h2.trans (List.Sublist.append hsub (List.Sublist.refl _))
      obtain ⟨i1, i2⟩ := ih (log_step K s (.event now event data)) _ hwf1 hsub1
      have hts1 : (log_step K s (.event now event data)).log.ts_offset = s.log.ts_offset := hts
      rw [hts1] at i1 i2
      refine ⟨i1, ?_⟩
      simpa [written_records, event_record] using i2
    | get =>
      have hsub1 : ((log_step K s .get).returned ++ stored (log_step K s .get).log).Sublist
          pre := by
        by_cases hgp : s.log.get = s.log.put
        · have : (log_step K s .get).returned ++ stored (log_step K s .get).log
              = s.returned ++ stored s.log := by
            simp [log_step, nvs_log_get_empty K s.log s.ev hgp, hgp]
          rw [this]; exact hsub
        · have hst := stored_nvs_log_get K hwf s.ev hgp
          have : (log_step K s .get).returned ++ stored (log_step K s .get).log
              = s.returned ++ stored s.log := by
            rw [hst]
            simp [log_step, hgp]
          rw [this]; exact hsub
      have hts1 : (log_step K s .get).log.ts_offset = s.log.ts_offset := by
        by_cases hgp : s.log.get = s.log.put
        · simp [log_step, nvs_log_get_empty K s.log s.ev hgp]
        · simp [log_step, nvs_log_get_nonempty K s.log s.ev hgp]
      obtain ⟨i1, i2⟩ := ih (log_step K s .get) _ hwf1 hsub1
      rw [hts1] at i1 i2
      exact ⟨i1, by simpa [written_records] using i2⟩

theorem written_records_spec (t0 : Int) (ops : List log_op) (h0 : 0 ≤ t0)
    (hmono : ∀ t ∈ clock_readings ops, t0 ≤ t) (hmax : ∀ t ∈ clock_readings ops, t < 2 ^ 63) :
    (∀ r ∈ written_records t0 ops, ∃ now event data,
      log_op.event now event data ∈ ops ∧
        r = { timestamp := now - t0, event := event, data := data }) ∧
    (written_records t0 ops).map (fun r => r.timestamp)
      = (clock_readings ops).map (fun now => now - t0) := by
  induction ops with
  | nil => simp [written_records, clock_readings]
  | cons op ops ih =>
    cases op with
    | event now event data =>
      have hm : ∀ t ∈ clock_readings ops, t0 ≤ t := fun t ht =>
        hmono t (by simp [clock_readings, ht])
      have hx : ∀ t ∈ clock_readings ops, t < 2 ^ 63 := fun t ht =>
        hmax t (by simp [clock_readings, ht])
      obtain ⟨i1, i2⟩ := ih hm hx
      have hn1 : t0 ≤ now := hmono now (by simp [clock_readings])
      have hn2 : now < 2 ^ 63 := hmax now (by simp [clock_readings])
      have hw : wrap_s64 (now - t0) = now - t0 := wrap_s64_of_range (by omega) (by omega)
      constructor
      · intro r hr
        simp only [written_records, List.mem_cons] at hr
        rcases hr with hr | hr
        · exact ⟨now, event, data, by simp, by rw [hr, hw]⟩
        · obtain ⟨n, e, d, hmem, hre⟩ := i1 r hr
          exact ⟨n, e, d, List.mem_cons_of_mem _ hmem, hre⟩
      · simp only [written_records, clock_readings, List.map_cons, i2, hw]
    | get =>
      have hm : ∀ t ∈ clock_readings ops, t0 ≤ t := fun t ht =>
        hmono t (by simpa [clock_readings] using ht)
      have hx : ∀ t ∈ clock_readings ops, t < 2 ^ 63 := fun t ht =>
        hmax t (by simpa [clock_readings] using ht)
      obtain ⟨i1, i2⟩ := ih hm hx
      constructor
      · intro r hr
        obtain ⟨n, e, d, hmem, hre⟩ := i1 r (by simpa [written_records] using hr)
        exact ⟨n, e, d, List.mem_cons_of_mem _ hmem, hre⟩
      · simpa [written_records, clock_readings] using i2

/-- C7: after a successful `nvs_log_init` at clock value `t0`, for any run of
`nvs_log_event` and `nvs_log_get` calls whose clock readings are non-decreasing
from `t0` on (and are `s64` values, `0 ≤ t0`): `ts_offset` is `t0`, every record
popped by `nvs_log_get` or still stored was written by one of the
`nvs_log_event` calls and carries that call's clock value minus `t0`, and the
records popped by the successive `nvs_log_get` calls carry non-negative,
non-decreasing timestamps. -/
theorem nvs_log_timestamps_non_decreasing (K : nvs_event_enum) (N : Nat) (hN : 1 ≤ N)
    (hN32 : N < 2 ^ 32) (sched : nvs_sched) (t0 : Int) (l0 : nvs_log_buffer)
    (hinit : (nvs_log_init N sched t0 true true).2.log = some l0)
    (ops : List log_op) (ev : struct_nvs_log_event) (h0 : 0 ≤ t0)
    (hclock : (t0 :: clock_readings ops).Pairwise (fun a b => a ≤ b))
    (hmax : ∀ t ∈ clock_readings ops, t < 2 ^ 63) :
    l0.ts_offset = t0 ∧
    (log_run_ops K ⟨l0, ev, []⟩ ops).log.ts_offset = t0 ∧
    (∀ r ∈ (log_run_ops K ⟨l0, ev, []⟩ ops).returned
          ++ stored (log_run_ops K ⟨l0, ev, []⟩ ops).log,
      ∃ now event data, log_op.event now event data ∈ ops ∧
        r = { timestamp := now - t0, event := event, data := data }) ∧
    (∀ r ∈ (log_run_ops K ⟨l0, ev, []⟩ ops).returned, 0 ≤ r.timestamp) ∧
    (log_run_ops K ⟨l0, ev, []⟩ ops).returned.Pairwise
      (fun a b => a.timestamp ≤ b.timestamp) := by
  rw [nvs_log_init_success] at hinit
  have hl0 : l0 = fresh_log N t0 := (Option.some.inj hinit).symm
  subst hl0
  have hwf0 := log_wf_fresh_log hN hN32 t0
  obtain ⟨hts, hsub⟩ := log_run_ops_sublist K ops ⟨fresh_log N t0, ev, []⟩ [] hwf0
    (by simp [stored_fresh_log])
  have hts0 : (fresh_log N t0).ts_offset = t0 := rfl
  simp only [hts0, List.nil_append] at hts hsub
  obtain ⟨hge, hpw⟩ := List.pairwise_cons.1 hclock
  obtain ⟨i1, i2⟩ := written_records_spec t0 ops h0 hge hmax
  have hret : ((log_run_ops K ⟨fresh_log N t0, ev, []⟩ ops).returned).Sublist
      (written_records t0 ops) :=
    (List.sublist_append_left _ _).trans hsub
  have hwr : (written_records t0 ops).Pairwise (fun a b => a.timestamp ≤ b.timestamp) := by
    have h1 : ((clock_readings ops).map (fun now => now - t0)).Pairwise (fun a b => a ≤ b) := by
      rw [List.pairwise_map]
      exact hpw.imp (fun {a b} hab => by omega)
    rw [← i2, List.pairwise_map] at h1
    exact h1
  refine ⟨rfl, hts, fun r hr => i1 r (hsub.subset hr), ?_, hwr.sublist hret⟩
  intro r hr
  have hmem : r.timestamp ∈ (written_records t0 ops).map (fun r => r.timestamp) :=
    List.mem_map_of_mem _ (hret.subset hr)
  rw [i2, List.mem_map] at hmem
  obtain ⟨t, ht, hte⟩ := hmem
  have := hge t ht
  omega

/-- C7, instance: capacity 4, clock readings 101, 102, 103 after `t0 = 100`. -/
theorem nvs_log_timestamps_non_decreasing_witness :
    (log_run_ops nvs_event_c ⟨fresh_log 4 100, zero_event, []⟩
        [.event 101 1 7, .get, .event 102 2 8, .event 103 3 9, .get, .get]).returned.Pairwise
      (fun a b => a.timestamp ≤ b.timestamp) :=
  (nvs_log_timestamps_non_decreasing nvs_event_c 4 (by decide) (by decide) ⟨none, 0⟩ 100
    (fresh_log 4 100) (by decide)
    [.event 101 1 7, .get, .event 102 2 8, .event 103 3 9, .get, .get] zero_event
    (by decide) (by decide) (by decide)).2.2.2.2

/-- C8 (counterexample): for the value `NVS_EV_MAX`, which is not below the
first kind and is `≥ NVS_EV_MAX`, `nvs_log_event_string` returns
"Invalid MAX event", not the "Undefined event" fallback; this holds whatever
the numbering of the enumerators. -/
theorem nvs_log_event_string_max_not_undefined :
    nvs_log_event_string nvs_event_c nvs_event_c.NVS_EV_MAX = "Invalid MAX event" ∧
    nvs_log_event_string nvs_event_c 4 ≠ "Undefined event" ∧
    (∀ K : nvs_event_enum, nvs_log_event_string K K.NVS_EV_MAX ≠ "Undefined event") := by
  refine ⟨by decide, by decide, ?_⟩
  intro K
  unfold nvs_log_event_string
  split_ifs with c1 c2 c3 c4 c5
  · decide
  · decide
  · decide
  · decide
  · decide
  · exact absurd rfl c5

/-- C8 (amended): `nvs_log_event_string` is total; with the enumerators numbered
in increasing order, it returns the own name of each of `NVS_EV_NO_EVENT`,
`NVS_EV_CREATE_SCHED`, `NVS_EV_CREATE_DOMAIN`, `NVS_EV_REMOVE_DOMAIN`, returns
"Invalid MAX event" for `NVS_EV_MAX`, and returns "Undefined event" for every
value above `NVS_EV_MAX` or below the first kind. -/
theorem nvs_log_event_string_total (K : nvs_event_enum)
    (h1 : K.NVS_EV_NO_EVENT < K.NVS_EV_CREATE_SCHED)
    (h2 : K.NVS_EV_CREATE_SCHED < K.NVS_EV_CREATE_DOMAIN)
    (h3 : K.NVS_EV_CREATE_DOMAIN < K.NVS_EV_REMOVE_DOMAIN)
    (h4 : K.NVS_EV_REMOVE_DOMAIN < K.NVS_EV_MAX) :
    nvs_log_event_string K K.NVS_EV_NO_EVENT = "No event" ∧
    nvs_log_event_string K K.NVS_EV_CREATE_SCHED = "Create scheduler" ∧
    nvs_log_event_string K K.NVS_EV_CREATE_DOMAIN = "Create domain" ∧
    nvs_log_event_string K K.NVS_EV_REMOVE_DOMAIN = "Remove domain" ∧
    nvs_log_event_string K K.NVS_EV_MAX = "Invalid MAX event" ∧
    (∀ v : Int, K.NVS_EV_MAX < v ∨ v < K.NVS_EV_NO_EVENT →
      nvs_log_event_string K v = "Undefined event") := by
  unfold nvs_log_event_string
  refine ⟨?_, ?_, ?_, ?_, ?_, ?_⟩
  · simp
  · rw [if_neg (by omega), if_pos rfl]
  · rw [if_neg (by omega), if_neg (by omega), if_pos rfl]
  · rw [if_neg (by omega), if_neg (by omega), if_neg (by omega), if_pos rfl]
  · rw [if_neg (by omega), if_neg (by omega), if_neg (by omega), if_neg (by omega), if_pos rfl]
  · intro v hv
    rw [if_neg (by omega), if_neg (by omega), if_neg (by omega), if_neg (by omega),
      if_neg (by omega)]

/-- C8 (amended), instance: the numbering 0, 1, 2, 3, 4. -/
theorem nvs_log_event_string_total_witness :
    nvs_log_event_string nvs_event_c 7 = "Undefined event" :=
  (nvs_log_event_string_total nvs_event_c (by decide) (by decide) (by decide)
    (by decide)).2.2.2.2.2 7 (Or.inl (by decide))

/-- C9: `nvs_log_init` returns 0 exactly when both allocations succeed, and then
`sched->log` is the log with `get = put = 0`, `entries = NVS_LOG_ENTRIES`, an
array of `NVS_LOG_ENTRIES` zeroed slots and `ts_offset` the clock value of the
call; if the first allocation fails, or the first succeeds and the second
fails, it returns `-ENOMEM` and the scheduler is as before the call: `log`
unchanged and no block left allocated (the first block has been freed). -/
theorem nvs_log_init_result (N : Nat) (sched : nvs_sched) (now : Int)
    (malloc_logger malloc_events : Bool) :
    ((nvs_log_init N sched now malloc_logger malloc_events).1 = 0
      ↔ (malloc_logger = true ∧ malloc_events = true)) ∧
    nvs_log_init N sched now true true
      = (0, { log := some { ts_offset := now, events := List.replicate N zero_event,
                            entries := N, get := 0, put := 0 },
              live_blocks := sched.live_blocks + 2 }) ∧
    (∀ e ∈ List.replicate N zero_event, e = zero_event) ∧
    (List.replicate N zero_event).length = N ∧
    nvs_log_init N sched now false malloc_events = (-ENOMEM, sched) ∧
    nvs_log_init N sched now true false = (-ENOMEM, sched) := by
  refine ⟨?_, ?_, ?_, ?_, ?_, ?_⟩
  · cases malloc_logger <;> cases malloc_events <;> simp [nvs_log_init, ENOMEM]
  · simp [nvs_log_init]
  · intro e he
    exact List.eq_of_mem_replicate he
  · simp
  · simp [nvs_log_init]
  · simp [nvs_log_init]

theorem stored_count_nvs_log_event {l : nvs_log_buffer} (h : log_wf l) (now : Int) (event : Int)
    (data : Nat) :
    stored_count (nvs_log_event l now event data)
      = if stored_count l < l.entries - 1 then stored_count l + 1 else l.entries - 1 := by
  have hlt := stored_count_lt h
  have hfull := nvs_log_full_iff_count h
  rw [← length_stored, stored_nvs_log_event h, List.length_drop, List.length_append,
    List.length_singleton, length_stored]
  by_cases hf : nvs_log_full l = true
  · have := hfull.1 hf
    rw [if_pos hf]
    split_ifs <;> omega
  · have := mt hfull.2 hf
    rw [if_neg hf]
    split_ifs <;> omega

theorem stored_count_nvs_log_get (K : nvs_event_enum) {l : nvs_log_buffer} (h : log_wf l)
    (ev : struct_nvs_log_event) :
    stored_count (nvs_log_get K l ev).1 = stored_count l - 1 := by
  by_cases hgp : l.get = l.put
  · rw [nvs_log_get_empty K l ev hgp]
    have := (stored_eq_nil_iff h).2 hgp
    rw [← length_stored, this]
    rfl
  · have hst := congrArg List.length (stored_nvs_log_get K h ev hgp)
    rw [List.length_cons, length_stored, length_stored] at hst
    omega

theorem stored_count_eq_sub_mod {l : nvs_log_buffer} (h : log_wf l) :
    ((l.put : Int) - (l.get : Int)) % (l.entries : Int) = (stored_count l : Int) := by
  obtain ⟨h32, hlen, hgl, hpl⟩ := h
  unfold stored_count
  by_cases hgp : l.get ≤ l.put
  · rw [if_pos hgp, Int.emod_eq_of_lt (by omega) (by omega)]
    omega
  · rw [if_neg hgp, ← Int.add_emod_self, Int.emod_eq_of_lt (by omega) (by omega)]
    omega

/-- C23 (failing input): on a freshly initialised (empty) log, `nvs_log_get`
called with a record holding timestamp 55, event 3 and data 9 leaves timestamp
55 and data 9 in it and only sets the event to `NVS_EV_NO_EVENT`; on every
empty log the timestamp and the data of `*ev` are what the caller passed in. -/
theorem nvs_log_get_empty_keeps_data_and_timestamp :
    (nvs_log_get nvs_event_c (fresh_log 4 100) ⟨55, 3, 9⟩).2 = ⟨55, 0, 9⟩ ∧
    (nvs_log_get nvs_event_c (fresh_log 4 100) ⟨55, 3, 9⟩).2.data ≠ 0 ∧
    (nvs_log_get nvs_event_c (fresh_log 4 100) ⟨55, 3, 9⟩).2.timestamp ≠ 0 ∧
    (∀ (K : nvs_event_enum) (l : nvs_log_buffer) (ev : struct_nvs_log_event),
      l.get = l.put →
      (nvs_log_get K l ev).2.event = K.NVS_EV_NO_EVENT ∧
      (nvs_log_get K l ev).2.data = ev.data ∧
      (nvs_log_get K l ev).2.timestamp = ev.timestamp) := by
  refine ⟨by decide, by decide, by decide, ?_⟩
  intro K l ev h
  rw [nvs_log_get_empty K l ev h]
  exact ⟨rfl, rfl, rfl⟩

/-- C24: in every log state reached from a successful `nvs_log_init` (capacity
`N ≥ 1`) by any run of `nvs_log_event` and `nvs_log_get` calls, the number of
stored records is `(put - get) mod entries` and is at most `entries - 1`;
`nvs_log_event` raises it by one when it is below `entries - 1` and leaves it
at `entries - 1` otherwise; `nvs_log_get` lowers it by one when it is positive
and leaves it at zero otherwise. -/
theorem nvs_log_stored_count_at_most_entries_minus_one (K : nvs_event_enum) (N : Nat)
    (hN : 1 ≤ N) (hN32 : N < 2 ^ 32) (sched : nvs_sched) (t0 : Int) (l0 : nvs_log_buffer)
    (hinit : (nvs_log_init N sched t0 true true).2.log = some l0)
    (ops : List log_op) (ev : struct_nvs_log_event) :
    (((log_run_ops K ⟨l0, ev, []⟩ ops).log.put : Int)
        - ((log_run_ops K ⟨l0, ev, []⟩ ops).log.get : Int))
      % ((log_run_ops K ⟨l0, ev, []⟩ ops).log.entries : Int)
      = (stored_count (log_run_ops K ⟨l0, ev, []⟩ ops).log : Int) ∧
    (stored (log_run_ops K ⟨l0, ev, []⟩ ops).log).length
      = stored_count (log_run_ops K ⟨l0, ev, []⟩ ops).log ∧
    stored_count (log_run_ops K ⟨l0, ev, []⟩ ops).log
      ≤ (log_run_ops K ⟨l0, ev, []⟩ ops).log.entries - 1 ∧
    (∀ now event data,
      stored_count (nvs_log_event (log_run_ops K ⟨l0, ev, []⟩ ops).log now event data)
        = if stored_count (log_run_ops K ⟨l0, ev, []⟩ ops).log
              < (log_run_ops K ⟨l0, ev, []⟩ ops).log.entries - 1 then
            stored_count (log_run_ops K ⟨l0, ev, []⟩ ops).log + 1
          else (log_run_ops K ⟨l0, ev, []⟩ ops).log.entries - 1) ∧
    (∀ ev1,
      stored_count (nvs_log_get K (log_run_ops K ⟨l0, ev, []⟩ ops).log ev1).1
        = stored_count (log_run_ops K ⟨l0, ev, []⟩ ops).log - 1) := by
  rw [nvs_log_init_success] at hinit
  have hl0 : l0 = fresh_log N t0 := (Option.some.inj hinit).symm
  subst hl0
  have hwf0 := log_wf_fresh_log hN hN32 t0
  have hwf : log_wf (log_run_ops K ⟨fresh_log N t0, ev, []⟩ ops).log :=
    log_wf_log_run_ops K hwf0 ops
  have hlt := stored_count_lt hwf
  exact ⟨stored_count_eq_sub_mod hwf, length_stored _, by omega,
    fun now event data => stored_count_nvs_log_event hwf now event data,
    fun ev1 => stored_count_nvs_log_get K hwf ev1⟩

/-- C24, instance: capacity 4, after four events and one get. -/
theorem nvs_log_stored_count_at_most_entries_minus_one_witness :
    stored_count (log_run_ops nvs_event_c ⟨fresh_log 4 100, zero_event, []⟩
        [.event 101 1 7, .event 102 2 8, .event 103 3 9, .event 104 1 10, .get]).log
      ≤ (log_run_ops nvs_event_c ⟨fresh_log 4 100, zero_event, []⟩
        [.event 101 1 7, .event 102 2 8, .event 103 3 9, .event 104 1 10, .get]).log.entries - 1 :=
  (nvs_log_stored_count_at_most_entries_minus_one nvs_event_c 4 (by decide) (by decide)
    ⟨none, 0⟩ 100 (fresh_log 4 100) (by decide)
    [.event 101 1 7, .event 102 2 8, .event 103 3 9, .event 104 1 10, .get] zero_event).2.2.1

end logging

namespace dmabuf_nvs

theorem vma_length_eq (vma : vm_area_struct) (h1 : vma.vm_start ≤ vma.vm_end)
    (h2 : vma.vm_end < 2 ^ 64) : vma_length vma = vma.vm_end - vma.vm_start := by
  unfold vma_length
  omega

/-- C10: `nvgpu_nvs_buf_mmap` returns `-EINVAL` for every request whose page
offset is not 0 or whose length `vm_end - vm_start` exceeds `buf->mem.size`,
and then the device (reference count, queue lock and its call counts), the
buffer and the vma are exactly as before the call; conversely, whenever it
returns 0 the request had page offset 0 and a length of at most
`buf->mem.size`. The length is the `unsigned long` difference, which for
`vm_start ≤ vm_end` is the exact difference. -/
theorem nvgpu_nvs_buf_mmap_invalid_request (s : mmap_state) (get_ok : Bool) (mmap_err : Int)
    (kzalloc : Option Nat) :
    (s.vma.vm_pgoff ≠ 0 ∨ vma_length s.vma > s.buf.mem_size →
      nvgpu_nvs_buf_mmap s get_ok mmap_err kzalloc = (-EINVAL, s)) ∧
    ((nvgpu_nvs_buf_mmap s get_ok mmap_err kzalloc).1 = 0 →
      s.vma.vm_pgoff = 0 ∧ vma_length s.vma ≤ s.buf.mem_size) ∧
    (s.vma.vm_start ≤ s.vma.vm_end → s.vma.vm_end < 2 ^ 64 →
      vma_length s.vma = s.vma.vm_end - s.vma.vm_start) := by
  refine ⟨?_, ?_, vma_length_eq s.vma⟩
  · intro h
    unfold nvgpu_nvs_buf_mmap
    by_cases hlen : vma_length s.vma > s.buf.mem_size
    · rw [if_pos hlen]
    · rw [if_neg hlen]
      have hoff : s.vma.vm_pgoff ≠ 0 := by
        rcases h with h | h
        · exact h
        · exact absurd h hlen
      rw [if_pos hoff]
  · intro h
    unfold nvgpu_nvs_buf_mmap at h
    by_cases hlen : vma_length s.vma > s.buf.mem_size
    · rw [if_pos hlen] at h
      have h22 : (-EINVAL : Int) ≠ 0 := by decide
      exact absurd h h22
    · rw [if_neg hlen] at h
      by_cases hoff : s.vma.vm_pgoff ≠ 0
      · rw [if_pos hoff] at h
        have h22 : (-EINVAL : Int) ≠ 0 := by decide
        exact absurd h h22
      · exact ⟨not_not.1 hoff, not_lt.1 hlen⟩

/-- C10, instance: a request with page offset 1 on a buffer of 4096 bytes. -/
theorem nvgpu_nvs_buf_mmap_invalid_request_witness :
    nvgpu_nvs_buf_mmap
        ⟨⟨0, false, 0, 0⟩, ⟨1, 4096, ⟨true, 0, []⟩⟩,
          ⟨2, 0x10000, 0x11000, 1, 0, vm_ops_ptr.null, none, false⟩⟩ true 0 (some 3)
      = (-EINVAL,
          ⟨⟨0, false, 0, 0⟩, ⟨1, 4096, ⟨true, 0, []⟩⟩,
            ⟨2, 0x10000, 0x11000, 1, 0, vm_ops_ptr.null, none, false⟩⟩) :=
  (nvgpu_nvs_buf_mmap_invalid_request
    ⟨⟨0, false, 0, 0⟩, ⟨1, 4096, ⟨true, 0, []⟩⟩,
      ⟨2, 0x10000, 0x11000, 1, 0, vm_ops_ptr.null, none, false⟩⟩ true 0 (some 3)).1
    (Or.inl (by decide))

/-! ## Auxiliary facts about mapping and closing -/

theorem nvgpu_nvs_buf_mmap_ok (s : mmap_state) (get_ok : Bool) (mmap_err : Int)
    (kzalloc : Option Nat) (h : (nvgpu_nvs_buf_mmap s get_ok mmap_err kzalloc).1 = 0) :
    vma_length s.vma ≤ s.buf.mem_size ∧ s.vma.vm_pgoff = 0 ∧ get_ok = true ∧ mmap_err = 0 ∧
    ∃ p, kzalloc = some p ∧
      (nvgpu_nvs_buf_mmap s get_ok mmap_err kzalloc).2.g
        = nvgpu_nvs_ctrl_fifo_unlock_queues
            (nvgpu_nvs_ctrl_fifo_lock_queues { s.g with dev_refs := s.g.dev_refs + 1 }) ∧
      (nvgpu_nvs_buf_mmap s get_ok mmap_err kzalloc).2.buf
        = { s.buf with priv :=
            { s.buf.priv with
              ref := (s.buf.priv.ref + 1) % 2 ^ 32,
              list_mapped_user_vmas := s.buf.priv.list_mapped_user_vmas ++
                [{ addr := p, vma := some s.vma.addr, buf := s.buf.addr }] } } ∧
      (nvgpu_nvs_buf_mmap s get_ok mmap_err kzalloc).2.vma.addr = s.vma.addr ∧
      (nvgpu_nvs_buf_mmap s get_ok mmap_err kzalloc).2.vma.vm_private_data = some p ∧
      (nvgpu_nvs_buf_mmap s get_ok mmap_err kzalloc).2.vma.vm_ops = vm_ops_ptr.nvs_vma_ops := by
  have h22 : (-EINVAL : Int) ≠ 0 := by decide
  unfold nvgpu_nvs_buf_mmap at h ⊢
  by_cases c1 : vma_length s.vma > s.buf.mem_size
  · rw [if_pos c1] at h; exact absurd h h22
  · by_cases c2 : s.vma.vm_pgoff ≠ 0
    · rw [if_neg c1, if_pos c2] at h; exact absurd h h22
    · cases get_ok with
      | false => simp [c1, c2] at h; exact absurd h (by decide)
      | true =>
        by_cases c3 : mmap_err ≠ 0
        · simp [c1, c2, c3] at h
        · cases kzalloc with
          | none => simp [c1, c2, c3] at h; exact absurd h (by decide)
          | some p =>
            refine ⟨not_lt.1 c1, not_not.1 c2, rfl, not_not.1 c3, p, rfl, ?_⟩
            simp only [if_neg c1, if_neg c2, if_neg c3]
            cases hro : s.buf.priv.read_only <;> simp

theorem nvgpu_nvs_buf_mmap_fail_buf (s : mmap_state) (get_ok : Bool) (mmap_err : Int)
    (kzalloc : Option Nat) (h : (nvgpu_nvs_buf_mmap s get_ok mmap_err kzalloc).1 ≠ 0) :
    (nvgpu_nvs_buf_mmap s get_ok mmap_err kzalloc).2.buf = s.buf := by
  unfold nvgpu_nvs_buf_mmap at h ⊢
  by_cases c1 : vma_length s.vma > s.buf.mem_size
  · rw [if_pos c1]
  · by_cases c2 : s.vma.vm_pgoff ≠ 0
    · rw [if_neg c1, if_pos c2]
    · cases get_ok with
      | false => simp [c1, c2]
      | true =>
        by_cases c3 : mmap_err ≠ 0
        · simp [c1, c2, c3]
        · cases kzalloc with
          | none => simp [c1, c2, c3]
          | some p => simp [c1, c2, c3] at h

theorem find_erase_record (f : vm_area_struct → nvgpu_nvs_domain_ctrl_fifo_user_vma)
    (vmas : List vm_area_struct) (i : Nat) (v : vm_area_struct) (h : vmas[i]? = some v)
    (hnd : ((vmas.map f).map fun r => r.addr).Nodup) :
    (vmas.map f).find? (fun r => r.addr == (f v).addr) = some (f v) ∧
    (vmas.map f).erase (f v) = (vmas.eraseIdx i).map f := by
  induction vmas generalizing i with
  | nil => simp at h
  | cons a as ih =>
    cases i with
    | zero =>
      simp only [List.getElem?_cons_zero, Option.some.injEq] at h
      subst h
      simp
    | succ j =>
      simp only [List.getElem?_cons_succ] at h
      simp only [List.map_cons, List.nodup_cons] at hnd
      obtain ⟨hna, hnd1⟩ := hnd
      have hv : v ∈ as := List.getElem?_mem h
      have hne : (f a).addr ≠ (f v).addr := by
        intro e
        apply hna
        rw [e]
        exact List.mem_map_of_mem _ (List.mem_map_of_mem _ hv)
      have hne2 : f a ≠ f v := fun e => hne (by rw [e])
      obtain ⟨i1, i2⟩ := ih j h hnd1
      constructor
      · simp only [List.map_cons]
        rw [List.find?_cons_of_neg _ (by simpa using hne)]
        exact i1
      · simp only [List.map_cons, List.eraseIdx_cons_succ]
        rw [List.erase_cons_tail (by simpa using hne2), i2]

theorem nvs_vma_close_of_record (s : mmap_state) (p : Nat)
    (r : nvgpu_nvs_domain_ctrl_fifo_user_vma) (hp : s.vma.vm_private_data = some p)
    (hr : s.buf.priv.list_mapped_user_vmas.find? (fun r => r.addr == p) = some r)
    (hb : r.buf = s.buf.addr) :
    nvs_vma_close s
      = some { g := { nvgpu_nvs_ctrl_fifo_unlock_queues (nvgpu_nvs_ctrl_fifo_lock_queues s.g)
                      with dev_refs := s.g.dev_refs - 1 },
               buf := { s.buf with priv :=
                 { s.buf.priv with
                   ref := u32_dec s.buf.priv.ref,
                   list_mapped_user_vmas := s.buf.priv.list_mapped_user_vmas.erase r } },
               vma := { s.vma with vm_private_data := none } } := by
  unfold nvs_vma_close
  rw [hp]
  dsimp only
  rw [hr]
  dsimp only
  rw [if_neg (not_not.2 hb)]
  rfl

theorem nvs_vma_close_some (s t : mmap_state) (h : nvs_vma_close s = some t) :
    ∃ p r, s.vma.vm_private_data = some p ∧
      s.buf.priv.list_mapped_user_vmas.find? (fun r => r.addr == p) = some r ∧
      r.buf = s.buf.addr := by
  unfold nvs_vma_close at h
  cases hp : s.vma.vm_private_data with
  | none => rw [hp] at h; exact absurd h (by simp)
  | some p =>
    rw [hp] at h
    dsimp only at h
    cases hr : s.buf.priv.list_mapped_user_vmas.find? (fun r => r.addr == p) with
    | none => rw [hr] at h; exact absurd h (by simp)
    | some r =>
      rw [hr] at h
      dsimp only at h
      by_cases hb : r.buf = s.buf.addr
      · exact ⟨p, r, rfl, hr, hb⟩
      · rw [if_pos hb] at h; exact absurd h (by simp)

theorem buf_run_cons (w : buf_world) (op : buf_op) (ops : List buf_op) :
    buf_run w (op :: ops) = buf_run (buf_step w op) ops := by
  simp [buf_run]

theorem buf_step_mmap (w : buf_world) (vma : vm_area_struct) (get_ok : Bool) (mmap_err : Int)
    (kzalloc : Option Nat) :
    buf_step w (.mmap vma get_ok mmap_err kzalloc)
      = if (nvgpu_nvs_buf_mmap ⟨w.g, w.buf, vma⟩ get_ok mmap_err kzalloc).1 = 0 then
          { g := (nvgpu_nvs_buf_mmap ⟨w.g, w.buf, vma⟩ get_ok mmap_err kzalloc).2.g,
            buf := (nvgpu_nvs_buf_mmap ⟨w.g, w.buf, vma⟩ get_ok mmap_err kzalloc).2.buf,
            open_vmas := w.open_vmas ++
              [(nvgpu_nvs_buf_mmap ⟨w.g, w.buf, vma⟩ get_ok mmap_err kzalloc).2.vma],
            maps := w.maps + 1, closes := w.closes }
        else
          { w with
            g := (nvgpu_nvs_buf_mmap ⟨w.g, w.buf, vma⟩ get_ok mmap_err kzalloc).2.g,
            buf := (nvgpu_nvs_buf_mmap ⟨w.g, w.buf, vma⟩ get_ok mmap_err kzalloc).2.buf } :=
  rfl

theorem buf_step_close_none (w : buf_world) (i : Nat) (h : w.open_vmas[i]? = none) :
    buf_step w (.close i) = w := by
  unfold buf_step
  dsimp only
  rw [h]

theorem buf_step_close_some (w : buf_world) (i : Nat) (vma : vm_area_struct)
    (h : w.open_vmas[i]? = some vma) :
    buf_step w (.close i)
      = match nvs_vma_close ⟨w.g, w.buf, vma⟩ with
        | none => w
        | some s =>
          { g := s.g, buf := s.buf, open_vmas := w.open_vmas.eraseIdx i,
            maps := w.maps, closes := w.closes + 1 } := by
  unfold buf_step
  dsimp only
  rw [h]

theorem buf_step_addr (w : buf_world) (op : buf_op) : (buf_step w op).buf.addr = w.buf.addr := by
  cases op with
  | mmap vma get_ok mmap_err kzalloc =>
    rw [buf_step_mmap]
    by_cases h : (nvgpu_nvs_buf_mmap ⟨w.g, w.buf, vma⟩ get_ok mmap_err kzalloc).1 = 0
    · obtain ⟨_, _, _, _, p, _, _, hb, _⟩ := nvgpu_nvs_buf_mmap_ok _ _ _ _ h
      rw [if_pos h]
      show (nvgpu_nvs_buf_mmap ⟨w.g, w.buf, vma⟩ get_ok mmap_err kzalloc).2.buf.addr = _
      rw [hb]
    · rw [if_neg h]
      show (nvgpu_nvs_buf_mmap ⟨w.g, w.buf, vma⟩ get_ok mmap_err kzalloc).2.buf.addr = _
      rw [nvgpu_nvs_buf_mmap_fail_buf _ _ _ _ h]
  | close i =>
    cases hi : w.open_vmas[i]? with
    | none => rw [buf_step_close_none w i hi]
    | some vma =>
      rw [buf_step_close_some w i vma hi]
      cases hc : nvs_vma_close ⟨w.g, w.buf, vma⟩ with
      | none => rfl
      | some t =>
        obtain ⟨p, r, hp, hr, hb⟩ := nvs_vma_close_some _ _ hc
        rw [nvs_vma_close_of_record _ p r hp hr hb] at hc
        have ht := Option.some.inj hc
        subst ht
        rfl

theorem buf_world_inv_step (w : buf_world) (op : buf_op) (h : buf_world_inv w)
    (hfresh : kzalloc_fresh w [op] = true) : buf_world_inv (buf_step w op) := by
  obtain ⟨hl, hp, hnd, hcnt, href⟩ := h
  cases op with
  | mmap vma get_ok mmap_err kzalloc =>
    by_cases h0 : (nvgpu_nvs_buf_mmap ⟨w.g, w.buf, vma⟩ get_ok mmap_err kzalloc).1 = 0
    · obtain ⟨_, _, _, _, p, hk, _, hb, ha, hpd, _⟩ := nvgpu_nvs_buf_mmap_ok _ _ _ _ h0
      subst hk
      have hf : p ∉ w.buf.priv.list_mapped_user_vmas.map (fun r => r.addr) := by
        simpa [kzalloc_fresh] using hfresh
      simp only [buf_step, if_pos h0, hb]
      refine ⟨?_, ?_, ?_, ?_, ?_⟩
      · simp only [List.map_append, List.map_cons, List.map_nil, hl, record_of, hpd, ha,
          Option.getD_some]
      · intro v hv
        rcases List.mem_append.1 hv with hv | hv
        · exact hp v hv
        · rw [List.mem_singleton.1 hv, hpd]; simp
      · simp only [List.map_append, List.map_cons, List.map_nil]
        rw [List.nodup_append]
        refine ⟨hnd, List.nodup_singleton _, ?_⟩
        intro a ha1 ha2
        rw [List.mem_singleton.1 ha2] at ha1
        exact hf ha1
      · simp only [List.length_append, List.length_singleton]; omega
      · simp only; rw [href]; omega
    · simp only [buf_step, if_neg h0, nvgpu_nvs_buf_mmap_fail_buf _ _ _ _ h0]
      exact ⟨hl, hp, hnd, hcnt, href⟩
  | close i =>
    cases hi : w.open_vmas[i]? with
    | none =>
      simp only [buf_step, hi]
      exact ⟨hl, hp, hnd, hcnt, href⟩
    | some vma =>
      have hmem : vma ∈ w.open_vmas := List.getElem?_mem hi
      have hlt : i < w.open_vmas.length := (List.getElem?_eq_some.1 hi).1
      obtain ⟨p, hpv⟩ := Option.ne_none_iff_exists'.1 (hp vma hmem)
      have hnd1 := hnd
      rw [hl] at hnd1
      obtain ⟨hfind, herase⟩ := find_erase_record (record_of w.buf.addr) w.open_vmas i vma hi hnd1
      have hra : (record_of w.buf.addr vma).addr = p := by simp [record_of, hpv]
      rw [hra, ← hl] at hfind
      rw [← hl] at herase
      have hclose := nvs_vma_close_of_record ⟨w.g, w.buf, vma⟩ p (record_of w.buf.addr vma)
        hpv hfind rfl
      rw [buf_step_close_some w i vma hi, hclose]
      refine ⟨?_, ?_, ?_, ?_, ?_⟩
      · exact herase
      · intro v hv
        exact hp v (List.mem_of_mem_eraseIdx hv)
      · show (List.map (fun r => r.addr)
            (w.buf.priv.list_mapped_user_vmas.erase (record_of w.buf.addr vma))).Nodup
        exact hnd.sublist ((List.erase_sublist _ _).map _)
      · show w.closes + 1 + (w.open_vmas.eraseIdx i).length = w.maps
        rw [List.length_eraseIdx_of_lt hlt]; omega
      · show u32_dec w.buf.priv.ref = (w.maps - (w.closes + 1)) % 2 ^ 32
        rw [href]
        unfold u32_dec
        split_ifs <;> omega

theorem kzalloc_fresh_cons (w : buf_world) (op : buf_op) (ops : List buf_op)
    (h : kzalloc_fresh w (op :: ops) = true) :
    kzalloc_fresh w [op] = true ∧ kzalloc_fresh (buf_step w op) ops = true := by
  simp only [kzalloc_fresh, Bool.and_eq_true, Bool.and_true] at h ⊢
  exact h

theorem buf_world_inv_run (w : buf_world) (ops : List buf_op) (h : buf_world_inv w)
    (hfresh : kzalloc_fresh w ops = true) : buf_world_inv (buf_run w ops) := by
  induction ops generalizing w with
  | nil => exact h
  | cons op ops ih =>
    rw [buf_run_cons]
    obtain ⟨h1, h2⟩ := kzalloc_fresh_cons w op ops hfresh
    exact ih _ (buf_world_inv_step w op h h1) h2

theorem nvgpu_nvs_get_buf_linux_success (s : get_buf_state) (bytes mask : Nat)
    (read_only : Bool) :
    nvgpu_nvs_get_buf_linux s bytes mask read_only true true 0 none
      = (0, { g := { s.g with dev_refs := s.g.dev_refs + 1 },
              buf := { s.buf with
                mem_valid := true, mem_size := bytes, mask := mask,
                priv := some { read_only := read_only, ref := 0, list_mapped_user_vmas := [] },
                priv_dmabuf := some { priv := s.buf.addr, ops_is_gk20a_nvs_ops := true,
                                      size := bytes,
                                      file_flags := (if read_only then O_RDONLY else O_RDWR)
                                        ||| O_CLOEXEC,
                                      exp_name := exporter_name },
                free := some free_callback.nvgpu_nvs_destroy_buf_linux_locked },
              kmem_live := s.kmem_live + 1 }) := by
  simp [nvgpu_nvs_get_buf_linux, nvgpu_nvs_buffer_alloc, nvgpu_nvs_buf_export_dmabuf,
    dma_buf_export, nvgpu_nvs_buf_export_info]

/-! ## The claims about the buffer mappings -/

/-- C11: for a buffer freshly produced by `nvgpu_nvs_get_buf_linux`, after any
run of mapping requests and closes of open mappings (the allocator handing out
only unused blocks) with `m` successful mappings and `c` closes: `c ≤ m`, the
mapping list holds exactly the records of the `m - c` still-open mappings, in
the order they were made, `ref` is `m - c` as a `u32`, hence `m - c` while
fewer than `2 ^ 32` mappings are open, and then
`nvgpu_nvs_buf_linux_is_mapped` reports true exactly while `c < m`. -/
theorem nvgpu_nvs_buf_ref_counts_open_mappings (s0 : get_buf_state) (bytes mask : Nat)
    (read_only : Bool) (buf0 : nvgpu_nvs_ctrl_queue)
    (hbuf : ctrl_queue_view
      (nvgpu_nvs_get_buf_linux s0 bytes mask read_only true true 0 none).2.buf = some buf0)
    (g : gk20a) (ops : List buf_op) (hfresh : kzalloc_fresh ⟨g, buf0, [], 0, 0⟩ ops = true) :
    (buf_run ⟨g, buf0, [], 0, 0⟩ ops).closes ≤ (buf_run ⟨g, buf0, [], 0, 0⟩ ops).maps ∧
    (buf_run ⟨g, buf0, [], 0, 0⟩ ops).buf.priv.list_mapped_user_vmas
      = (buf_run ⟨g, buf0, [], 0, 0⟩ ops).open_vmas.map (record_of buf0.addr) ∧
    (buf_run ⟨g, buf0, [], 0, 0⟩ ops).buf.priv.list_mapped_user_vmas.length
      = (buf_run ⟨g, buf0, [], 0, 0⟩ ops).maps - (buf_run ⟨g, buf0, [], 0, 0⟩ ops).closes ∧
    (buf_run ⟨g, buf0, [], 0, 0⟩ ops).buf.priv.ref
      = ((buf_run ⟨g, buf0, [], 0, 0⟩ ops).maps
          - (buf_run ⟨g, buf0, [], 0, 0⟩ ops).closes) % 2 ^ 32 ∧
    ((buf_run ⟨g, buf0, [], 0, 0⟩ ops).maps - (buf_run ⟨g, buf0, [], 0, 0⟩ ops).closes < 2 ^ 32 →
      (buf_run ⟨g, buf0, [], 0, 0⟩ ops).buf.priv.ref
        = (buf_run ⟨g, buf0, [], 0, 0⟩ ops).maps - (buf_run ⟨g, buf0, [], 0, 0⟩ ops).closes ∧
      (nvgpu_nvs_buf_linux_is_mapped (buf_run ⟨g, buf0, [], 0, 0⟩ ops).buf = true
        ↔ (buf_run ⟨g, buf0, [], 0, 0⟩ ops).closes < (buf_run ⟨g, buf0, [], 0, 0⟩ ops).maps)) := by
  rw [nvgpu_nvs_get_buf_linux_success] at hbuf
  simp only [ctrl_queue_view, Option.map_some', Option.some.injEq] at hbuf
  have h0 : buf_world_inv ⟨g, buf0, [], 0, 0⟩ := by
    subst hbuf
    refine ⟨rfl, ?_, ?_, rfl, rfl⟩
    · intro v hv; simp at hv
    · simp
  have haddr : ∀ (ops : List buf_op) (w : buf_world), (buf_run w ops).buf.addr = w.buf.addr := by
    intro ops
    induction ops with
    | nil => intro w; rfl
    | cons op ops ih =>
      intro w
      rw [buf_run_cons, ih, buf_step_addr]
  obtain ⟨hl, _, _, hcnt, href⟩ := buf_world_inv_run _ ops h0 hfresh
  have ha := haddr ops ⟨g, buf0, [], 0, 0⟩
  simp only at ha
  rw [ha] at hl
  refine ⟨by omega, hl, ?_, href, ?_⟩
  · rw [hl, List.length_map]; omega
  · intro hb
    have hr : (buf_run ⟨g, buf0, [], 0, 0⟩ ops).buf.priv.ref
        = (buf_run ⟨g, buf0, [], 0, 0⟩ ops).maps - (buf_run ⟨g, buf0, [], 0, 0⟩ ops).closes := by
      rw [href, Nat.mod_eq_of_lt hb]
    refine ⟨hr, ?_⟩
    unfold nvgpu_nvs_buf_linux_is_mapped
    simp only [bne_iff_ne, ne_eq, hr]
    omega

/-- C11, instance: a read-only buffer, three mappings made and the first one
closed. -/
theorem nvgpu_nvs_buf_ref_counts_open_mappings_witness :
    (buf_run ⟨⟨1, false, 0, 0⟩, ⟨7, 4096, ⟨true, 0, []⟩⟩, [], 0, 0⟩
        [.mmap ⟨100, 0x10000, 0x11000, 0, 0, vm_ops_ptr.null, none, false⟩ true 0 (some 1000),
         .mmap ⟨101, 0x20000, 0x21000, 0, 0, vm_ops_ptr.null, none, false⟩ true 0 (some 1001),
         .close 0,
         .mmap ⟨102, 0x30000, 0x31000, 0, 0, vm_ops_ptr.null, none, false⟩ true 0
           (some 1002)]).buf.priv.list_mapped_user_vmas.length
      = (buf_run ⟨⟨1, false, 0, 0⟩, ⟨7, 4096, ⟨true, 0, []⟩⟩, [], 0, 0⟩
        [.mmap ⟨100, 0x10000, 0x11000, 0, 0, vm_ops_ptr.null, none, false⟩ true 0 (some 1000),
         .mmap ⟨101, 0x20000, 0x21000, 0, 0, vm_ops_ptr.null, none, false⟩ true 0 (some 1001),
         .close 0,
         .mmap ⟨102, 0x30000, 0x31000, 0, 0, vm_ops_ptr.null, none, false⟩ true 0
           (some 1002)]).maps
        - (buf_run ⟨⟨1, false, 0, 0⟩, ⟨7, 4096, ⟨true, 0, []⟩⟩, [], 0, 0⟩
        [.mmap ⟨100, 0x10000, 0x11000, 0, 0, vm_ops_ptr.null, none, false⟩ true 0 (some 1000),
         .mmap ⟨101, 0x20000, 0x21000, 0, 0, vm_ops_ptr.null, none, false⟩ true 0 (some 1001),
         .close 0,
         .mmap ⟨102, 0x30000, 0x31000, 0, 0, vm_ops_ptr.null, none, false⟩ true 0
           (some 1002)]).closes :=
  (nvgpu_nvs_buf_ref_counts_open_mappings ⟨⟨0, false, 0, 0⟩, ⟨7, false, 0, 0, none, none, none⟩, 0⟩
    4096 1 true ⟨7, 4096, ⟨true, 0, []⟩⟩ (by decide) ⟨1, false, 0, 0⟩
    [.mmap ⟨100, 0x10000, 0x11000, 0, 0, vm_ops_ptr.null, none, false⟩ true 0 (some 1000),
     .mmap ⟨101, 0x20000, 0x21000, 0, 0, vm_ops_ptr.null, none, false⟩ true 0 (some 1001),
     .close 0,
     .mmap ⟨102, 0x30000, 0x31000, 0, 0, vm_ops_ptr.null, none, false⟩ true 0 (some 1002)]
    (by decide)).2.2.1

theorem release_fold_list (entries : List nvgpu_nvs_domain_ctrl_fifo_user_vma)
    (acc : nvgpu_nvs_linux_buf_priv × List vm_area_struct) :
    (entries.foldl
      (fun (acc : nvgpu_nvs_linux_buf_priv × List vm_area_struct) current_entry =>
        ({ acc.1 with ref := u32_dec acc.1.ref },
          acc.2.map fun vma =>
            if current_entry.vma = some vma.addr then zap_vma_entries vma else vma))
      acc).1.list_mapped_user_vmas = acc.1.list_mapped_user_vmas := by
  induction entries generalizing acc with
  | nil => rfl
  | cons e es ih => rw [List.foldl_cons, ih]

theorem nvs_release_user_mappings_locked_list (linux_buf : nvgpu_nvs_linux_buf_priv)
    (vmas : List vm_area_struct) :
    (nvs_release_user_mappings_locked linux_buf vmas).2.1.list_mapped_user_vmas
      = linux_buf.list_mapped_user_vmas := by
  unfold nvs_release_user_mappings_locked
  exact release_fold_list linux_buf.list_mapped_user_vmas (linux_buf, vmas)

theorem export_flags_access_mode :
    (O_RDONLY ||| O_CLOEXEC) &&& O_ACCMODE = O_RDONLY ∧
    (O_RDWR ||| O_CLOEXEC) &&& O_ACCMODE = O_RDWR ∧
    (O_RDONLY ||| O_CLOEXEC) &&& O_ACCMODE ≠ O_WRONLY ∧
    (O_RDONLY ||| O_CLOEXEC) &&& O_ACCMODE ≠ O_RDWR := by
  decide

/-- C12 (failing input): a read-only buffer with one open mapping, reached from
a fresh buffer by one successful `nvgpu_nvs_buf_mmap`, has `ref = 1` and one
record in its mapping list, so `ref` is nonzero exactly when the list is
non-empty; `nvs_release_user_mappings_locked` then leaves `ref = 0` with the
record still in the list, so the property no longer holds. In general the
function never changes the mapping list. -/
theorem nvs_release_user_mappings_locked_keeps_records :
    ref_list_consistent
      (buf_run ⟨⟨0, false, 0, 0⟩, ⟨7, 4096, ⟨true, 0, []⟩⟩, [], 0, 0⟩
        [.mmap ⟨100, 0x10000, 0x11000, 0, 0, vm_ops_ptr.null, none, false⟩ true 0
          (some 1000)]).buf.priv ∧
    (buf_run ⟨⟨0, false, 0, 0⟩, ⟨7, 4096, ⟨true, 0, []⟩⟩, [], 0, 0⟩
        [.mmap ⟨100, 0x10000, 0x11000, 0, 0, vm_ops_ptr.null, none, false⟩ true 0
          (some 1000)]).buf.priv = ⟨true, 1, [⟨1000, some 100, 7⟩]⟩ ∧
    (nvs_release_user_mappings_locked ⟨true, 1, [⟨1000, some 100, 7⟩]⟩
        [⟨100, 0x10000, 0x11000, 0, 0x4260008, vm_ops_ptr.nvs_vma_ops, some 1000, true⟩]).2.1
      = ⟨true, 0, [⟨1000, some 100, 7⟩]⟩ ∧
    ¬ ref_list_consistent
      (nvs_release_user_mappings_locked ⟨true, 1, [⟨1000, some 100, 7⟩]⟩
        [⟨100, 0x10000, 0x11000, 0, 0x4260008, vm_ops_ptr.nvs_vma_ops, some 1000, true⟩]).2.1 ∧
    (∀ (linux_buf : nvgpu_nvs_linux_buf_priv) (vmas : List vm_area_struct),
      (nvs_release_user_mappings_locked linux_buf vmas).2.1.list_mapped_user_vmas
        = linux_buf.list_mapped_user_vmas) := by
  refine ⟨by decide, by decide, by decide, by decide, ?_⟩
  exact nvs_release_user_mappings_locked_list

/-- C13: `nvs_vma_close` on an open mapping (the vma's private data points to a
record `r` linked in the buffer's list, the buffer's `ref` is at least 1)
returns; it decrements `ref` by exactly one, unlinks exactly the record `r`,
leaving the records before and after it as they are and in their order, clears
`vm_private_data` and changes nothing else of the vma, drops one device
reference, and leaves the rest of the buffer unchanged. -/
theorem nvs_vma_close_open_mapping (s : mmap_state) (p : Nat)
    (r : nvgpu_nvs_domain_ctrl_fifo_user_vma) (hp : s.vma.vm_private_data = some p)
    (hr : s.buf.priv.list_mapped_user_vmas.find? (fun r => r.addr == p) = some r)
    (hb : r.buf = s.buf.addr) (href : 1 ≤ s.buf.priv.ref) (href32 : s.buf.priv.ref < 2 ^ 32) :
    ∃ t, nvs_vma_close s = some t ∧
      t.buf.priv.ref + 1 = s.buf.priv.ref ∧
      r.addr = p ∧
      (∃ l1 l2, s.buf.priv.list_mapped_user_vmas = l1 ++ r :: l2 ∧
        (∀ a ∈ l1, a.addr ≠ p) ∧
        t.buf.priv.list_mapped_user_vmas = l1 ++ l2) ∧
      t.vma = { s.vma with vm_private_data := none } ∧
      t.g.dev_refs = s.g.dev_refs - 1 ∧
      t.buf.addr = s.buf.addr ∧ t.buf.mem_size = s.buf.mem_size ∧
      t.buf.priv.read_only = s.buf.priv.read_only := by
  refine ⟨_, nvs_vma_close_of_record s p r hp hr hb, ?_, ?_, ?_, rfl, rfl, rfl, rfl, rfl⟩
  · show u32_dec s.buf.priv.ref + 1 = s.buf.priv.ref
    unfold u32_dec
    split_ifs <;> omega
  · have := (List.find?_eq_some.1 hr).1
    simpa using this
  · obtain ⟨hpr, l1, l2, hl, hl1⟩ := List.find?_eq_some.1 hr
    have hpr1 : r.addr = p := by simpa using hpr
    have hne : ∀ a ∈ l1, a.addr ≠ p := by
      intro a ha
      simpa using hl1 a ha
    refine ⟨l1, l2, hl, hne, ?_⟩
    show s.buf.priv.list_mapped_user_vmas.erase r = l1 ++ l2
    have hnot : r ∉ l1 := fun hmem => hne r hmem hpr1
    rw [hl, List.erase_append_right _ hnot, List.erase_cons_head]

/-- C13, instance: the second of three open mappings is closed. -/
theorem nvs_vma_close_open_mapping_witness :
    ∃ t, nvs_vma_close
        ⟨⟨3, false, 3, 3⟩,
          ⟨7, 4096, ⟨true, 3, [⟨1000, some 100, 7⟩, ⟨1001, some 101, 7⟩, ⟨1002, some 102, 7⟩]⟩⟩,
          ⟨101, 0x20000, 0x21000, 0, 0x4260008, vm_ops_ptr.nvs_vma_ops, some 1001, true⟩⟩
        = some t ∧
      t.buf.priv.ref + 1 = 3 :=
  let ⟨t, h1, h2, _⟩ := nvs_vma_close_open_mapping
    ⟨⟨3, false, 3, 3⟩,
      ⟨7, 4096, ⟨true, 3, [⟨1000, some 100, 7⟩, ⟨1001, some 101, 7⟩, ⟨1002, some 102, 7⟩]⟩⟩,
      ⟨101, 0x20000, 0x21000, 0, 0x4260008, vm_ops_ptr.nvs_vma_ops, some 1001, true⟩⟩
    1001 ⟨1001, some 101, 7⟩ rfl (by decide) rfl (by decide) (by decide)
  ⟨t, h1, h2⟩

/-- C14: the export information `nvgpu_nvs_buf_export_dmabuf` hands to
`dma_buf_export`, and so every handle it returns, has the flags
`O_RDONLY | O_CLOEXEC` for `read_only` and `O_RDWR | O_CLOEXEC` otherwise, and
the buffer's `mem.size` as its size; for `read_only` the access mode of the
flags is `O_RDONLY`, which grants no write access. -/
theorem nvgpu_nvs_buf_export_dmabuf_flags (buf_addr mem_size : Nat) (read_only : Bool)
    (export_err : Option Int) :
    (nvgpu_nvs_buf_export_info buf_addr mem_size read_only).flags
      = (if read_only then O_RDONLY ||| O_CLOEXEC else O_RDWR ||| O_CLOEXEC) ∧
    (nvgpu_nvs_buf_export_info buf_addr mem_size read_only).size = mem_size ∧
    (nvgpu_nvs_buf_export_info buf_addr mem_size true).flags &&& O_ACCMODE = O_RDONLY ∧
    (nvgpu_nvs_buf_export_info buf_addr mem_size false).flags &&& O_ACCMODE = O_RDWR ∧
    (∀ d, nvgpu_nvs_buf_export_dmabuf buf_addr mem_size read_only export_err = Except.ok d →
      d.file_flags = (if read_only then O_RDONLY ||| O_CLOEXEC else O_RDWR ||| O_CLOEXEC) ∧
      d.size = mem_size ∧ d.priv = buf_addr ∧
      (read_only = true → d.file_flags &&& O_ACCMODE = O_RDONLY ∧
        d.file_flags &&& O_ACCMODE ≠ O_WRONLY ∧ d.file_flags &&& O_ACCMODE ≠ O_RDWR)) := by
  refine ⟨?_, rfl, export_flags_access_mode.1, export_flags_access_mode.2.1, ?_⟩
  · cases read_only <;> rfl
  · intro d hd
    unfold nvgpu_nvs_buf_export_dmabuf dma_buf_export at hd
    cases export_err with
    | some e => simp at hd
    | none =>
      simp only [Except.ok.injEq] at hd
      subst hd
      refine ⟨?_, rfl, rfl, ?_⟩
      · cases read_only <;> rfl
      · intro hro
        subst hro
        exact ⟨export_flags_access_mode.1, export_flags_access_mode.2.2.1,
          export_flags_access_mode.2.2.2⟩

/-! ## The paths of `nvgpu_nvs_buf_mmap` -/

theorem nvgpu_nvs_buf_mmap_enodev (s : mmap_state) (mmap_err : Int) (kzalloc : Option Nat)
    (h1 : vma_length s.vma ≤ s.buf.mem_size) (h2 : s.vma.vm_pgoff = 0) :
    nvgpu_nvs_buf_mmap s false mmap_err kzalloc = (-ENODEV, s) := by
  unfold nvgpu_nvs_buf_mmap
  rw [if_neg (not_lt.2 h1), if_neg (not_not.2 h2)]
  rfl

theorem nvgpu_nvs_buf_mmap_fail_sys (s : mmap_state) (mmap_err : Int) (kzalloc : Option Nat)
    (h1 : vma_length s.vma ≤ s.buf.mem_size) (h2 : s.vma.vm_pgoff = 0) (he : mmap_err ≠ 0) :
    (nvgpu_nvs_buf_mmap s true mmap_err kzalloc).1 = mmap_err ∧
    (nvgpu_nvs_buf_mmap s true mmap_err kzalloc).2.g
      = nvgpu_nvs_ctrl_fifo_unlock_queues
          (nvgpu_nvs_ctrl_fifo_lock_queues { s.g with dev_refs := s.g.dev_refs + 1 }) ∧
    (nvgpu_nvs_buf_mmap s true mmap_err kzalloc).2.buf = s.buf ∧
    (nvgpu_nvs_buf_mmap s true mmap_err kzalloc).2.vma.vm_ops = s.vma.vm_ops ∧
    (nvgpu_nvs_buf_mmap s true mmap_err kzalloc).2.vma.vm_private_data
      = s.vma.vm_private_data := by
  unfold nvgpu_nvs_buf_mmap
  rw [if_neg (not_lt.2 h1), if_neg (not_not.2 h2)]
  cases hro : s.buf.priv.read_only <;> simp [he]

theorem nvgpu_nvs_buf_mmap_fail_kzalloc (s : mmap_state)
    (h1 : vma_length s.vma ≤ s.buf.mem_size) (h2 : s.vma.vm_pgoff = 0) :
    (nvgpu_nvs_buf_mmap s true 0 none).1 = -ENOMEM ∧
    (nvgpu_nvs_buf_mmap s true 0 none).2.g
      = nvgpu_nvs_ctrl_fifo_unlock_queues
          (nvgpu_nvs_ctrl_fifo_lock_queues { s.g with dev_refs := s.g.dev_refs + 1 }) ∧
    (nvgpu_nvs_buf_mmap s true 0 none).2.buf = s.buf ∧
    (nvgpu_nvs_buf_mmap s true 0 none).2.vma.vm_ops = s.vma.vm_ops ∧
    (nvgpu_nvs_buf_mmap s true 0 none).2.vma.vm_private_data = s.vma.vm_private_data ∧
    (nvgpu_nvs_buf_mmap s true 0 none).2.vma.ptes_mapped = false := by
  unfold nvgpu_nvs_buf_mmap
  rw [if_neg (not_lt.2 h1), if_neg (not_not.2 h2)]
  cases hro : s.buf.priv.read_only <;> simp [zap_vma_entries]

theorem nvgpu_nvs_buf_mmap_success (s : mmap_state) (p : Nat)
    (h1 : vma_length s.vma ≤ s.buf.mem_size) (h2 : s.vma.vm_pgoff = 0) :
    (nvgpu_nvs_buf_mmap s true 0 (some p)).1 = 0 ∧
    (nvgpu_nvs_buf_mmap s true 0 (some p)).2.vma.vm_flags
      = (if s.buf.priv.read_only = true then
          (s.vma.vm_flags ||| (VM_DONTCOPY ||| VM_DONTEXPAND ||| VM_NORESERVE ||| VM_DONTDUMP))
            ||| VM_SHARED
        else
          s.vma.vm_flags ||| (VM_DONTCOPY ||| VM_DONTEXPAND ||| VM_NORESERVE ||| VM_DONTDUMP)) := by
  unfold nvgpu_nvs_buf_mmap
  rw [if_neg (not_lt.2 h1), if_neg (not_not.2 h2)]
  cases hro : s.buf.priv.read_only <;> simp

theorem nvgpu_nvs_buf_mmap_cases (s : mmap_state) (get_ok : Bool) (mmap_err : Int)
    (kzalloc : Option Nat) :
    (vma_length s.vma > s.buf.mem_size ∨ s.vma.vm_pgoff ≠ 0) ∨
    (vma_length s.vma ≤ s.buf.mem_size ∧ s.vma.vm_pgoff = 0 ∧ get_ok = false) ∨
    (vma_length s.vma ≤ s.buf.mem_size ∧ s.vma.vm_pgoff = 0 ∧ get_ok = true ∧ mmap_err ≠ 0) ∨
    (vma_length s.vma ≤ s.buf.mem_size ∧ s.vma.vm_pgoff = 0 ∧ get_ok = true ∧ mmap_err = 0 ∧
      kzalloc = none) ∨
    (vma_length s.vma ≤ s.buf.mem_size ∧ s.vma.vm_pgoff = 0 ∧ get_ok = true ∧ mmap_err = 0 ∧
      ∃ p, kzalloc = some p) := by
  by_cases c1 : vma_length s.vma > s.buf.mem_size
  · exact Or.inl (Or.inl c1)
  · by_cases c2 : s.vma.vm_pgoff ≠ 0
    · exact Or.inl (Or.inr c2)
    · have h1 := not_lt.1 c1
      have h2 := not_not.1 c2
      cases get_ok with
      | false => exact Or.inr (Or.inl ⟨h1, h2, rfl⟩)
      | true =>
        by_cases c3 : mmap_err ≠ 0
        · exact Or.inr (Or.inr (Or.inl ⟨h1, h2, rfl, c3⟩))
        · cases kzalloc with
          | none => exact Or.inr (Or.inr (Or.inr (Or.inl ⟨h1, h2, rfl, not_not.1 c3, rfl⟩)))
          | some p =>
            exact Or.inr (Or.inr (Or.inr (Or.inr ⟨h1, h2, rfl, not_not.1 c3, p, rfl⟩)))

theorem nvgpu_nvs_buf_mmap_einval (s : mmap_state) (get_ok : Bool) (mmap_err : Int)
    (kzalloc : Option Nat) (h : vma_length s.vma > s.buf.mem_size ∨ s.vma.vm_pgoff ≠ 0) :
    nvgpu_nvs_buf_mmap s get_ok mmap_err kzalloc = (-EINVAL, s) := by
  unfold nvgpu_nvs_buf_mmap
  by_cases c1 : vma_length s.vma > s.buf.mem_size
  · rw [if_pos c1]
  · rw [if_neg c1]
    have c2 : s.vma.vm_pgoff ≠ 0 := h.resolve_left c1
    rw [if_pos c2]

theorem nvgpu_nvs_buf_mmap_g (s : mmap_state) (get_ok : Bool) (mmap_err : Int)
    (kzalloc : Option Nat) :
    (nvgpu_nvs_buf_mmap s get_ok mmap_err kzalloc).2.g = s.g ∨
    (nvgpu_nvs_buf_mmap s get_ok mmap_err kzalloc).2.g
      = nvgpu_nvs_ctrl_fifo_unlock_queues
          (nvgpu_nvs_ctrl_fifo_lock_queues { s.g with dev_refs := s.g.dev_refs + 1 }) := by
  rcases nvgpu_nvs_buf_mmap_cases s get_ok mmap_err kzalloc with
    h | ⟨h1, h2, hg⟩ | ⟨h1, h2, hg, he⟩ | ⟨h1, h2, hg, he, hk⟩ | ⟨h1, h2, hg, he, p, hk⟩
  · rw [nvgpu_nvs_buf_mmap_einval s _ _ _ h]; exact Or.inl rfl
  · subst hg; rw [nvgpu_nvs_buf_mmap_enodev s _ _ h1 h2]; exact Or.inl rfl
  · subst hg; exact Or.inr (nvgpu_nvs_buf_mmap_fail_sys s _ _ h1 h2 he).2.1
  · subst hg; subst he; subst hk; exact Or.inr (nvgpu_nvs_buf_mmap_fail_kzalloc s h1 h2).2.1
  · subst hg; subst he; subst hk
    obtain ⟨_, _, _, _, q, _, hgq, _⟩ :=
      nvgpu_nvs_buf_mmap_ok s true 0 (some p) (nvgpu_nvs_buf_mmap_success s p h1 h2).1
    exact Or.inr hgq

/-- C15: `nvgpu_nvs_buf_mmap` either leaves the device as it is (no lock taken,
none released) or takes the queue lock once and releases it once, in this
order, on success and on every error path; `nvs_vma_close`, when it returns,
has taken the lock once and released it once, in this order. So the numbers of
lock and unlock calls grow by the same amount, at most one, and a lock that
was free before either call is free after it. -/
theorem queue_lock_released_on_every_path (s : mmap_state) (get_ok : Bool) (mmap_err : Int)
    (kzalloc : Option Nat) (s2 t : mmap_state) (hfree : s.g.queue_lock_held = false)
    (hclose : nvs_vma_close s2 = some t) :
    ((nvgpu_nvs_buf_mmap s get_ok mmap_err kzalloc).2.g = s.g ∨
      (nvgpu_nvs_buf_mmap s get_ok mmap_err kzalloc).2.g
        = nvgpu_nvs_ctrl_fifo_unlock_queues
            (nvgpu_nvs_ctrl_fifo_lock_queues { s.g with dev_refs := s.g.dev_refs + 1 })) ∧
    (nvgpu_nvs_buf_mmap s get_ok mmap_err kzalloc).2.g.lock_calls + s.g.unlock_calls
      = (nvgpu_nvs_buf_mmap s get_ok mmap_err kzalloc).2.g.unlock_calls + s.g.lock_calls ∧
    s.g.lock_calls ≤ (nvgpu_nvs_buf_mmap s get_ok mmap_err kzalloc).2.g.lock_calls ∧
    (nvgpu_nvs_buf_mmap s get_ok mmap_err kzalloc).2.g.lock_calls ≤ s.g.lock_calls + 1 ∧
    (nvgpu_nvs_buf_mmap s get_ok mmap_err kzalloc).2.g.queue_lock_held
      = s.g.queue_lock_held ∧
    t.g = { nvgpu_nvs_ctrl_fifo_unlock_queues (nvgpu_nvs_ctrl_fifo_lock_queues s2.g)
            with dev_refs := s2.g.dev_refs - 1 } ∧
    t.g.lock_calls = s2.g.lock_calls + 1 ∧
    t.g.unlock_calls = s2.g.unlock_calls + 1 ∧
    t.g.queue_lock_held = false := by
  have hg := nvgpu_nvs_buf_mmap_g s get_ok mmap_err kzalloc
  obtain ⟨p, r, hp, hr, hb⟩ := nvs_vma_close_some _ _ hclose
  rw [nvs_vma_close_of_record _ p r hp hr hb] at hclose
  have ht := (Option.some.inj hclose).symm
  have e1 : (nvgpu_nvs_ctrl_fifo_unlock_queues
      (nvgpu_nvs_ctrl_fifo_lock_queues { s.g with dev_refs := s.g.dev_refs + 1 })).lock_calls
      = s.g.lock_calls + 1 := rfl
  have e2 : (nvgpu_nvs_ctrl_fifo_unlock_queues
      (nvgpu_nvs_ctrl_fifo_lock_queues { s.g with dev_refs := s.g.dev_refs + 1 })).unlock_calls
      = s.g.unlock_calls + 1 := rfl
  have e3 : (nvgpu_nvs_ctrl_fifo_unlock_queues
      (nvgpu_nvs_ctrl_fifo_lock_queues
        { s.g with dev_refs := s.g.dev_refs + 1 })).queue_lock_held = false := rfl
  refine ⟨hg, ?_, ?_, ?_, ?_, ?_, ?_, ?_, ?_⟩
  · rcases hg with h | h
    · rw [h]; omega
    · rw [h, e1, e2]; omega
  · rcases hg with h | h
    · rw [h]
    · rw [h, e1]; omega
  · rcases hg with h | h
    · rw [h]; omega
    · rw [h, e1]
  · rcases hg with h | h
    · rw [h]
    · rw [h, e3, hfree]
  · rw [ht]
  · rw [ht]; rfl
  · rw [ht]; rfl
  · rw [ht]; rfl

/-- C15, instance: a mapping request whose page mapping fails, and the close of
an open mapping. -/
theorem queue_lock_released_on_every_path_witness :
    (nvgpu_nvs_buf_mmap
        ⟨⟨0, false, 0, 0⟩, ⟨7, 4096, ⟨true, 0, []⟩⟩,
          ⟨100, 0x10000, 0x11000, 0, 0, vm_ops_ptr.null, none, false⟩⟩ true (-12) none).2.g.queue_lock_held
      = false :=
  (queue_lock_released_on_every_path
    ⟨⟨0, false, 0, 0⟩, ⟨7, 4096, ⟨true, 0, []⟩⟩,
      ⟨100, 0x10000, 0x11000, 0, 0, vm_ops_ptr.null, none, false⟩⟩ true (-12) none
    ⟨⟨1, false, 1, 1⟩, ⟨7, 4096, ⟨true, 1, [⟨1000, some 100, 7⟩]⟩⟩,
      ⟨100, 0x10000, 0x11000, 0, 0x4260008, vm_ops_ptr.nvs_vma_ops, some 1000, true⟩⟩
    ⟨⟨0, false, 2, 2⟩, ⟨7, 4096, ⟨true, 0, []⟩⟩,
      ⟨100, 0x10000, 0x11000, 0, 0x4260008, vm_ops_ptr.nvs_vma_ops, none, true⟩⟩
    rfl (by decide)).2.2.2.2.1

/-- C16: when `nvgpu_get` fails, `nvgpu_nvs_buf_mmap` called with page offset 0
and a length within the buffer returns `-ENODEV` with the device (lock
included), the buffer with its mapping list, and the vma exactly as before,
whatever the later collaborators would have answered; and
`nvgpu_nvs_get_buf_linux` returns `-ENODEV` with the device, the buffer and the
number of allocated blocks exactly as before. -/
theorem nvgpu_get_failure_returns_enodev (s : mmap_state) (mmap_err : Int)
    (kzalloc : Option Nat) (h1 : s.vma.vm_pgoff = 0)
    (h2 : vma_length s.vma ≤ s.buf.mem_size)
    (gs : get_buf_state) (bytes mask : Nat) (read_only kzalloc_ok : Bool) (alloc_err : Int)
    (export_err : Option Int) :
    nvgpu_nvs_buf_mmap s false mmap_err kzalloc = (-ENODEV, s) ∧
    nvgpu_nvs_get_buf_linux gs bytes mask read_only false kzalloc_ok alloc_err export_err
      = (-ENODEV, gs) :=
  ⟨nvgpu_nvs_buf_mmap_enodev s mmap_err kzalloc h2 h1, by simp [nvgpu_nvs_get_buf_linux]⟩

/-- C16, instance: a valid request on a buffer of 4096 bytes. -/
theorem nvgpu_get_failure_returns_enodev_witness :
    nvgpu_nvs_buf_mmap
        ⟨⟨0, false, 0, 0⟩, ⟨7, 4096, ⟨true, 0, []⟩⟩,
          ⟨100, 0x10000, 0x11000, 0, 0, vm_ops_ptr.null, none, false⟩⟩ false 0 (some 1000)
      = (-ENODEV,
          ⟨⟨0, false, 0, 0⟩, ⟨7, 4096, ⟨true, 0, []⟩⟩,
            ⟨100, 0x10000, 0x11000, 0, 0, vm_ops_ptr.null, none, false⟩⟩) :=
  (nvgpu_get_failure_returns_enodev
    ⟨⟨0, false, 0, 0⟩, ⟨7, 4096, ⟨true, 0, []⟩⟩,
      ⟨100, 0x10000, 0x11000, 0, 0, vm_ops_ptr.null, none, false⟩⟩ 0 (some 1000) rfl
    (by decide) ⟨⟨0, false, 0, 0⟩, ⟨7, false, 0, 0, none, none, none⟩, 0⟩ 4096 1 true true 0
    none).1

theorem or_vm_shared_and (x : Nat) : (x ||| VM_SHARED) &&& VM_SHARED = VM_SHARED := by
  apply Nat.eq_of_testBit_eq
  intro i
  simp only [Nat.testBit_and, Nat.testBit_or]
  cases Nat.testBit x i <;> cases Nat.testBit VM_SHARED i <;> rfl

/-- C17 (counterexample): a read-write buffer that already has one mapping
(made through another vma) is mapped a second time: `nvgpu_nvs_buf_mmap`
returns 0, `ref` becomes 2 and a second record is linked. The function takes
the buffer, the vma and the answers of its collaborators only; nothing in it
tells the holder of exclusive access from any other requester. -/
theorem nvgpu_nvs_buf_mmap_read_write_second_mapping :
    (nvgpu_nvs_buf_mmap
        ⟨⟨1, false, 1, 1⟩, ⟨7, 4096, ⟨false, 1, [⟨1000, some 100, 7⟩]⟩⟩,
          ⟨101, 0x20000, 0x21000, 0, 0, vm_ops_ptr.null, none, false⟩⟩ true 0 (some 1001)).1 = 0 ∧
    (nvgpu_nvs_buf_mmap
        ⟨⟨1, false, 1, 1⟩, ⟨7, 4096, ⟨false, 1, [⟨1000, some 100, 7⟩]⟩⟩,
          ⟨101, 0x20000, 0x21000, 0, 0, vm_ops_ptr.null, none, false⟩⟩ true 0 (some 1001)).2.buf.priv
      = ⟨false, 2, [⟨1000, some 100, 7⟩, ⟨1001, some 101, 7⟩]⟩ := by
  decide

/-- C17 (amended): `nvgpu_nvs_buf_mmap` succeeds exactly when the request has
page offset 0 and a length within the buffer and `nvgpu_get`,
`nvgpu_dma_mmap_sys` and `nvgpu_kzalloc` succeed, whatever the number of
mappings that already exist and whether the buffer is read-only or read-write:
it makes no check of exclusive access. On success the mapping of a read-only
buffer is marked `VM_SHARED`; that of a read-write buffer gets the four other
flags only. -/
theorem nvgpu_nvs_buf_mmap_succeeds_for_any_mapper (s : mmap_state) (get_ok : Bool)
    (mmap_err : Int) (kzalloc : Option Nat) :
    ((nvgpu_nvs_buf_mmap s get_ok mmap_err kzalloc).1 = 0 ↔
      (vma_length s.vma ≤ s.buf.mem_size ∧ s.vma.vm_pgoff = 0 ∧ get_ok = true ∧ mmap_err = 0 ∧
        ∃ p, kzalloc = some p)) ∧
    ((nvgpu_nvs_buf_mmap s get_ok mmap_err kzalloc).1 = 0 → s.buf.priv.read_only = true →
      (nvgpu_nvs_buf_mmap s get_ok mmap_err kzalloc).2.vma.vm_flags
        = (s.vma.vm_flags ||| (VM_DONTCOPY ||| VM_DONTEXPAND ||| VM_NORESERVE ||| VM_DONTDUMP))
            ||| VM_SHARED ∧
      (nvgpu_nvs_buf_mmap s get_ok mmap_err kzalloc).2.vma.vm_flags &&& VM_SHARED = VM_SHARED) ∧
    ((nvgpu_nvs_buf_mmap s get_ok mmap_err kzalloc).1 = 0 → s.buf.priv.read_only = false →
      (nvgpu_nvs_buf_mmap s get_ok mmap_err kzalloc).2.vma.vm_flags
        = s.vma.vm_flags ||| (VM_DONTCOPY ||| VM_DONTEXPAND ||| VM_NORESERVE ||| VM_DONTDUMP)) := by
  have key : (nvgpu_nvs_buf_mmap s get_ok mmap_err kzalloc).1 = 0 →
      vma_length s.vma ≤ s.buf.mem_size ∧ s.vma.vm_pgoff = 0 ∧ get_ok = true ∧ mmap_err = 0 ∧
        ∃ p, kzalloc = some p := by
    intro h
    obtain ⟨h1, h2, h3, h4, p, h5, _⟩ := nvgpu_nvs_buf_mmap_ok s get_ok mmap_err kzalloc h
    exact ⟨h1, h2, h3, h4, p, h5⟩
  refine ⟨⟨key, ?_⟩, ?_, ?_⟩
  · rintro ⟨h1, h2, h3, h4, p, h5⟩
    subst h3; subst h4; subst h5
    exact (nvgpu_nvs_buf_mmap_success s p h1 h2).1
  · intro h hro
    obtain ⟨h1, h2, h3, h4, p, h5⟩ := key h
    subst h3; subst h4; subst h5
    have hf := (nvgpu_nvs_buf_mmap_success s p h1 h2).2
    rw [if_pos hro] at hf
    exact ⟨hf, by rw [hf]; exact or_vm_shared_and _⟩
  · intro h hro
    obtain ⟨h1, h2, h3, h4, p, h5⟩ := key h
    subst h3; subst h4; subst h5
    have hf := (nvgpu_nvs_buf_mmap_success s p h1 h2).2
    rw [if_neg (by simp [hro])] at hf
    exact hf

/-- C18: with an `ERR_PTR` of `dma_buf_export` carrying a nonzero error,
`nvgpu_nvs_get_buf_linux` returns 0 exactly when `nvgpu_get`, `nvgpu_kzalloc`,
`nvgpu_nvs_buffer_alloc` and the export all succeed; the buffer then has a
private record with `ref = 0`, an empty mapping list and the requested
`read_only`, its `free` set to `nvgpu_nvs_destroy_buf_linux_locked`, and one
device reference more is held. On failure it returns `-ENODEV`, `-ENOMEM`, the
code of `nvgpu_nvs_buffer_alloc` or the error of the export as it is, leaves
`buf->priv` and `buf->free` unchanged, holds as many device references as
before and no block more than before. -/
theorem nvgpu_nvs_get_buf_linux_result (s : get_buf_state) (bytes mask : Nat)
    (read_only get_ok kzalloc_ok : Bool) (alloc_err : Int) (export_err : Option Int)
    (hexp : ∀ e, export_err = some e → e ≠ 0) :
    ((nvgpu_nvs_get_buf_linux s bytes mask read_only get_ok kzalloc_ok alloc_err export_err).1 = 0
      ↔ (get_ok = true ∧ kzalloc_ok = true ∧ alloc_err = 0 ∧ export_err = none)) ∧
    ((nvgpu_nvs_get_buf_linux s bytes mask read_only true true 0 none).2.buf.priv
        = some { read_only := read_only, ref := 0, list_mapped_user_vmas := [] } ∧
      (nvgpu_nvs_get_buf_linux s bytes mask read_only true true 0 none).2.buf.free
        = some free_callback.nvgpu_nvs_destroy_buf_linux_locked ∧
      (nvgpu_nvs_get_buf_linux s bytes mask read_only true true 0 none).2.g.dev_refs
        = s.g.dev_refs + 1) ∧
    (get_ok = false →
      nvgpu_nvs_get_buf_linux s bytes mask read_only get_ok kzalloc_ok alloc_err export_err
        = (-ENODEV, s)) ∧
    (get_ok = true → kzalloc_ok = false →
      (nvgpu_nvs_get_buf_linux s bytes mask read_only get_ok kzalloc_ok alloc_err export_err).1
        = -ENOMEM) ∧
    (get_ok = true → kzalloc_ok = true → alloc_err ≠ 0 →
      (nvgpu_nvs_get_buf_linux s bytes mask read_only get_ok kzalloc_ok alloc_err export_err).1
        = alloc_err) ∧
    (∀ e, get_ok = true → kzalloc_ok = true → alloc_err = 0 → export_err = some e →
      (nvgpu_nvs_get_buf_linux s bytes mask read_only get_ok kzalloc_ok alloc_err export_err).1
        = e) ∧
    ((nvgpu_nvs_get_buf_linux s bytes mask read_only get_ok kzalloc_ok alloc_err export_err).1 ≠ 0 →
      (nvgpu_nvs_get_buf_linux s bytes mask read_only get_ok kzalloc_ok alloc_err
          export_err).2.buf.priv = s.buf.priv ∧
      (nvgpu_nvs_get_buf_linux s bytes mask read_only get_ok kzalloc_ok alloc_err
          export_err).2.buf.free = s.buf.free ∧
      (nvgpu_nvs_get_buf_linux s bytes mask read_only get_ok kzalloc_ok alloc_err
          export_err).2.g = s.g ∧
      (nvgpu_nvs_get_buf_linux s bytes mask read_only get_ok kzalloc_ok alloc_err
          export_err).2.kmem_live = s.kmem_live) := by
  have h19 : (-ENODEV : Int) ≠ 0 := by decide
  have h12 : (-ENOMEM : Int) ≠ 0 := by decide
  rw [nvgpu_nvs_get_buf_linux_success]
  refine ⟨?_, ⟨rfl, rfl, rfl⟩, ?_, ?_, ?_, ?_, ?_⟩
  · cases get_ok with
    | false => simp [nvgpu_nvs_get_buf_linux, h19]
    | true =>
      cases kzalloc_ok with
      | false => simp [nvgpu_nvs_get_buf_linux, h12]
      | true =>
        by_cases ha : alloc_err = 0
        · subst ha
          cases export_err with
          | none => simp [nvgpu_nvs_get_buf_linux_success]
          | some e =>
            have := hexp e rfl
            simp [nvgpu_nvs_get_buf_linux, nvgpu_nvs_buffer_alloc, nvgpu_nvs_buf_export_dmabuf,
              dma_buf_export, this]
        · simp [nvgpu_nvs_get_buf_linux, nvgpu_nvs_buffer_alloc, ha]
  · intro hg; subst hg; simp [nvgpu_nvs_get_buf_linux]
  · intro hg hk; subst hg; subst hk; simp [nvgpu_nvs_get_buf_linux]
  · intro hg hk ha; subst hg; subst hk
    simp [nvgpu_nvs_get_buf_linux, nvgpu_nvs_buffer_alloc, ha]
  · intro e hg hk ha he; subst hg; subst hk; subst ha; subst he
    simp [nvgpu_nvs_get_buf_linux, nvgpu_nvs_buffer_alloc, nvgpu_nvs_buf_export_dmabuf,
      dma_buf_export]
  · intro hne
    cases get_ok with
    | false => simp [nvgpu_nvs_get_buf_linux]
    | true =>
      cases kzalloc_ok with
      | false => simp [nvgpu_nvs_get_buf_linux, nvgpu_nvs_buffer_free]
      | true =>
        by_cases ha : alloc_err = 0
        · subst ha
          cases export_err with
          | none => simp [nvgpu_nvs_get_buf_linux_success] at hne
          | some e =>
            simp [nvgpu_nvs_get_buf_linux, nvgpu_nvs_buffer_alloc, nvgpu_nvs_buf_export_dmabuf,
              dma_buf_export, nvgpu_nvs_buffer_free]
        · simp [nvgpu_nvs_get_buf_linux, nvgpu_nvs_buffer_alloc, nvgpu_nvs_buffer_free, ha]

/-- C18, instance: the export fails with `-ENOMEM`. -/
theorem nvgpu_nvs_get_buf_linux_result_witness :
    (nvgpu_nvs_get_buf_linux ⟨⟨0, false, 0, 0⟩, ⟨7, false, 0, 0, none, none, none⟩, 0⟩ 4096 1 true
        true true 0 (some (-12))).1 = -12 :=
  (nvgpu_nvs_get_buf_linux_result ⟨⟨0, false, 0, 0⟩, ⟨7, false, 0, 0, none, none, none⟩, 0⟩ 4096 1
    true true true 0 (some (-12)) (by decide)).2.2.2.2.2.1 (-12) rfl rfl rfl rfl

/-- C25 (failing input): a valid mapping request for which `nvgpu_get`
succeeds and `nvgpu_dma_mmap_sys` fails with `-12`: `nvgpu_nvs_buf_mmap`
returns `-12` and one device reference more is held than before the call,
since the `fail` path has no `nvgpu_put`. The same holds for every valid
request whose page mapping or record allocation fails. -/
theorem nvgpu_nvs_buf_mmap_failure_keeps_device_reference :
    (nvgpu_nvs_buf_mmap
        ⟨⟨0, false, 0, 0⟩, ⟨7, 4096, ⟨true, 0, []⟩⟩,
          ⟨100, 0x10000, 0x11000, 0, 0, vm_ops_ptr.null, none, false⟩⟩ true (-12) none).1 = -12 ∧
    (nvgpu_nvs_buf_mmap
        ⟨⟨0, false, 0, 0⟩, ⟨7, 4096, ⟨true, 0, []⟩⟩,
          ⟨100, 0x10000, 0x11000, 0, 0, vm_ops_ptr.null, none, false⟩⟩ true (-12)
        none).2.g.dev_refs = 1 ∧
    (∀ (s : mmap_state) (mmap_err : Int) (kzalloc : Option Nat),
      vma_length s.vma ≤ s.buf.mem_size → s.vma.vm_pgoff = 0 → mmap_err ≠ 0 →
      (nvgpu_nvs_buf_mmap s true mmap_err kzalloc).1 = mmap_err ∧
      (nvgpu_nvs_buf_mmap s true mmap_err kzalloc).2.g.dev_refs = s.g.dev_refs + 1) ∧
    (∀ (s : mmap_state),
      vma_length s.vma ≤ s.buf.mem_size → s.vma.vm_pgoff = 0 →
      (nvgpu_nvs_buf_mmap s true 0 none).1 = -ENOMEM ∧
      (nvgpu_nvs_buf_mmap s true 0 none).2.g.dev_refs = s.g.dev_refs + 1) := by
  refine ⟨by decide, by decide, ?_, ?_⟩
  · intro s mmap_err kzalloc h1 h2 he
    obtain ⟨r1, r2, _⟩ := nvgpu_nvs_buf_mmap_fail_sys s mmap_err kzalloc h1 h2 he
    exact ⟨r1, by rw [r2]; rfl⟩
  · intro s h1 h2
    obtain ⟨r1, r2, _⟩ := nvgpu_nvs_buf_mmap_fail_kzalloc s h1 h2
    exact ⟨r1, by rw [r2]; rfl⟩

/-- C26: whenever `nvgpu_nvs_buf_mmap` returns non-zero, the buffer (its `ref`
and its mapping list with it) and the vma's `vm_ops` and `vm_private_data` are
exactly as before the call. -/
theorem nvgpu_nvs_buf_mmap_failure_keeps_mapping_state (s : mmap_state) (get_ok : Bool)
    (mmap_err : Int) (kzalloc : Option Nat)
    (h : (nvgpu_nvs_buf_mmap s get_ok mmap_err kzalloc).1 ≠ 0) :
    (nvgpu_nvs_buf_mmap s get_ok mmap_err kzalloc).2.buf = s.buf ∧
    (nvgpu_nvs_buf_mmap s get_ok mmap_err kzalloc).2.buf.priv.ref = s.buf.priv.ref ∧
    (nvgpu_nvs_buf_mmap s get_ok mmap_err kzalloc).2.buf.priv.list_mapped_user_vmas
      = s.buf.priv.list_mapped_user_vmas ∧
    (nvgpu_nvs_buf_mmap s get_ok mmap_err kzalloc).2.vma.vm_ops = s.vma.vm_ops ∧
    (nvgpu_nvs_buf_mmap s get_ok mmap_err kzalloc).2.vma.vm_private_data
      = s.vma.vm_private_data := by
  have hb := nvgpu_nvs_buf_mmap_fail_buf s get_ok mmap_err kzalloc h
  refine ⟨hb, by rw [hb], by rw [hb], ?_⟩
  rcases nvgpu_nvs_buf_mmap_cases s get_ok mmap_err kzalloc with
    h0 | ⟨h1, h2, hg⟩ | ⟨h1, h2, hg, he⟩ | ⟨h1, h2, hg, he, hk⟩ | ⟨h1, h2, hg, he, p, hk⟩
  · rw [nvgpu_nvs_buf_mmap_einval s _ _ _ h0]; exact ⟨rfl, rfl⟩
  · subst hg; rw [nvgpu_nvs_buf_mmap_enodev s _ _ h1 h2]; exact ⟨rfl, rfl⟩
  · subst hg
    obtain ⟨_, _, _, r4, r5⟩ := nvgpu_nvs_buf_mmap_fail_sys s mmap_err kzalloc h1 h2 he
    exact ⟨r4, r5⟩
  · subst hg; subst he; subst hk
    obtain ⟨_, _, _, r4, r5, _⟩ := nvgpu_nvs_buf_mmap_fail_kzalloc s h1 h2
    exact ⟨r4, r5⟩
  · subst hg; subst he; subst hk
    exact absurd (nvgpu_nvs_buf_mmap_success s p h1 h2).1 h

/-- C26, instance: the allocation of the mapping record fails. -/
theorem nvgpu_nvs_buf_mmap_failure_keeps_mapping_state_witness :
    (nvgpu_nvs_buf_mmap
        ⟨⟨0, false, 0, 0⟩, ⟨7, 4096, ⟨true, 0, []⟩⟩,
          ⟨100, 0x10000, 0x11000, 0, 0, vm_ops_ptr.other 5, none, false⟩⟩ true 0 none).2.vma.vm_ops
      = vm_ops_ptr.other 5 :=
  (nvgpu_nvs_buf_mmap_failure_keeps_mapping_state
    ⟨⟨0, false, 0, 0⟩, ⟨7, 4096, ⟨true, 0, []⟩⟩,
      ⟨100, 0x10000, 0x11000, 0, 0, vm_ops_ptr.other 5, none, false⟩⟩ true 0 none
    (by decide)).2.2.2.1

end dmabuf_nvs

namespace nvs

/-! ## The session list -/

theorem fifo_run_cons (sc : nvgpu_nvs_domain_ctrl_fifo) (op : fifo_op) (ops : List fifo_op) :
    fifo_run sc (op :: ops) = fifo_run (fifo_step sc op) ops := by
  simp [fifo_run]

theorem countP_addr_le_one (users : List nvs_domain_ctrl_fifo_user) (a : Nat)
    (hnd : (users.map fun u => u.addr).Nodup) :
    users.countP (fun u => u.addr == a) ≤ 1 := by
  have h := List.nodup_iff_count_le_one.1 hnd a
  rw [List.count, List.countP_map] at h
  exact h

theorem reserve_fields (sc : nvgpu_nvs_domain_ctrl_fifo) (user : Nat) :
    ((nvgpu_nvs_ctrl_fifo_reserve_exclusive_user sc user).2.users.map fun u => u.addr)
      = sc.users.map fun u => u.addr := by
  unfold nvgpu_nvs_ctrl_fifo_reserve_exclusive_user
  split_ifs
  · rfl
  · simp only [List.map_map]
    apply List.map_congr_left
    intro u _
    simp only [Function.comp]
    split_ifs <;> rfl

/-- The invariant of the session list: distinct users, at most one of them with
write access. -/
theorem fifo_step_inv (sc : nvgpu_nvs_domain_ctrl_fifo) (op : fifo_op)
    (hnd : (sc.users.map fun u => u.addr).Nodup) (hc : exclusive_count sc ≤ 1)
    (hv : fifo_ops_valid sc [op] = true) :
    ((fifo_step sc op).users.map fun u => u.addr).Nodup ∧ exclusive_count (fifo_step sc op) ≤ 1 := by
  unfold exclusive_count at hc ⊢
  cases op with
  | add_user user =>
    simp only [fifo_ops_valid, Bool.and_true, Bool.and_eq_true, Bool.not_eq_true',
      decide_eq_true_eq] at hv
    obtain ⟨hw, hfresh⟩ := hv
    simp only [fifo_step, nvgpu_nvs_ctrl_fifo_add_user, List.map_append, List.map_cons,
      List.map_nil, List.countP_append, List.countP_cons, List.countP_nil, hw]
    refine ⟨?_, by simpa using hc⟩
    rw [List.nodup_append]
    refine ⟨hnd, List.nodup_singleton _, ?_⟩
    intro a h1 h2
    rw [List.mem_singleton.1 h2] at h1
    exact hfresh h1
  | remove_user user =>
    simp only [fifo_step, nvgpu_nvs_ctrl_fifo_remove_user]
    constructor
    · exact hnd.sublist ((List.filter_sublist _).map _)
    · exact le_trans (List.Sublist.countP_le _ (List.filter_sublist _)) hc
  | reserve_exclusive user =>
    refine ⟨by simp only [fifo_step]; rw [reserve_fields]; exact hnd, ?_⟩
    simp only [fifo_step, nvgpu_nvs_ctrl_fifo_reserve_exclusive_user]
    split_ifs with hany
    · exact hc
    · simp only [List.countP_map]
      refine le_trans ?_ (countP_addr_le_one sc.users user hnd)
      apply List.countP_mono_left
      intro u hu hw
      simp only [Function.comp] at hw
      by_cases hua : u.addr = user
      · simpa using hua
      · rw [if_neg hua] at hw
        exfalso
        apply hany
        rw [List.any_eq_true]
        exact ⟨u, hu, by simp [hua, hw]⟩
  | reset_exclusive user =>
    simp only [fifo_step, nvgpu_nvs_ctrl_fifo_reset_exclusive_user]
    constructor
    · simp only [List.map_map]
      have : (sc.users.map ((fun u => u.addr) ∘ fun u =>
          if u.addr = user then { u with has_write_access := false } else u))
          = sc.users.map fun u => u.addr := by
        apply List.map_congr_left
        intro u _
        simp only [Function.comp]
        split_ifs <;> rfl
      rw [this]; exact hnd
    · simp only [List.countP_map]
      refine le_trans ?_ hc
      apply List.countP_mono_left
      intro u _ hw
      simp only [Function.comp] at hw
      by_cases hua : u.addr = user
      · rw [if_pos hua] at hw; simp at hw
      · rw [if_neg hua] at hw; exact hw

theorem fifo_ops_valid_cons (sc : nvgpu_nvs_domain_ctrl_fifo) (op : fifo_op)
    (ops : List fifo_op) (h : fifo_ops_valid sc (op :: ops) = true) :
    fifo_ops_valid sc [op] = true ∧ fifo_ops_valid (fifo_step sc op) ops = true := by
  simp only [fifo_ops_valid, Bool.and_eq_true, Bool.and_true] at h ⊢
  exact h

theorem fifo_run_inv (sc : nvgpu_nvs_domain_ctrl_fifo) (ops : List fifo_op)
    (hnd : (sc.users.map fun u => u.addr).Nodup) (hc : exclusive_count sc ≤ 1)
    (hv : fifo_ops_valid sc ops = true) :
    ((fifo_run sc ops).users.map fun u => u.addr).Nodup ∧ exclusive_count (fifo_run sc ops) ≤ 1 := by
  induction ops generalizing sc with
  | nil => exact ⟨hnd, hc⟩
  | cons op ops ih =>
    rw [fifo_run_cons]
    obtain ⟨h1, h2⟩ := fifo_ops_valid_cons sc op ops hv
    obtain ⟨i1, i2⟩ := fifo_step_inv sc op hnd hc h1
    exact ih _ i1 i2 h2

theorem fifo_ops_valid_take (sc : nvgpu_nvs_domain_ctrl_fifo) (ops : List fifo_op) (n : Nat)
    (hv : fifo_ops_valid sc ops = true) : fifo_ops_valid sc (ops.take n) = true := by
  induction ops generalizing sc n with
  | nil => simp [fifo_ops_valid]
  | cons op ops ih =>
    cases n with
    | zero => simp [fifo_ops_valid]
    | succ k =>
      obtain ⟨h1, h2⟩ := fifo_ops_valid_cons sc op ops hv
      simp only [List.take_succ_cons, fifo_ops_valid, Bool.and_eq_true]
      simp only [fifo_ops_valid, Bool.and_eq_true, Bool.and_true] at h1
      exact ⟨h1, ih _ k h2⟩

/-- C19: starting from an arbiter whose users are distinct and of which at
most one has write access (an empty session list, for one), after every step
of any run of add-user, remove-user, reserve-exclusive and reset-exclusive
calls in which each added user is a new session without write access, at most
one user in the session list has `has_write_access = true`; and a reservation
attempted while another session in the list holds access fails with
`AlreadyReserved` and returns the arbiter unchanged. -/
theorem at_most_one_exclusive_user (sc : nvgpu_nvs_domain_ctrl_fifo) (ops : List fifo_op)
    (hnd : (sc.users.map fun u => u.addr).Nodup) (hc : exclusive_count sc ≤ 1)
    (hv : fifo_ops_valid sc ops = true) :
    (∀ n, exclusive_count (fifo_run sc (ops.take n)) ≤ 1) ∧
    exclusive_count (fifo_run sc ops) ≤ 1 ∧
    (∀ (sc1 : nvgpu_nvs_domain_ctrl_fifo) (user : Nat),
      (∃ u ∈ sc1.users, u.addr ≠ user ∧ u.has_write_access = true) →
      nvgpu_nvs_ctrl_fifo_reserve_exclusive_user sc1 user
        = (nvs_status.AlreadyReserved, sc1)) ∧
    (∀ (sc1 : nvgpu_nvs_domain_ctrl_fifo) (user : Nat),
      (nvgpu_nvs_ctrl_fifo_reserve_exclusive_user sc1 user).1 = nvs_status.ok ∨
      nvgpu_nvs_ctrl_fifo_reserve_exclusive_user sc1 user
        = (nvs_status.AlreadyReserved, sc1)) ∧
    exclusive_count ⟨[]⟩ ≤ 1 := by
  refine ⟨fun n => (fifo_run_inv sc _ hnd hc (fifo_ops_valid_take sc ops n hv)).2,
    (fifo_run_inv sc ops hnd hc hv).2, ?_, ?_, by decide⟩
  · rintro sc1 user ⟨u, hu, hne, hw⟩
    unfold nvgpu_nvs_ctrl_fifo_reserve_exclusive_user
    rw [if_pos]
    rw [List.any_eq_true]
    exact ⟨u, hu, by simp [hne, hw]⟩
  · intro sc1 user
    unfold nvgpu_nvs_ctrl_fifo_reserve_exclusive_user
    split_ifs
    · exact Or.inr rfl
    · exact Or.inl rfl

/-- C19, instance: two sessions; the first reserves, the second tries to
reserve, the first resets, the second reserves. -/
theorem at_most_one_exclusive_user_witness :
    exclusive_count (fifo_run ⟨[]⟩
      [.add_user ⟨1, false, 100, 0⟩, .add_user ⟨2, false, 200, 0⟩, .reserve_exclusive 1,
       .reserve_exclusive 2, .reset_exclusive 1, .reserve_exclusive 2]) ≤ 1 :=
  (at_most_one_exclusive_user ⟨[]⟩
    [.add_user ⟨1, false, 100, 0⟩, .add_user ⟨2, false, 200, 0⟩, .reserve_exclusive 1,
     .reserve_exclusive 2, .reset_exclusive 1, .reserve_exclusive 2]
    (by decide) (by decide) (by decide)).2.1

/-! ## The domain registry -/

theorem registry_run_cons (s : nvgpu_nvs_scheduler) (op : registry_op) (ops : List registry_op) :
    registry_run s (op :: ops) = registry_run (registry_step s op) ops := by
  simp [registry_run]

theorem map_ref_id (f : Nat → Nat) (dom_id : Nat) (l : List nvgpu_nvs_domain) :
    (l.map fun d => if d.id = dom_id then { d with ref := f d.ref } else d).map (fun d => d.id)
      = l.map fun d => d.id := by
  rw [List.map_map]
  apply List.map_congr_left
  intro d _
  simp only [Function.comp]
  split_ifs <;> rfl

theorem map_ref_name (f : Nat → Nat) (dom_id : Nat) (l : List nvgpu_nvs_domain) :
    (l.map fun d => if d.id = dom_id then { d with ref := f d.ref } else d).map (fun d => d.name)
      = l.map fun d => d.name := by
  rw [List.map_map]
  apply List.map_congr_left
  intro d _
  simp only [Function.comp]
  split_ifs <;> rfl

theorem ids_le_of_map_ref (f : Nat → Nat) (dom_id c : Nat) (l : List nvgpu_nvs_domain)
    (h : ∀ d ∈ l, d.id ≤ c) :
    ∀ d ∈ l.map (fun d => if d.id = dom_id then { d with ref := f d.ref } else d), d.id ≤ c := by
  intro d hd
  obtain ⟨d0, hd0, rfl⟩ := List.mem_map.1 hd
  have := h d0 hd0
  split_ifs <;> exact this

theorem nvgpu_nvs_add_domain_ok (s : nvgpu_nvs_scheduler) (name : String)
    (timeslice preempt_grace : Nat) (alloc_ok : Bool)
    (h : (nvgpu_nvs_add_domain s name timeslice preempt_grace alloc_ok).1 = nvs_status.ok) :
    nvgpu_nvs_domain_by_name s name = none ∧
    nvgpu_nvs_add_domain s name timeslice preempt_grace alloc_ok
      = (nvs_status.ok,
          { s with id_counter := s.id_counter + 1,
                   domains := s.domains ++
                     [{ id := s.id_counter + 1, subscheduler := 0, ref := 1, name := name,
                        timeslice := timeslice, preempt_grace := preempt_grace }] },
          some (s.id_counter + 1)) := by
  unfold nvgpu_nvs_add_domain at h ⊢
  by_cases c1 : (nvgpu_nvs_domain_by_name s name).isSome = true
  · rw [if_pos c1] at h
    have hd : nvs_status.DuplicateName ≠ nvs_status.ok := by decide
    exact absurd h hd
  · cases alloc_ok with
    | false => simp [c1] at h
    | true =>
      refine ⟨by simpa using c1, ?_⟩
      simp [c1]

theorem nvgpu_nvs_add_domain_fail (s : nvgpu_nvs_scheduler) (name : String)
    (timeslice preempt_grace : Nat) (alloc_ok : Bool)
    (h : (nvgpu_nvs_add_domain s name timeslice preempt_grace alloc_ok).1 ≠ nvs_status.ok) :
    (nvgpu_nvs_add_domain s name timeslice preempt_grace alloc_ok).2.1 = s := by
  unfold nvgpu_nvs_add_domain at h ⊢
  by_cases c1 : (nvgpu_nvs_domain_by_name s name).isSome = true
  · rw [if_pos c1]
  · cases alloc_ok with
    | false => simp [c1]
    | true => simp [c1] at h

theorem nvgpu_nvs_del_domain_domains (s : nvgpu_nvs_scheduler) (dom_id : Nat) :
    (nvgpu_nvs_del_domain s dom_id).2.id_counter = s.id_counter ∧
    ((nvgpu_nvs_del_domain s dom_id).2.domains = s.domains ∨
      (nvgpu_nvs_del_domain s dom_id).2.domains = s.domains.filter fun d => d.id != dom_id) := by
  unfold nvgpu_nvs_del_domain
  cases nvgpu_nvs_domain_by_id s dom_id with
  | none => exact ⟨rfl, Or.inl rfl⟩
  | some dom =>
    dsimp only
    split_ifs
    · exact ⟨rfl, Or.inl rfl⟩
    · exact ⟨rfl, Or.inr rfl⟩

theorem registry_inv_step (s : nvgpu_nvs_scheduler) (op : registry_op) (h : registry_inv s) :
    registry_inv (registry_step s op) ∧ s.id_counter ≤ (registry_step s op).id_counter := by
  obtain ⟨hle, hid, hname⟩ := h
  cases op with
  | add_domain name timeslice preempt_grace alloc_ok =>
    by_cases hok : (nvgpu_nvs_add_domain s name timeslice preempt_grace alloc_ok).1
        = nvs_status.ok
    · obtain ⟨hnone, heq⟩ := nvgpu_nvs_add_domain_ok s name timeslice preempt_grace alloc_ok hok
      simp only [registry_step, heq]
      refine ⟨⟨?_, ?_, ?_⟩, Nat.le_succ _⟩
      · intro d hd
        rcases List.mem_append.1 hd with hd | hd
        · exact Nat.le_succ_of_le (hle d hd)
        · rw [List.mem_singleton.1 hd]
      · simp only [List.map_append, List.map_cons, List.map_nil]
        rw [List.nodup_append]
        refine ⟨hid, List.nodup_singleton _, ?_⟩
        intro a h1 h2
        rw [List.mem_singleton.1 h2] at h1
        obtain ⟨d, hd, hda⟩ := List.mem_map.1 h1
        have := hle d hd
        omega
      · simp only [List.map_append, List.map_cons, List.map_nil]
        rw [List.nodup_append]
        refine ⟨hname, List.nodup_singleton _, ?_⟩
        intro a h1 h2
        rw [List.mem_singleton.1 h2] at h1
        obtain ⟨d, hd, hda⟩ := List.mem_map.1 h1
        unfold nvgpu_nvs_domain_by_name at hnone
        have := List.find?_eq_none.1 hnone d hd
        simp [hda] at this
    · simp only [registry_step,
        nvgpu_nvs_add_domain_fail s name timeslice preempt_grace alloc_ok hok]
      exact ⟨⟨hle, hid, hname⟩, le_refl _⟩
  | del_domain dom_id =>
    obtain ⟨hc, hd⟩ := nvgpu_nvs_del_domain_domains s dom_id
    simp only [registry_step]
    refine ⟨?_, by rw [hc]⟩
    unfold registry_inv
    rw [hc]
    rcases hd with hd | hd <;> rw [hd]
    · exact ⟨hle, hid, hname⟩
    · exact ⟨fun d hd1 => hle d (List.mem_of_mem_filter hd1),
        hid.sublist ((List.filter_sublist _).map _),
        hname.sublist ((List.filter_sublist _).map _)⟩
  | domain_get dom_id =>
    refine ⟨⟨ids_le_of_map_ref (fun r => r + 1) dom_id _ _ hle, ?_, ?_⟩, le_refl _⟩
    · show ((s.domains.map fun d =>
        if d.id = dom_id then { d with ref := d.ref + 1 } else d).map fun d => d.id).Nodup
      rw [map_ref_id (fun r => r + 1)]; exact hid
    · show ((s.domains.map fun d =>
        if d.id = dom_id then { d with ref := d.ref + 1 } else d).map fun d => d.name).Nodup
      rw [map_ref_name (fun r => r + 1)]; exact hname
  | domain_put dom_id =>
    refine ⟨⟨ids_le_of_map_ref (fun r => r - 1) dom_id _ _ hle, ?_, ?_⟩, le_refl _⟩
    · show ((s.domains.map fun d =>
        if d.id = dom_id then { d with ref := d.ref - 1 } else d).map fun d => d.id).Nodup
      rw [map_ref_id (fun r => r - 1)]; exact hid
    · show ((s.domains.map fun d =>
        if d.id = dom_id then { d with ref := d.ref - 1 } else d).map fun d => d.name).Nodup
      rw [map_ref_name (fun r => r - 1)]; exact hname

theorem registry_inv_run (s : nvgpu_nvs_scheduler) (ops : List registry_op)
    (h : registry_inv s) :
    registry_inv (registry_run s ops) ∧ s.id_counter ≤ (registry_run s ops).id_counter := by
  induction ops generalizing s with
  | nil => exact ⟨h, le_refl _⟩
  | cons op ops ih =>
    rw [registry_run_cons]
    obtain ⟨h1, h2⟩ := registry_inv_step s op h
    obtain ⟨i1, i2⟩ := ih _ h1
    exact ⟨i1, le_trans h2 i2⟩

theorem id_retired_by_id (s : nvgpu_nvs_scheduler) (x : Nat) (h : id_retired s x) :
    nvgpu_nvs_domain_by_id s x = none := by
  unfold nvgpu_nvs_domain_by_id
  rw [List.find?_eq_none]
  intro d hd
  simpa using h.1 d hd

theorem id_retired_step (s : nvgpu_nvs_scheduler) (x : Nat) (op : registry_op)
    (h : id_retired s x) : id_retired (registry_step s op) x := by
  obtain ⟨hne, hle⟩ := h
  cases op with
  | add_domain name timeslice preempt_grace alloc_ok =>
    by_cases hok : (nvgpu_nvs_add_domain s name timeslice preempt_grace alloc_ok).1
        = nvs_status.ok
    · obtain ⟨_, heq⟩ := nvgpu_nvs_add_domain_ok s name timeslice preempt_grace alloc_ok hok
      simp only [registry_step, heq]
      refine ⟨?_, Nat.le_succ_of_le hle⟩
      intro d hd
      rcases List.mem_append.1 hd with hd | hd
      · exact hne d hd
      · rw [List.mem_singleton.1 hd]
        show s.id_counter + 1 ≠ x
        omega
    · simp only [registry_step,
        nvgpu_nvs_add_domain_fail s name timeslice preempt_grace alloc_ok hok]
      exact ⟨hne, hle⟩
  | del_domain dom_id =>
    obtain ⟨hc, hd⟩ := nvgpu_nvs_del_domain_domains s dom_id
    simp only [registry_step]
    unfold id_retired
    rw [hc]
    refine ⟨?_, hle⟩
    rcases hd with hd | hd <;> rw [hd]
    · exact hne
    · exact fun d hd1 => hne d (List.mem_of_mem_filter hd1)
  | domain_get dom_id =>
    refine ⟨?_, hle⟩
    intro d hd
    obtain ⟨d0, hd0, rfl⟩ := List.mem_map.1 hd
    have := hne d0 hd0
    split_ifs <;> exact this
  | domain_put dom_id =>
    refine ⟨?_, hle⟩
    intro d hd
    obtain ⟨d0, hd0, rfl⟩ := List.mem_map.1 hd
    have := hne d0 hd0
    split_ifs <;> exact this

theorem id_retired_run (s : nvgpu_nvs_scheduler) (x : Nat) (ops : List registry_op)
    (h : id_retired s x) : id_retired (registry_run s ops) x := by
  induction ops generalizing s with
  | nil => exact h
  | cons op ops ih =>
    rw [registry_run_cons]
    exact ih _ (id_retired_step s x op h)

theorem by_id_domain_put (s : nvgpu_nvs_scheduler) (dom_id : Nat) (dom : nvgpu_nvs_domain)
    (h : nvgpu_nvs_domain_by_id s dom_id = some dom) :
    nvgpu_nvs_domain_by_id (nvgpu_nvs_domain_put s dom_id) dom_id
      = some { dom with ref := dom.ref - 1 } := by
  unfold nvgpu_nvs_domain_by_id at h ⊢
  unfold nvgpu_nvs_domain_put
  dsimp only
  rw [List.find?_map]
  have hc : ((fun d : nvgpu_nvs_domain => d.id == dom_id) ∘
      fun d : nvgpu_nvs_domain => if d.id = dom_id then { d with ref := d.ref - 1 } else d)
      = fun d : nvgpu_nvs_domain => d.id == dom_id := by
    funext d
    simp only [Function.comp]
    split_ifs <;> rfl
  rw [hc, h]
  have hid : dom.id = dom_id := by simpa using List.find?_some h
  simp [hid]

theorem by_id_domain_puts (k : Nat) (s : nvgpu_nvs_scheduler) (dom_id : Nat)
    (dom : nvgpu_nvs_domain) (h : nvgpu_nvs_domain_by_id s dom_id = some dom) :
    nvgpu_nvs_domain_by_id
        (registry_run s (List.replicate k (registry_op.domain_put dom_id))) dom_id
      = some { dom with ref := dom.ref - k } ∧
    (registry_run s (List.replicate k (registry_op.domain_put dom_id))).active_domain
      = s.active_domain ∧
    (registry_run s (List.replicate k (registry_op.domain_put dom_id))).shadow_domain
      = s.shadow_domain := by
  induction k generalizing s dom with
  | zero => exact ⟨h, rfl, rfl⟩
  | succ k ih =>
    rw [List.replicate_succ, registry_run_cons]
    obtain ⟨i1, i2, i3⟩ := ih (registry_step s (registry_op.domain_put dom_id)) _
      (by_id_domain_put s dom_id dom h)
    refine ⟨?_, i2, i3⟩
    rw [i1]
    simp [Nat.sub_sub, Nat.add_comm]

theorem nvgpu_nvs_del_domain_free (s : nvgpu_nvs_scheduler) (dom_id : Nat)
    (dom : nvgpu_nvs_domain) (hinv : registry_inv s)
    (h : nvgpu_nvs_domain_by_id s dom_id = some dom) (href : dom.ref ≤ 1)
    (ha : s.active_domain ≠ some dom_id) (hs : s.shadow_domain ≠ some dom_id) :
    (nvgpu_nvs_del_domain s dom_id).1 = nvs_status.ok ∧
    id_retired (nvgpu_nvs_del_domain s dom_id).2 dom_id := by
  have hmem : dom ∈ s.domains := List.mem_of_find?_eq_some h
  have hid : dom.id = dom_id := by
    unfold nvgpu_nvs_domain_by_id at h
    simpa using List.find?_some h
  have hle : dom_id ≤ s.id_counter := hid ▸ hinv.1 dom hmem
  have hn : ¬ (dom.ref > 1 ∨ s.active_domain = some dom_id ∨ s.shadow_domain = some dom_id) := by
    rintro (h1 | h1 | h1)
    · omega
    · exact ha h1
    · exact hs h1
  unfold nvgpu_nvs_del_domain
  rw [h]
  dsimp only
  rw [if_neg hn]
  refine ⟨rfl, ?_, hle⟩
  intro d hd
  have := (List.mem_filter.1 hd).2
  simpa using this

theorem nvgpu_nvs_del_domain_busy (s : nvgpu_nvs_scheduler) (dom_id : Nat)
    (dom : nvgpu_nvs_domain) (h : nvgpu_nvs_domain_by_id s dom_id = some dom)
    (hb : dom.ref > 1 ∨ s.active_domain = some dom_id ∨ s.shadow_domain = some dom_id) :
    nvgpu_nvs_del_domain s dom_id = (nvs_status.Busy, s) := by
  unfold nvgpu_nvs_del_domain
  rw [h]
  dsimp only
  rw [if_pos hb]

/-- C20 (as stated, refuted): a scheduler whose only domain has id 1, holds
just the registry's own reference and is the active domain; removing it fails
with `Busy` and the domain stays registered, although no holder is left. -/
theorem nvgpu_nvs_del_domain_active_domain_busy :
    nvgpu_nvs_domain_by_id
        { id_counter := 1,
          domains := [{ id := 1, subscheduler := 0, ref := 1, name := "default",
                        timeslice := 1000000, preempt_grace := 50000 }],
          active_domain := some 1, shadow_domain := none } 1
      = some { id := 1, subscheduler := 0, ref := 1, name := "default",
               timeslice := 1000000, preempt_grace := 50000 } ∧
    (nvgpu_nvs_del_domain
        { id_counter := 1,
          domains := [{ id := 1, subscheduler := 0, ref := 1, name := "default",
                        timeslice := 1000000, preempt_grace := 50000 }],
          active_domain := some 1, shadow_domain := none } 1).1 = nvs_status.Busy ∧
    (nvgpu_nvs_domain_by_id
        (nvgpu_nvs_del_domain
          { id_counter := 1,
            domains := [{ id := 1, subscheduler := 0, ref := 1, name := "default",
                          timeslice := 1000000, preempt_grace := 50000 }],
            active_domain := some 1, shadow_domain := none } 1).2 1).isSome = true := by
  refine ⟨rfl, rfl, rfl⟩

/-- C20 (amended): for a registered domain, `nvgpu_nvs_del_domain` fails with
`Busy` and leaves the scheduler as it was while the ref count is greater than
1, and also while the domain is the active or the shadow domain; each
`nvgpu_nvs_domain_put` lowers the ref count by one; once the holders have put
their references so that only the registry's own remains, and the domain is
neither the active nor the shadow domain, `nvgpu_nvs_del_domain` succeeds and
`nvgpu_nvs_domain_by_id` reports not found for that id after every later run
of registry requests. -/
theorem nvgpu_nvs_del_domain_busy_until_released (s : nvgpu_nvs_scheduler) (dom_id : Nat)
    (dom : nvgpu_nvs_domain) (hinv : registry_inv s)
    (hfind : nvgpu_nvs_domain_by_id s dom_id = some dom) :
    (1 < dom.ref →
      nvgpu_nvs_del_domain s dom_id = (nvs_status.Busy, s) ∧
      nvgpu_nvs_domain_by_id (nvgpu_nvs_del_domain s dom_id).2 dom_id = some dom) ∧
    (s.active_domain = some dom_id ∨ s.shadow_domain = some dom_id →
      nvgpu_nvs_del_domain s dom_id = (nvs_status.Busy, s)) ∧
    (∀ k, nvgpu_nvs_domain_by_id
        (registry_run s (List.replicate k (registry_op.domain_put dom_id))) dom_id
      = some { dom with ref := dom.ref - k }) ∧
    (s.active_domain ≠ some dom_id → s.shadow_domain ≠ some dom_id →
      (nvgpu_nvs_del_domain
        (registry_run s (List.replicate (dom.ref - 1) (registry_op.domain_put dom_id)))
        dom_id).1 = nvs_status.ok ∧
      ∀ ops, nvgpu_nvs_domain_by_id
        (registry_run
          (nvgpu_nvs_del_domain
            (registry_run s (List.replicate (dom.ref - 1) (registry_op.domain_put dom_id)))
            dom_id).2 ops) dom_id = none) := by
  refine ⟨?_, ?_, ?_, ?_⟩
  · intro h1
    have hb := nvgpu_nvs_del_domain_busy s dom_id dom hfind (Or.inl h1)
    rw [hb]
    exact ⟨rfl, hfind⟩
  · intro h1
    exact nvgpu_nvs_del_domain_busy s dom_id dom hfind (Or.inr h1)
  · intro k
    exact (by_id_domain_puts k s dom_id dom hfind).1
  · intro ha hs
    obtain ⟨p1, p2, p3⟩ := by_id_domain_puts (dom.ref - 1) s dom_id dom hfind
    have hinv1 := (registry_inv_run s
      (List.replicate (dom.ref - 1) (registry_op.domain_put dom_id)) hinv).1
    obtain ⟨d1, d2⟩ := nvgpu_nvs_del_domain_free _ dom_id _ hinv1 p1
      (show dom.ref - (dom.ref - 1) ≤ 1 by omega) (by rw [p2]; exact ha) (by rw [p3]; exact hs)
    exact ⟨d1, fun ops => id_retired_by_id _ _ (id_retired_run _ _ ops d2)⟩

/-- C20 (amended), at a scheduler whose domain 1 has one holder besides the
registry and sits in neither slot. -/
theorem nvgpu_nvs_del_domain_busy_until_released_witness :
    (nvgpu_nvs_del_domain
        { id_counter := 1,
          domains := [{ id := 1, subscheduler := 0, ref := 2, name := "default",
                        timeslice := 1000000, preempt_grace := 50000 }],
          active_domain := none, shadow_domain := none } 1
      = (nvs_status.Busy,
        { id_counter := 1,
          domains := [{ id := 1, subscheduler := 0, ref := 2, name := "default",
                        timeslice := 1000000, preempt_grace := 50000 }],
          active_domain := none, shadow_domain := none })) ∧
    (nvgpu_nvs_del_domain
        (registry_run
          { id_counter := 1,
            domains := [{ id := 1, subscheduler := 0, ref := 2, name := "default",
                          timeslice := 1000000, preempt_grace := 50000 }],
            active_domain := none, shadow_domain := none }
          (List.replicate (2 - 1) (registry_op.domain_put 1))) 1).1 = nvs_status.ok :=
  have h := nvgpu_nvs_del_domain_busy_until_released
    { id_counter := 1,
      domains := [{ id := 1, subscheduler := 0, ref := 2, name := "default",
                    timeslice := 1000000, preempt_grace := 50000 }],
      active_domain := none, shadow_domain := none } 1
    { id := 1, subscheduler := 0, ref := 2, name := "default",
      timeslice := 1000000, preempt_grace := 50000 }
    ⟨by simp, by simp, by simp⟩ rfl
  ⟨(h.1 (by decide)).1, (h.2.2.2 (by simp) (by simp)).1⟩

/-- C21: on a freshly created scheduler, adding "default" with timeslice
1000000 and preempt grace 50000 yields domain id 1; adding "default" again
fails with `DuplicateName` and leaves the registry unchanged; removing domain
1 then succeeds and a lookup of id 1 reports not found. In general, after any
run of registry requests from a fresh scheduler, the ids of the live domains
are distinct and at most `id_counter` and their names are distinct; a
successful add returns `id_counter + 1`, an id no live domain carries, under
a name no live domain carries, and moves `id_counter` to it; and no request
lowers `id_counter`. -/
theorem nvgpu_nvs_add_domain_default_scenario :
    nvgpu_nvs_add_domain fresh_scheduler "default" 1000000 50000 true
      = (nvs_status.ok,
         { id_counter := 1,
           domains := [{ id := 1, subscheduler := 0, ref := 1, name := "default",
                         timeslice := 1000000, preempt_grace := 50000 }],
           active_domain := none, shadow_domain := none },
         some 1) ∧
    (∀ timeslice preempt_grace alloc_ok,
      nvgpu_nvs_add_domain
          (nvgpu_nvs_add_domain fresh_scheduler "default" 1000000 50000 true).2.1
          "default" timeslice preempt_grace alloc_ok
        = (nvs_status.DuplicateName,
           (nvgpu_nvs_add_domain fresh_scheduler "default" 1000000 50000 true).2.1, none)) ∧
    (nvgpu_nvs_del_domain
        (nvgpu_nvs_add_domain fresh_scheduler "default" 1000000 50000 true).2.1 1).1
      = nvs_status.ok ∧
    nvgpu_nvs_domain_by_id
        (nvgpu_nvs_del_domain
          (nvgpu_nvs_add_domain fresh_scheduler "default" 1000000 50000 true).2.1 1).2 1
      = none ∧
    (∀ ops, registry_inv (registry_run fresh_scheduler ops)) ∧
    (∀ ops name timeslice preempt_grace alloc_ok,
      (nvgpu_nvs_add_domain (registry_run fresh_scheduler ops)
          name timeslice preempt_grace alloc_ok).1 = nvs_status.ok →
      (nvgpu_nvs_add_domain (registry_run fresh_scheduler ops)
          name timeslice preempt_grace alloc_ok).2.2
        = some ((registry_run fresh_scheduler ops).id_counter + 1) ∧
      (nvgpu_nvs_add_domain (registry_run fresh_scheduler ops)
          name timeslice preempt_grace alloc_ok).2.1.id_counter
        = (registry_run fresh_scheduler ops).id_counter + 1 ∧
      nvgpu_nvs_domain_by_id (registry_run fresh_scheduler ops)
          ((registry_run fresh_scheduler ops).id_counter + 1) = none ∧
      nvgpu_nvs_domain_by_name (registry_run fresh_scheduler ops) name = none) ∧
    (∀ ops more,
      (registry_run fresh_scheduler ops).id_counter
        ≤ (registry_run (registry_run fresh_scheduler ops) more).id_counter) := by
  have hfresh : registry_inv fresh_scheduler :=
    ⟨fun d hd => absurd hd (List.not_mem_nil d), List.nodup_nil, List.nodup_nil⟩
  refine ⟨rfl, fun _ _ _ => rfl, rfl, rfl, ?_, ?_, ?_⟩
  · exact fun ops => (registry_inv_run fresh_scheduler ops hfresh).1
  · intro ops name timeslice preempt_grace alloc_ok hok
    obtain ⟨hnone, heq⟩ := nvgpu_nvs_add_domain_ok _ name timeslice preempt_grace alloc_ok hok
    have hinv := (registry_inv_run fresh_scheduler ops hfresh).1
    rw [heq]
    refine ⟨rfl, rfl, ?_, hnone⟩
    unfold nvgpu_nvs_domain_by_id
    rw [List.find?_eq_none]
    intro d hd
    have := hinv.1 d hd
    simp only [beq_iff_eq]
    omega
  · intro ops more
    exact (registry_inv_run _ more (registry_inv_run fresh_scheduler ops hfresh).1).2

/-- C21, the general part at a run that adds "default" and then "compute":
the second add returns id 2. -/
theorem nvgpu_nvs_add_domain_default_scenario_witness :
    (nvgpu_nvs_add_domain
        (registry_run fresh_scheduler [registry_op.add_domain "default" 1000000 50000 true])
        "compute" 2000000 50000 true).2.2
      = some ((registry_run fresh_scheduler
          [registry_op.add_domain "default" 1000000 50000 true]).id_counter + 1) :=
  (nvgpu_nvs_add_domain_default_scenario.2.2.2.2.2.1
    [registry_op.add_domain "default" 1000000 50000 true] "compute" 2000000 50000 true
    rfl).1

end nvs

namespace gr_gm20b

/-! ## Software methods -/

/-- C27: with the two class numbers distinct, `gr_gm20b_handle_sw_method`
returns `-EINVAL` exactly when `class_num` is `MAXWELL_COMPUTE_B` or
`MAXWELL_B` and `offset << 2` (in `u32` arithmetic) is none of that class's
handled methods, and then it has invoked no handler; it returns 0 otherwise;
for every other `class_num` it returns 0 and invokes no handler; and when it
returns 0 for one of the two classes it has invoked exactly the one handler
the method selects, with the given data. -/
theorem gr_gm20b_handle_sw_method_result (K : sw_method_ids) (class_num offset data : Nat)
    (hclass : K.MAXWELL_COMPUTE_B ≠ K.MAXWELL_B) :
    ((gr_gm20b_handle_sw_method K class_num offset data).1 = -EINVAL ↔
      (class_num = K.MAXWELL_COMPUTE_B ∧
        shl2_u32 offset ≠ K.NVB1C0_SET_SHADER_EXCEPTIONS) ∨
      (class_num = K.MAXWELL_B ∧
        shl2_u32 offset ≠ K.NVB197_SET_SHADER_EXCEPTIONS ∧
        shl2_u32 offset ≠ K.NVB197_SET_CIRCULAR_BUFFER_SIZE ∧
        shl2_u32 offset ≠ K.NVB197_SET_ALPHA_CIRCULAR_BUFFER_SIZE)) ∧
    ((gr_gm20b_handle_sw_method K class_num offset data).1 = -EINVAL →
      (gr_gm20b_handle_sw_method K class_num offset data).2 = []) ∧
    ((gr_gm20b_handle_sw_method K class_num offset data).1 = 0 ∨
      (gr_gm20b_handle_sw_method K class_num offset data).1 = -EINVAL) ∧
    (class_num ≠ K.MAXWELL_COMPUTE_B → class_num ≠ K.MAXWELL_B →
      gr_gm20b_handle_sw_method K class_num offset data = (0, [])) ∧
    (class_num = K.MAXWELL_COMPUTE_B →
      shl2_u32 offset = K.NVB1C0_SET_SHADER_EXCEPTIONS →
      gr_gm20b_handle_sw_method K class_num offset data
        = (0, [sw_handler_call.gk20a_gr_set_shader_exceptions data])) ∧
    (class_num = K.MAXWELL_B →
      shl2_u32 offset = K.NVB197_SET_SHADER_EXCEPTIONS →
      gr_gm20b_handle_sw_method K class_num offset data
        = (0, [sw_handler_call.gk20a_gr_set_shader_exceptions data])) ∧
    (class_num = K.MAXWELL_B →
      shl2_u32 offset ≠ K.NVB197_SET_SHADER_EXCEPTIONS →
      shl2_u32 offset = K.NVB197_SET_CIRCULAR_BUFFER_SIZE →
      gr_gm20b_handle_sw_method K class_num offset data
        = (0, [sw_handler_call.set_circular_buffer_size data])) ∧
    (class_num = K.MAXWELL_B →
      shl2_u32 offset ≠ K.NVB197_SET_SHADER_EXCEPTIONS →
      shl2_u32 offset ≠ K.NVB197_SET_CIRCULAR_BUFFER_SIZE →
      shl2_u32 offset = K.NVB197_SET_ALPHA_CIRCULAR_BUFFER_SIZE →
      gr_gm20b_handle_sw_method K class_num offset data
        = (0, [sw_handler_call.set_alpha_circular_buffer_size data])) := by
  have hE : (-EINVAL : Int) ≠ 0 := by decide
  have hE0 : (0 : Int) ≠ -EINVAL := by decide
  unfold gr_gm20b_handle_sw_method
  generalize shl2_u32 offset = m
  by_cases c1 : class_num = K.MAXWELL_COMPUTE_B
  · have c2 : ¬ class_num = K.MAXWELL_B := fun h => hclass (c1 ▸ h)
    by_cases m1 : m = K.NVB1C0_SET_SHADER_EXCEPTIONS
    · simp [c1, c2, m1, hE0, hclass]
    · simp [c1, c2, m1, hE, hclass]
  · by_cases c2 : class_num = K.MAXWELL_B
    · by_cases m1 : m = K.NVB197_SET_SHADER_EXCEPTIONS
      · simp [c1, c2, m1, hE0, Ne.symm hclass]
      · by_cases m2 : m = K.NVB197_SET_CIRCULAR_BUFFER_SIZE
        · have m1b : ¬ K.NVB197_SET_CIRCULAR_BUFFER_SIZE = K.NVB197_SET_SHADER_EXCEPTIONS :=
            fun h => m1 (m2.trans h)
          simp [c1, c2, m1b, m2, hE0, Ne.symm hclass]
        · by_cases m3 : m = K.NVB197_SET_ALPHA_CIRCULAR_BUFFER_SIZE
          · have m1b : ¬ K.NVB197_SET_ALPHA_CIRCULAR_BUFFER_SIZE
                = K.NVB197_SET_SHADER_EXCEPTIONS := fun h => m1 (m3.trans h)
            have m2b : ¬ K.NVB197_SET_ALPHA_CIRCULAR_BUFFER_SIZE
                = K.NVB197_SET_CIRCULAR_BUFFER_SIZE := fun h => m2 (m3.trans h)
            simp [c1, c2, m1b, m2b, m3, hE0, Ne.symm hclass]
          · simp [c1, c2, m1, m2, m3, hE, Ne.symm hclass]
    · simp [c1, c2, hE0]

/-- C27, at the sample ids: method 0x1280 of `MAXWELL_B` (offset 0x4a0) sets
the circular buffer size, and an unknown method of `MAXWELL_COMPUTE_B` fails. -/
theorem gr_gm20b_handle_sw_method_result_witness :
    sample_sw_method_ids.MAXWELL_COMPUTE_B ≠ sample_sw_method_ids.MAXWELL_B ∧
    gr_gm20b_handle_sw_method sample_sw_method_ids 0xB197 0x4a0 7
      = (0, [sw_handler_call.set_circular_buffer_size 7]) ∧
    (gr_gm20b_handle_sw_method sample_sw_method_ids 0xB1C0 0x4a0 7).1 = -EINVAL :=
  ⟨by decide,
   (gr_gm20b_handle_sw_method_result sample_sw_method_ids 0xB197 0x4a0 7 (by decide)).2.2.2.2.2.2.1
     rfl (by decide) (by decide),
   (gr_gm20b_handle_sw_method_result sample_sw_method_ids 0xB1C0 0x4a0 7 (by decide)).1.2
     (Or.inl ⟨rfl, by decide⟩)⟩

/-! ## The skip table -/

theorem c_logical_or_le_one (a b : Nat) : c_logical_or a b ≤ 1 := by
  unfold c_logical_or
  split_ifs <;> omega

/-- C28 (failing input): with skip mask 2 for GPC 0 and 0 for the others, and
mask fields of eight bits, the bitwise combination for register 0 is 2, but
`gr_gm20b_init_fs_state` writes 1 to register 0, whose field 0 is 1 and not
the mask 2; and whatever the masks and the field encoders are, every value it
writes to a skip-table register is 0 or 1. -/
theorem gr_gm20b_init_fs_state_skip_table_logical_or :
    skip_table_bitwise sample_skip_table_fields [2, 0, 0, 0] 0 = 2 ∧
    (gr_gm20b_init_fs_state_skip_table sample_skip_table_fields
        { gpc_count := 1, tpc_count := 2, max_tpc_count := 2, max_tpc_per_gpc_count := 2,
          gpc_tpc_count := [2], gpc_ppc_count := [1], pes_tpc_count := [[2]],
          gpc_skip_mask := [2, 0, 0, 0],
          attrib_cb_default_size := 0, alpha_cb_default_size := 0,
          attrib_cb_size := 0, alpha_cb_size := 0 }).head? = some (0, 1) ∧
    (1 &&& 0xff) ≠ 2 ∧
    (∀ (F : skip_table_fields) (gr : gr_gk20a) (w : Nat × Nat),
      w ∈ gr_gm20b_init_fs_state_skip_table F gr → w.2 ≤ 1) := by
  refine ⟨by decide, by decide, by decide, ?_⟩
  intro F gr w hw
  unfold gr_gm20b_init_fs_state_skip_table at hw
  obtain ⟨n, _, rfl⟩ := List.mem_map.1 hw
  exact c_logical_or_le_one _ _

/-! ## SM numbering -/

theorem u32_inc_of_lt (x : Nat) (h : x + 1 < 2 ^ 32) : u32_inc x = x + 1 := by
  unfold u32_inc
  exact Nat.mod_eq_of_lt h

theorem sm_ids_flat (gr : gr_gk20a) :
    gr_gm20b_init_fs_state_sm_ids gr
      = (sm_visit_order gr).foldl (fun st p => sm_id_step gr p.2 st p.1)
          { sm_id := 0, writes := [] } := by
  unfold gr_gm20b_init_fs_state_sm_ids sm_visit_order
  rw [List.flatMap_def, List.foldl_flatten, List.foldl_map]
  congr 1
  funext st tpc_index
  rw [List.foldl_map]

theorem sm_fold (gr : gr_gk20a) (ps : List (Nat × Nat)) (st : sm_id_state)
    (h1 : st.sm_id = st.writes.length) (h2 : st.writes.length + ps.length < 2 ^ 32) :
    (ps.foldl (fun st p => sm_id_step gr p.2 st p.1) st).sm_id
      = (ps.foldl (fun st p => sm_id_step gr p.2 st p.1) st).writes.length ∧
    (ps.foldl (fun st p => sm_id_step gr p.2 st p.1) st).writes
      = st.writes ++ (List.enumFrom st.sm_id (sm_selected gr ps)).map
          fun ip => { gpc_index := ip.2.1, tpc_index := ip.2.2, sm_id := ip.1 } := by
  induction ps generalizing st with
  | nil => simp [sm_selected, h1]
  | cons p ps ih =>
    rw [List.foldl_cons]
    rw [List.length_cons] at h2
    by_cases hv : p.2 < gr.gpc_tpc_count.getD p.1 0
    · have hstep : sm_id_step gr p.2 st p.1
          = { sm_id := st.sm_id + 1,
              writes := st.writes ++
                [{ gpc_index := p.1, tpc_index := p.2, sm_id := st.sm_id }] } := by
        unfold sm_id_step
        rw [if_pos hv, u32_inc_of_lt _ (by omega)]
      have hsel : sm_selected gr (p :: ps) = p :: sm_selected gr ps := by
        unfold sm_selected
        rw [List.filter_cons_of_pos (by simpa using hv)]
      rw [hstep, hsel]
      obtain ⟨i1, i2⟩ := ih
        { sm_id := st.sm_id + 1,
          writes := st.writes ++
            [{ gpc_index := p.1, tpc_index := p.2, sm_id := st.sm_id }] }
        (by simp [h1]) (by simp; omega)
      refine ⟨i1, ?_⟩
      rw [i2]
      simp [List.enumFrom_cons]
    · have hstep : sm_id_step gr p.2 st p.1 = st := by
        unfold sm_id_step
        rw [if_neg hv]
      have hsel : sm_selected gr (p :: ps) = sm_selected gr ps := by
        unfold sm_selected
        rw [List.filter_cons_of_neg (by simpa using hv)]
      rw [hstep, hsel]
      exact ih st h1 (by omega)

theorem sm_visit_order_length (gr : gr_gk20a) :
    (sm_visit_order gr).length = gr.max_tpc_per_gpc_count * gr.gpc_count := by
  unfold sm_visit_order
  rw [List.length_flatMap]
  have hc : (List.length ∘ fun tpc_index : Nat =>
      (List.range gr.gpc_count).map fun gpc_index => (gpc_index, tpc_index))
      = fun _ => gr.gpc_count := by
    funext t
    simp
  rw [hc]
  simp

theorem sum_ite_lt (c n : Nat) :
    ((List.range n).map fun t => if t < c then 1 else 0).sum = min c n := by
  induction n with
  | zero => simp
  | succ n ih =>
    rw [List.range_succ, List.map_append, List.sum_append, ih]
    simp only [List.map_cons, List.map_nil, List.sum_cons, List.sum_nil]
    split_ifs <;> omega

theorem sm_selected_count (gr : gr_gk20a) (gs : List Nat) (n : Nat) :
    ((List.range n).map fun t =>
        (sm_selected gr (gs.map fun g => (g, t))).length).sum
      = (gs.map fun g => min (gr.gpc_tpc_count.getD g 0) n).sum := by
  induction gs with
  | nil => simp [sm_selected]
  | cons g gs ih =>
    have hc : ∀ t, (sm_selected gr ((g :: gs).map fun g => (g, t))).length
        = (if t < gr.gpc_tpc_count.getD g 0 then 1 else 0)
          + (sm_selected gr (gs.map fun g => (g, t))).length := by
      intro t
      unfold sm_selected
      rw [List.map_cons]
      by_cases hv : t < gr.gpc_tpc_count.getD g 0
      · rw [List.filter_cons_of_pos (by simpa using hv), if_pos hv, List.length_cons]
        omega
      · rw [List.filter_cons_of_neg (by simpa using hv), if_neg hv]
        omega
    simp only [hc]
    rw [List.sum_map_add, ih, sum_ite_lt]
    simp

theorem sm_selected_visit_length (gr : gr_gk20a) :
    (sm_selected gr (sm_visit_order gr)).length
      = ((List.range gr.gpc_count).map fun g =>
          min (gr.gpc_tpc_count.getD g 0) gr.max_tpc_per_gpc_count).sum := by
  rw [← sm_selected_count gr (List.range gr.gpc_count) gr.max_tpc_per_gpc_count]
  unfold sm_selected sm_visit_order
  rw [List.filter_flatMap, List.length_flatMap]
  rfl

theorem sm_ids_result (gr : gr_gk20a)
    (hno : gr.gpc_count * gr.max_tpc_per_gpc_count < 2 ^ 32) :
    (gr_gm20b_init_fs_state_sm_ids gr).sm_id
      = (gr_gm20b_init_fs_state_sm_ids gr).writes.length ∧
    (gr_gm20b_init_fs_state_sm_ids gr).writes
      = (List.enumFrom 0 (sm_selected gr (sm_visit_order gr))).map
          fun ip => { gpc_index := ip.2.1, tpc_index := ip.2.2, sm_id := ip.1 } := by
  rw [sm_ids_flat]
  have h := sm_fold gr (sm_visit_order gr) { sm_id := 0, writes := [] } rfl
    (by rw [sm_visit_order_length, Nat.mul_comm]; simpa using hno)
  simpa using h

/-- C29: when `gpc_count * max_tpc_per_gpc_count` fits in a `u32` and
`gpc_tpc_count` has an entry for every GPC, the SM numbering loop of
`gr_gm20b_init_fs_state` gives ids to exactly the pairs `(gpc, tpc)` with
`gpc < gpc_count`, `tpc < max_tpc_per_gpc_count` and
`tpc < gpc_tpc_count[gpc]`, in TPC-major order (`tpc_index` ascending, then
`gpc_index` ascending); the ids are 0, 1, ..., N-1 in that order, so pairwise
distinct, where N is the sum over the GPCs of
`min(gpc_tpc_count[gpc], max_tpc_per_gpc_count)`, and `sm_id` ends at N; and
whenever `gpc_count <= proj_scal_max_gpcs` and
`max_tpc_per_gpc_count <= proj_scal_max_tpc_per_gpc`, every index written in
`sm_id_to_gpc_id` is below the length of that array. -/
theorem gr_gm20b_init_fs_state_sm_ids_consecutive (gr : gr_gk20a)
    (hno : gr.gpc_count * gr.max_tpc_per_gpc_count < 2 ^ 32)
    (hlen : gr.gpc_count ≤ gr.gpc_tpc_count.length) :
    ((gr_gm20b_init_fs_state_sm_ids gr).writes.map fun w => (w.gpc_index, w.tpc_index))
      = (sm_visit_order gr).filter
          (fun p => decide (p.2 < gr.gpc_tpc_count.getD p.1 0)) ∧
    (∀ g t, (g, t) ∈ (gr_gm20b_init_fs_state_sm_ids gr).writes.map
          (fun w => (w.gpc_index, w.tpc_index)) ↔
        g < gr.gpc_count ∧ t < gr.max_tpc_per_gpc_count ∧
          ∃ hg : g < gr.gpc_tpc_count.length, t < gr.gpc_tpc_count.get ⟨g, hg⟩) ∧
    ((gr_gm20b_init_fs_state_sm_ids gr).writes.map fun w => w.sm_id)
      = List.range (gr_gm20b_init_fs_state_sm_ids gr).writes.length ∧
    ((gr_gm20b_init_fs_state_sm_ids gr).writes.map fun w => w.sm_id).Nodup ∧
    (gr_gm20b_init_fs_state_sm_ids gr).writes.length
      = ((List.range gr.gpc_count).map fun g =>
          min (gr.gpc_tpc_count.getD g 0) gr.max_tpc_per_gpc_count).sum ∧
    (gr_gm20b_init_fs_state_sm_ids gr).sm_id
      = (gr_gm20b_init_fs_state_sm_ids gr).writes.length ∧
    (∀ proj_scal_max_gpcs_v proj_scal_max_tpc_per_gpc_v,
      gr.gpc_count ≤ proj_scal_max_gpcs_v →
      gr.max_tpc_per_gpc_count ≤ proj_scal_max_tpc_per_gpc_v →
      ∀ w ∈ (gr_gm20b_init_fs_state_sm_ids gr).writes,
        w.sm_id < proj_scal_max_gpcs_v * proj_scal_max_tpc_per_gpc_v) := by
  obtain ⟨r1, r2⟩ := sm_ids_result gr hno
  have hpairs : ((gr_gm20b_init_fs_state_sm_ids gr).writes.map
      fun w => (w.gpc_index, w.tpc_index)) = sm_selected gr (sm_visit_order gr) := by
    rw [r2, List.map_map]
    have hc : ((fun w : sm_id_write => (w.gpc_index, w.tpc_index)) ∘
        fun ip : Nat × Nat × Nat =>
          ({ gpc_index := ip.2.1, tpc_index := ip.2.2, sm_id := ip.1 } : sm_id_write))
        = Prod.snd := by
      funext ip
      rfl
    rw [hc, List.enumFrom_map_snd]
  have hlenw : (gr_gm20b_init_fs_state_sm_ids gr).writes.length
      = (sm_selected gr (sm_visit_order gr)).length := by
    rw [← hpairs, List.length_map]
  have hids : ((gr_gm20b_init_fs_state_sm_ids gr).writes.map fun w => w.sm_id)
      = List.range (gr_gm20b_init_fs_state_sm_ids gr).writes.length := by
    rw [hlenw, r2, List.map_map]
    have hc : ((fun w : sm_id_write => w.sm_id) ∘
        fun ip : Nat × Nat × Nat =>
          ({ gpc_index := ip.2.1, tpc_index := ip.2.2, sm_id := ip.1 } : sm_id_write))
        = Prod.fst := by
      funext ip
      rfl
    rw [hc, List.enumFrom_map_fst, List.range_eq_range']
  refine ⟨hpairs, ?_, hids, ?_, ?_, r1, ?_⟩
  · intro g t
    rw [hpairs]
    unfold sm_selected sm_visit_order
    simp only [List.mem_filter, List.mem_flatMap, List.mem_map, List.mem_range,
      Prod.mk.injEq, decide_eq_true_eq]
    constructor
    · rintro ⟨⟨t1, ht1, g1, hg1, rfl, rfl⟩, hv⟩
      have hg : g1 < gr.gpc_tpc_count.length := by omega
      refine ⟨hg1, ht1, hg, ?_⟩
      rw [List.getD_eq_getElem _ _ hg] at hv
      exact hv
    · rintro ⟨hg1, ht1, hg, hv⟩
      refine ⟨⟨t, ht1, g, hg1, rfl, rfl⟩, ?_⟩
      rw [List.getD_eq_getElem _ _ hg]
      exact hv
  · rw [hids]
    exact List.nodup_range _
  · rw [hlenw]
    exact sm_selected_visit_length gr
  · intro mg mt hg ht w hw
    have h1 : w.sm_id ∈ List.range (gr_gm20b_init_fs_state_sm_ids gr).writes.length := by
      rw [← hids]
      exact List.mem_map_of_mem _ hw
    have h2 := List.mem_range.1 h1
    have h3 : (sm_selected gr (sm_visit_order gr)).length ≤ (sm_visit_order gr).length :=
      List.length_filter_le _ _
    rw [sm_visit_order_length] at h3
    have h4 : gr.max_tpc_per_gpc_count * gr.gpc_count ≤ mg * mt := by
      rw [Nat.mul_comm]
      exact Nat.mul_le_mul hg ht
    omega

/-- C29, at a chip with two GPCs of two and one TPC and at most two TPCs per
GPC: the ids 0, 1, 2 go to (gpc 0, tpc 0), (gpc 1, tpc 0), (gpc 0, tpc 1). -/
theorem gr_gm20b_init_fs_state_sm_ids_consecutive_witness :
    ((gr_gm20b_init_fs_state_sm_ids
        { gpc_count := 2, tpc_count := 3, max_tpc_count := 4, max_tpc_per_gpc_count := 2,
          gpc_tpc_count := [2, 1], gpc_ppc_count := [1, 1], pes_tpc_count := [[2, 1]],
          gpc_skip_mask := [0, 0],
          attrib_cb_default_size := 0, alpha_cb_default_size := 0,
          attrib_cb_size := 0, alpha_cb_size := 0 }).writes.map fun w => w.sm_id)
      = List.range (gr_gm20b_init_fs_state_sm_ids
        { gpc_count := 2, tpc_count := 3, max_tpc_count := 4, max_tpc_per_gpc_count := 2,
          gpc_tpc_count := [2, 1], gpc_ppc_count := [1, 1], pes_tpc_count := [[2, 1]],
          gpc_skip_mask := [0, 0],
          attrib_cb_default_size := 0, alpha_cb_default_size := 0,
          attrib_cb_size := 0, alpha_cb_size := 0 }).writes.length ∧
    (gr_gm20b_init_fs_state_sm_ids
        { gpc_count := 2, tpc_count := 3, max_tpc_count := 4, max_tpc_per_gpc_count := 2,
          gpc_tpc_count := [2, 1], gpc_ppc_count := [1, 1], pes_tpc_count := [[2, 1]],
          gpc_skip_mask := [0, 0],
          attrib_cb_default_size := 0, alpha_cb_default_size := 0,
          attrib_cb_size := 0, alpha_cb_size := 0 }).writes
      = [⟨0, 0, 0⟩, ⟨1, 0, 1⟩, ⟨0, 1, 2⟩] :=
  ⟨(gr_gm20b_init_fs_state_sm_ids_consecutive
      { gpc_count := 2, tpc_count := 3, max_tpc_count := 4, max_tpc_per_gpc_count := 2,
        gpc_tpc_count := [2, 1], gpc_ppc_count := [1, 1], pes_tpc_count := [[2, 1]],
        gpc_skip_mask := [0, 0],
        attrib_cb_default_size := 0, alpha_cb_default_size := 0,
        attrib_cb_size := 0, alpha_cb_size := 0 }
      (by decide) (by decide)).2.2.1,
   by decide⟩

/-! ## Circular-buffer chunks -/

theorem to_u32_of_lt (x : Nat) (h : x < 2 ^ 32) : to_u32 x = x := by
  unfold to_u32
  exact Nat.mod_eq_of_lt h

theorem u32_mul_of_lt (x y : Nat) (h : x * y < 2 ^ 32) : u32_mul x y = x * y := by
  unfold u32_mul
  exact Nat.mod_eq_of_lt h

theorem u32_add_of_lt (x y : Nat) (h : x + y < 2 ^ 32) : u32_add x y = x + y := by
  unfold u32_add
  exact Nat.mod_eq_of_lt h

theorem to_u32_zero : to_u32 0 = 0 := by
  unfold to_u32
  exact Nat.zero_mod _

theorem u32_add_to_u32_mul (x c n : Nat) :
    u32_add (to_u32 x) (u32_mul c n) = to_u32 (x + c * n) := by
  unfold u32_add to_u32 u32_mul
  exact (Nat.add_mod x (c * n) (2 ^ 32)).symm

theorem u32_add_zero_mul (c n : Nat) : u32_add 0 (u32_mul c n) = to_u32 (c * n) := by
  have h := u32_add_to_u32_mul 0 c n
  rw [to_u32_zero, Nat.zero_add] at h
  exact h

theorem cbm_flat (gr : gr_gk20a) (st0 : cbm_state) :
    (List.range gr.gpc_count).foldl
        (fun st gpc_index =>
          (List.range (gr.gpc_ppc_count.getD gpc_index 0)).foldl (cbm_step gr gpc_index) st)
        st0
      = (cbm_visit_order gr).foldl (fun st p => cbm_step gr p.1 st p.2) st0 := by
  unfold cbm_visit_order
  rw [List.flatMap_def, List.foldl_flatten, List.foldl_map]
  congr 1
  funext st gpc_index
  rw [List.foldl_map]

theorem cbm_fold (gr : gr_gk20a) (ps : List (Nat × Nat)) (st : cbm_state) (A B : Nat)
    (hA : st.attrib_offset_in_chunk = to_u32 A) (hB : st.alpha_offset_in_chunk = to_u32 B) :
    (ps.foldl (fun st p => cbm_step gr p.1 st p.2) st).writes
      = st.writes ++ cbm_layout gr A B ps := by
  induction ps generalizing st A B with
  | nil => simp [cbm_layout]
  | cons p ps ih =>
    rw [List.foldl_cons]
    rw [ih (cbm_step gr p.1 st p.2) (A + gr.attrib_cb_size * pes_tpc gr p.1 p.2)
      (B + gr.alpha_cb_size * pes_tpc gr p.1 p.2)
      (by unfold cbm_step; dsimp only; rw [hA, u32_add_to_u32_mul])
      (by unfold cbm_step; dsimp only; rw [hB, u32_add_to_u32_mul])]
    unfold cbm_step
    dsimp only
    rw [hA, hB, List.append_assoc]
    rfl

theorem gr_gm20b_commit_global_cb_manager_writes (gr : gr_gk20a) (patch : Bool)
    (begin_err : Int) (beta_granularity max_output_granularity : Nat)
    (hbegin : patch = true → begin_err = 0) :
    ∃ c, gr_gm20b_commit_global_cb_manager gr patch begin_err beta_granularity
          max_output_granularity = (0, some c) ∧
      c.writes = cbm_layout gr 0 (gr.tpc_count * gr.attrib_cb_size) (cbm_visit_order gr) := by
  unfold gr_gm20b_commit_global_cb_manager
  have hn : ¬ (patch = true ∧ begin_err ≠ 0) := fun h => h.2 (hbegin h.1)
  rw [if_neg hn]
  refine ⟨_, rfl, ?_⟩
  dsimp only
  rw [cbm_flat, cbm_fold gr _ _ 0 (gr.tpc_count * gr.attrib_cb_size) to_u32_zero.symm
    (u32_add_zero_mul _ _)]
  rfl

theorem u32_mul_eq (x y : Nat) : u32_mul x y = to_u32 (x * y) := by
  unfold u32_mul to_u32
  rfl

theorem cbm_layout_length (gr : gr_gk20a) (ps : List (Nat × Nat)) (A B : Nat) :
    (cbm_layout gr A B ps).length = ps.length := by
  induction ps generalizing A B with
  | nil => rfl
  | cons p ps ih =>
    unfold cbm_layout
    rw [List.length_cons, List.length_cons, ih]

theorem cbm_layout_get (gr : gr_gk20a) (ps : List (Nat × Nat)) (A B i : Nat) (w : cbm_write)
    (h : (cbm_layout gr A B ps)[i]? = some w) :
    ∃ p, ps[i]? = some p ∧ w.gpc_index = p.1 ∧ w.ppc_index = p.2 ∧
      w.beta_cb_size = to_u32 (gr.attrib_cb_default_size * pes_tpc gr p.1 p.2) ∧
      w.beta_cb_offset = to_u32 (A +
        ((ps.take i).map fun q => gr.attrib_cb_size * pes_tpc gr q.1 q.2).sum) ∧
      w.alpha_cb_size = to_u32 (gr.alpha_cb_default_size * pes_tpc gr p.1 p.2) ∧
      w.alpha_cb_offset = to_u32 (B +
        ((ps.take i).map fun q => gr.alpha_cb_size * pes_tpc gr q.1 q.2).sum) := by
  induction ps generalizing A B i with
  | nil => simp [cbm_layout] at h
  | cons p ps ih =>
    unfold cbm_layout at h
    cases i with
    | zero =>
      rw [List.getElem?_cons_zero] at h
      have hw := (Option.some.inj h).symm
      refine ⟨p, List.getElem?_cons_zero, ?_⟩
      rw [hw]
      refine ⟨rfl, rfl, u32_mul_eq _ _, ?_, u32_mul_eq _ _, ?_⟩
      · simp
      · simp
    | succ i =>
      rw [List.getElem?_cons_succ] at h
      obtain ⟨q, hq, h1, h2, h3, h4, h5, h6⟩ := ih _ _ i h
      refine ⟨q, by rw [List.getElem?_cons_succ]; exact hq, h1, h2, h3, ?_, h5, ?_⟩
      · rw [h4, List.take_succ_cons, List.map_cons, List.sum_cons, Nat.add_assoc]
      · rw [h6, List.take_succ_cons, List.map_cons, List.sum_cons, Nat.add_assoc]

theorem take_sum_le (l : List Nat) (i j : Nat) (h : i ≤ j) :
    (l.take i).sum ≤ (l.take j).sum := by
  induction l generalizing i j with
  | nil => simp
  | cons x l ih =>
    cases i with
    | zero => simp
    | succ i =>
      cases j with
      | zero => omega
      | succ j =>
        rw [List.take_succ_cons, List.take_succ_cons, List.sum_cons, List.sum_cons]
        have := ih i j (by omega)
        omega

theorem take_sum_succ (l : List Nat) (i x : Nat) (h : l[i]? = some x) :
    (l.take (i + 1)).sum = (l.take i).sum + x := by
  rw [List.take_succ, h]
  simp

theorem take_sum_le_sum (l : List Nat) (i : Nat) : (l.take i).sum ≤ l.sum := by
  induction l generalizing i with
  | nil => simp
  | cons x l ih =>
    cases i with
    | zero => simp
    | succ i =>
      rw [List.take_succ_cons, List.sum_cons, List.sum_cons]
      have := ih i
      omega

theorem take_map_mul_sum (c : Nat) (f : Nat × Nat → Nat) (ps : List (Nat × Nat)) (i : Nat) :
    ((ps.take i).map fun q => c * f q).sum = c * ((ps.map f).take i).sum := by
  induction ps generalizing i with
  | nil => simp
  | cons q qs ih =>
    cases i with
    | zero => simp
    | succ i =>
      rw [List.take_succ_cons, List.map_cons, List.map_cons, List.take_succ_cons,
        List.sum_cons, List.sum_cons, ih, Nat.mul_add]

theorem cbm_layout_chunk (gr : gr_gk20a) (ps : List (Nat × Nat))
    (hd1 : gr.attrib_cb_default_size ≤ gr.attrib_cb_size)
    (hd2 : gr.alpha_cb_default_size ≤ gr.alpha_cb_size)
    (hsum : (ps.map fun q => pes_tpc gr q.1 q.2).sum = gr.tpc_count)
    (hno : gr.tpc_count * gr.attrib_cb_size + gr.tpc_count * gr.alpha_cb_size < 2 ^ 32)
    (i : Nat) (w : cbm_write)
    (h : (cbm_layout gr 0 (gr.tpc_count * gr.attrib_cb_size) ps)[i]? = some w) :
    ∃ p, ps[i]? = some p ∧ w.gpc_index = p.1 ∧ w.ppc_index = p.2 ∧
      w.beta_cb_size = gr.attrib_cb_default_size * pes_tpc gr p.1 p.2 ∧
      w.beta_cb_offset
        = gr.attrib_cb_size * ((ps.map fun q => pes_tpc gr q.1 q.2).take i).sum ∧
      w.alpha_cb_size = gr.alpha_cb_default_size * pes_tpc gr p.1 p.2 ∧
      w.alpha_cb_offset = gr.tpc_count * gr.attrib_cb_size
        + gr.alpha_cb_size * ((ps.map fun q => pes_tpc gr q.1 q.2).take i).sum ∧
      ((ps.map fun q => pes_tpc gr q.1 q.2).take (i + 1)).sum
        = ((ps.map fun q => pes_tpc gr q.1 q.2).take i).sum + pes_tpc gr p.1 p.2 ∧
      ((ps.map fun q => pes_tpc gr q.1 q.2).take i).sum + pes_tpc gr p.1 p.2
        ≤ gr.tpc_count := by
  obtain ⟨p, hp, h1, h2, h3, h4, h5, h6⟩ := cbm_layout_get gr ps _ _ i w h
  have hn : (ps.map fun q => pes_tpc gr q.1 q.2)[i]? = some (pes_tpc gr p.1 p.2) := by
    rw [List.getElem?_map, hp]
    rfl
  have hsucc := take_sum_succ _ i _ hn
  have hle := take_sum_le_sum (ps.map fun q => pes_tpc gr q.1 q.2) (i + 1)
  rw [hsum, hsucc] at hle
  rw [take_map_mul_sum, Nat.zero_add] at h4
  rw [take_map_mul_sum] at h6
  have e1 : gr.attrib_cb_size * ((ps.map fun q => pes_tpc gr q.1 q.2).take i).sum
      ≤ gr.tpc_count * gr.attrib_cb_size := by
    rw [Nat.mul_comm gr.tpc_count]
    exact Nat.mul_le_mul_left _ (by omega)
  have e2 : gr.attrib_cb_default_size * pes_tpc gr p.1 p.2
      ≤ gr.tpc_count * gr.attrib_cb_size := by
    rw [Nat.mul_comm gr.tpc_count]
    exact Nat.mul_le_mul hd1 (by omega)
  have e3 : gr.alpha_cb_size * ((ps.map fun q => pes_tpc gr q.1 q.2).take i).sum
      ≤ gr.tpc_count * gr.alpha_cb_size := by
    rw [Nat.mul_comm gr.tpc_count]
    exact Nat.mul_le_mul_left _ (by omega)
  have e4 : gr.alpha_cb_default_size * pes_tpc gr p.1 p.2
      ≤ gr.tpc_count * gr.alpha_cb_size := by
    rw [Nat.mul_comm gr.tpc_count]
    exact Nat.mul_le_mul hd2 (by omega)
  rw [to_u32_of_lt _ (by omega)] at h3 h4 h5 h6
  exact ⟨p, hp, h1, h2, h3, h4, h5, h6, hsucc, hle⟩

/-- C30: `gr_gm20b_commit_global_cb_manager` returns 0 (when the patch begin
does not fail) having made one group of writes per PPC, in loop order over
`(gpc, ppc)`; in `u32` arithmetic the beta offset written for a PPC is the
running sum of `attrib_cb_size * pes_tpc_count` over the PPCs visited before
it, the alpha offset is `tpc_count * attrib_cb_size` plus the running sum of
`alpha_cb_size * pes_tpc_count`, and the sizes written are
`attrib_cb_default_size * pes_tpc_count` and
`alpha_cb_default_size * pes_tpc_count`. With the sizes set by
`gr_gm20b_calc_global_ctx_buffer_size` (default plus half of it), the sum of
`pes_tpc_count` over the visited PPCs equal to `tpc_count`, and no 32-bit
overflow, these values are the exact sums, every beta chunk ends at or before
the next beta chunk begins, likewise for the alpha chunks, and every beta
chunk ends at or before every alpha chunk begins. -/
theorem gr_gm20b_commit_global_cb_manager_chunks_disjoint (gr : gr_gk20a) (patch : Bool)
    (begin_err : Int) (beta_granularity max_output_granularity : Nat)
    (hbegin : patch = true → begin_err = 0) :
    ∃ c, gr_gm20b_commit_global_cb_manager gr patch begin_err beta_granularity
          max_output_granularity = (0, some c) ∧
      c.writes.length = (cbm_visit_order gr).length ∧
      (∀ (i : Nat) (w : cbm_write), c.writes[i]? = some w →
        ∃ p, (cbm_visit_order gr)[i]? = some p ∧ w.gpc_index = p.1 ∧ w.ppc_index = p.2 ∧
          w.beta_cb_size = to_u32 (gr.attrib_cb_default_size * pes_tpc gr p.1 p.2) ∧
          w.beta_cb_offset = to_u32
            (((cbm_visit_order gr).take i).map
              fun q => gr.attrib_cb_size * pes_tpc gr q.1 q.2).sum ∧
          w.alpha_cb_size = to_u32 (gr.alpha_cb_default_size * pes_tpc gr p.1 p.2) ∧
          w.alpha_cb_offset = to_u32 (gr.tpc_count * gr.attrib_cb_size +
            (((cbm_visit_order gr).take i).map
              fun q => gr.alpha_cb_size * pes_tpc gr q.1 q.2).sum)) ∧
      (∀ (gr0 : gr_gk20a) (beta_gran alpha_gran : Nat),
        gr = (gr_gm20b_calc_global_ctx_buffer_size gr0 beta_gran alpha_gran).1 →
        gr0.attrib_cb_default_size + gr0.attrib_cb_default_size / 2 < 2 ^ 32 →
        gr0.alpha_cb_default_size + gr0.alpha_cb_default_size / 2 < 2 ^ 32 →
        ((cbm_visit_order gr).map fun q => pes_tpc gr q.1 q.2).sum = gr.tpc_count →
        gr.tpc_count * gr.attrib_cb_size + gr.tpc_count * gr.alpha_cb_size < 2 ^ 32 →
        (∀ (i : Nat) (w : cbm_write), c.writes[i]? = some w →
          ∃ p, (cbm_visit_order gr)[i]? = some p ∧
            w.beta_cb_size = gr.attrib_cb_default_size * pes_tpc gr p.1 p.2 ∧
            w.beta_cb_offset = (((cbm_visit_order gr).take i).map
              fun q => gr.attrib_cb_size * pes_tpc gr q.1 q.2).sum ∧
            w.alpha_cb_size = gr.alpha_cb_default_size * pes_tpc gr p.1 p.2 ∧
            w.alpha_cb_offset = gr.tpc_count * gr.attrib_cb_size +
              (((cbm_visit_order gr).take i).map
                fun q => gr.alpha_cb_size * pes_tpc gr q.1 q.2).sum) ∧
        (∀ (i j : Nat) (wi wj : cbm_write), i < j → c.writes[i]? = some wi → c.writes[j]? = some wj →
          wi.beta_cb_offset + wi.beta_cb_size ≤ wj.beta_cb_offset ∧
          wi.alpha_cb_offset + wi.alpha_cb_size ≤ wj.alpha_cb_offset) ∧
        (∀ (i j : Nat) (wi wj : cbm_write), c.writes[i]? = some wi → c.writes[j]? = some wj →
          wi.beta_cb_offset + wi.beta_cb_size ≤ wj.alpha_cb_offset)) := by
  obtain ⟨c, hc, hw⟩ := gr_gm20b_commit_global_cb_manager_writes gr patch begin_err
    beta_granularity max_output_granularity hbegin
  refine ⟨c, hc, ?_, ?_, ?_⟩
  · rw [hw, cbm_layout_length]
  · intro i w h
    rw [hw] at h
    obtain ⟨p, hp, h1, h2, h3, h4, h5, h6⟩ := cbm_layout_get gr _ _ _ i w h
    rw [Nat.zero_add] at h4
    exact ⟨p, hp, h1, h2, h3, h4, h5, h6⟩
  · intro gr0 beta_gran alpha_gran hgr hd1 hd2 hsum hno
    have a1 : gr.attrib_cb_default_size ≤ gr.attrib_cb_size := by
      rw [hgr]
      unfold gr_gm20b_calc_global_ctx_buffer_size
      dsimp only
      rw [u32_add_of_lt _ _ hd1]
      omega
    have a2 : gr.alpha_cb_default_size ≤ gr.alpha_cb_size := by
      rw [hgr]
      unfold gr_gm20b_calc_global_ctx_buffer_size
      dsimp only
      rw [u32_add_of_lt _ _ hd2]
      omega
    rw [hw]
    refine ⟨?_, ?_, ?_⟩
    · intro i w h
      obtain ⟨p, hp, _, _, h3, h4, h5, h6, _, _⟩ :=
        cbm_layout_chunk gr _ a1 a2 hsum hno i w h
      refine ⟨p, hp, h3, ?_, h5, ?_⟩
      · rw [h4, take_map_mul_sum]
      · rw [h6, take_map_mul_sum]
    · intro i j wi wj hij hi hj
      obtain ⟨p, _, _, _, i3, i4, i5, i6, isucc, _⟩ :=
        cbm_layout_chunk gr _ a1 a2 hsum hno i wi hi
      obtain ⟨q, _, _, _, _, j4, _, j6, _, _⟩ :=
        cbm_layout_chunk gr _ a1 a2 hsum hno j wj hj
      have hmono := take_sum_le ((cbm_visit_order gr).map fun q => pes_tpc gr q.1 q.2)
        (i + 1) j hij
      rw [isucc] at hmono
      have f1 := Nat.mul_le_mul_right (pes_tpc gr p.1 p.2) a1
      have f2 := Nat.mul_le_mul_right (pes_tpc gr p.1 p.2) a2
      have g1 := Nat.mul_le_mul_left gr.attrib_cb_size hmono
      have g2 := Nat.mul_le_mul_left gr.alpha_cb_size hmono
      rw [Nat.mul_add] at g1 g2
      rw [i3, i4, i5, i6, j4, j6]
      constructor <;> omega
    · intro i j wi wj hi hj
      obtain ⟨p, _, _, _, i3, i4, _, _, _, ile⟩ :=
        cbm_layout_chunk gr _ a1 a2 hsum hno i wi hi
      obtain ⟨q, _, _, _, _, _, _, j6, _, _⟩ :=
        cbm_layout_chunk gr _ a1 a2 hsum hno j wj hj
      have f1 := Nat.mul_le_mul_right (pes_tpc gr p.1 p.2) a1
      have g1 := Nat.mul_le_mul_left gr.attrib_cb_size ile
      rw [Nat.mul_add, Nat.mul_comm gr.attrib_cb_size gr.tpc_count] at g1
      rw [i3, i4, j6]
      omega

/-- C30, at the sample chip after `gr_gm20b_calc_global_ctx_buffer_size`
(sizes 6 and 3): the commit without patching returns 0 and every beta chunk
ends at or before every alpha chunk begins. -/
theorem gr_gm20b_commit_global_cb_manager_chunks_disjoint_witness :
    ∃ c, gr_gm20b_commit_global_cb_manager
          (gr_gm20b_calc_global_ctx_buffer_size sample_gr 1 1).1 false 0 1 1 = (0, some c) ∧
      c.writes.length = 2 ∧
      (∀ (i j : Nat) (wi wj : cbm_write), c.writes[i]? = some wi → c.writes[j]? = some wj →
        wi.beta_cb_offset + wi.beta_cb_size ≤ wj.alpha_cb_offset) :=
  (gr_gm20b_commit_global_cb_manager_chunks_disjoint
    (gr_gm20b_calc_global_ctx_buffer_size sample_gr 1 1).1 false 0 1 1 (by decide)).imp
    fun _ h => ⟨h.1, h.2.1,
      (h.2.2.2 sample_gr 1 1 rfl (by decide) (by decide) (by decide) (by decide)).2.2⟩

end gr_gm20b
